import Mathlib

/-
Verification development for the dsengine scene-graph core
(src/engine/arm9/src/hierarchy.rs, src/common/src/lib.rs).

Machine integers (u32 / NonZeroU32) are modelled as Nat; the catalog index
arithmetic never overflows in the scenarios considered.  Rust Option is Lean
Option; a Rust panic / expect / failed assertion is modelled by the enclosing
operation returning Option.none ("fatal abort").  Box of dyn Script is
modelled by a deep-embedded command language ScriptProg: the engine is
parametric in script behaviour, and ScriptProg instantiates the callbacks
with the hierarchy operations they may invoke.
-/

set_option maxHeartbeats 1000000

/-- A generational handle into a pool slot: a (slot index, generation) pair.
Equality requires both fields to match. -/
structure Handle where
  index : Nat
  generation : Nat
deriving DecidableEq

/-- Modelled from the spec: the Pool slot representation (pool.rs is not under
src/; only its callers in hierarchy.rs are).  Spec section 3: each slot holds
either an occupied value plus its current generation, or is free. -/
inductive Slot (v : Type) where
  | occupied (gen : Nat) (val : v)
  | free (gen : Nat)
deriving DecidableEq

def Slot.gen {v : Type} : Slot v → Nat
  | .occupied g _ => g
  | .free g => g

def Slot.isFree {v : Type} : Slot v → Bool
  | .occupied _ _ => false
  | .free _ => true

/-- Modelled from the spec: the generational object pool (pool.rs is not under
src/).  Growable array of slots plus a free list (most recently freed first). -/
structure Pool (v : Type) where
  slots : List (Slot v)
  freeList : List Nat
deriving DecidableEq

def Pool.new {v : Type} : Pool v := ⟨[], []⟩

/-- Current generation of slot i (0 when the index is out of range). -/
def Pool.slotGen {v : Type} (p : Pool v) (i : Nat) : Nat :=
  match p.slots.get? i with
  | some s => s.gen
  | none => 0

/-- Modelled from the spec (section 4.1): add inserts the value, reusing the
most recently freed slot (bumping its generation) if the free list is
non-empty, else appending a new slot at generation 0.  The returned handle is
valid immediately. -/
def Pool.add {v : Type} (p : Pool v) (x : v) : Pool v × Handle :=
  match p.freeList with
  | [] => (⟨p.slots ++ [Slot.occupied 0 x], []⟩, ⟨p.slots.length, 0⟩)
  | i :: rest =>
    let g := p.slotGen i + 1
    (⟨p.slots.set i (Slot.occupied g x), rest⟩, ⟨i, g⟩)

/-- Modelled from the spec (section 4.1): try_borrow returns absence on
generation mismatch or an unoccupied slot. -/
def Pool.try_borrow {v : Type} (p : Pool v) (h : Handle) : Option v :=
  match p.slots.get? h.index with
  | some (Slot.occupied g x) => if g = h.generation then some x else none
  | _ => none

/-- Modelled from the spec (section 4.1): writing through a handle (the
mutation performed via borrow_mut).  Fails (none, modelling the fatal panic)
on generation mismatch or an unoccupied slot. -/
def Pool.try_set {v : Type} (p : Pool v) (h : Handle) (x : v) : Option (Pool v) :=
  match p.slots.get? h.index with
  | some (Slot.occupied g _) =>
    if g = h.generation then some ⟨p.slots.set h.index (Slot.occupied g x), p.freeList⟩
    else none
  | _ => none

/-- Modelled from the spec (section 4.1): destroy frees the slot, increments
its generation and pushes the index onto the free list.  Fails (fatal) on an
invalid handle. -/
def Pool.destroy {v : Type} (p : Pool v) (h : Handle) : Option (Pool v) :=
  match p.slots.get? h.index with
  | some (Slot.occupied g _) =>
    if g = h.generation then
      some ⟨p.slots.set h.index (Slot.free (g + 1)), h.index :: p.freeList⟩
    else none
  | _ => none

def Pool.vec_len {v : Type} (p : Pool v) : Nat := p.slots.length

/-- Modelled from the spec (section 4.1): handle_from_index reconstructs a
handle for index-ordered iteration using the slot's current generation. -/
def Pool.handle_from_index {v : Type} (p : Pool v) (i : Nat) : Handle :=
  ⟨i, p.slotGen i⟩

/-- Transform from hierarchy.rs: an (x, y) coordinate pair (u32 as Nat). -/
structure Transform where
  x : Nat
  y : Nat
deriving DecidableEq

/-- The command language for script callbacks.  A Box of dyn Script is opaque
code operating on the hierarchy through ScriptContext; commands cover the
hierarchy mutations the claims are about: doing nothing, destroying the
node itself, destroying a node by handle, and spawning a prefab. -/
inductive Cmd where
  | nop
  | destroySelf
  | destroyOther (target : Handle)
  | spawn (index : Nat) (parent : Handle)
deriving DecidableEq

/-- A script: a start callback (invoked once) and an update callback (invoked
every scheduling pass while attached), each a command list. -/
structure ScriptProg where
  onStart : List Cmd
  onUpdate : List Cmd
deriving DecidableEq

/-- NodeScriptData from hierarchy.rs: the declared numeric type id
(NonZeroU32 as Nat) plus the type-erased script payload. -/
structure NodeScriptData where
  type_id : Nat
  script : ScriptProg
deriving DecidableEq

/-- Node from hierarchy.rs: tree record with optional parent/child/sibling
handles, name, transform, optional script payload and enabled flag. -/
structure Node where
  child_handle : Option Handle
  parent_handle : Option Handle
  sibling_handle : Option Handle
  name : String
  transform : Transform
  script_data : Option NodeScriptData
  enabled : Bool
deriving DecidableEq

/-- SavedTransform from common/src/lib.rs. -/
structure SavedTransform where
  x : Nat
  y : Nat
deriving DecidableEq

/-- SavedNodeExtension from common/src/lib.rs (not read by the hierarchy). -/
inductive SavedNodeExtension where
  | noExt
  | sprite (graphic_asset : String)
deriving DecidableEq

/-- SavedNode from common/src/lib.rs: a serialized node record.  child_index
and sibling_index are Option NonZeroU32 and parent_index is Option u32 in the
source; all are modelled as Option Nat (absence is the Option being none). -/
structure SavedNode where
  child_index : Option Nat
  parent_index : Option Nat
  sibling_index : Option Nat
  name : String
  transform : SavedTransform
  node_extension : SavedNodeExtension
  script_type_id : Option Nat
  enabled : Bool
deriving DecidableEq

/-- SavedNodeGraph from common/src/lib.rs: an ordered sequence of records. -/
structure SavedNodeGraph where
  nodes : List SavedNode
deriving DecidableEq

/-- Hierarchy from hierarchy.rs: root handle, node pool, LIFO pending-start
stack and the deserialized prefab catalog (the Vec of SavedNodeGraph that
spawn_prefab indexes; graphics assets are irrelevant here).  The start stack
is a Vec pushed/popped at one end; it is modelled as a list whose head is the
top. -/
structure Hierarchy where
  root : Handle
  object_pool : Pool Node
  to_start_stack : List Handle
  saved_prefab_data : List SavedNodeGraph
deriving DecidableEq

def Hierarchy.vec_len (h : Hierarchy) : Nat := h.object_pool.vec_len

def Hierarchy.try_borrow (h : Hierarchy) (hd : Handle) : Option Node :=
  h.object_pool.try_borrow hd

def Hierarchy.handle_from_index (h : Hierarchy) (i : Nat) : Handle :=
  h.object_pool.handle_from_index i

def Hierarchy.set_node (h : Hierarchy) (hd : Handle) (n : Node) : Option Hierarchy :=
  (h.object_pool.try_set hd n).map fun p => { h with object_pool := p }

/-- init_prefab_data from hierarchy.rs: stores the prefab data into the
process-wide PREFAB_DATA global.  The global is modelled as an explicit
Option value (none = uninitialized); the out-of-scope byte codec is elided,
so the stored data is the already-decoded catalog. -/
def init_prefab_data (d : List SavedNodeGraph) : Option (List SavedNodeGraph) :=
  some d

/-- init_script_factory from hierarchy.rs: stores the factory function into
the process-wide SCRIPT_FACTORY global (modelled as an explicit Option). -/
def init_script_factory (f : Nat → ScriptProg) : Option (Nat → ScriptProg) :=
  some f

/-- run_script_factory from hierarchy.rs: asserts the global factory is
initialized (fatal when not, modelled as none) and applies it. -/
def run_script_factory (g : Option (Nat → ScriptProg)) (id : Nat) : Option ScriptProg :=
  match g with
  | some f => some (f id)
  | none => none

/-- The root node built by Hierarchy::new. -/
def rootTemplate : Node :=
  { child_handle := none, parent_handle := none, sibling_handle := none,
    name := "", transform := ⟨0, 0⟩, script_data := none, enabled := true }

/-- Hierarchy::new from hierarchy.rs: allocates the root node into a fresh
pool and unwraps the PREFAB_DATA global (fatal, i.e. none, when the global
was never initialized). -/
def Hierarchy.new (prefabGlobal : Option (List SavedNodeGraph)) : Option Hierarchy :=
  match prefabGlobal with
  | none => none
  | some d =>
    let r := (Pool.new : Pool Node).add rootTemplate
    some ⟨r.2, r.1, [], d⟩

/-- Phase 1 of spawn_prefab: push every template node onto the pool with
placeholder (none) links; the script payload is constructed from the type id
through the (initialized) script factory. -/
def instantiateNode (factory : Nat → ScriptProg) (sn : SavedNode) : Node :=
  { child_handle := none, parent_handle := none, sibling_handle := none,
    name := sn.name, transform := ⟨sn.transform.x, sn.transform.y⟩,
    script_data := sn.script_type_id.map fun id => ⟨id, factory id⟩,
    enabled := sn.enabled }

def phase1 (factory : Nat → ScriptProg) :
    List SavedNode → Pool Node → List Handle → Pool Node × List Handle
  | [], p, acc => (p, acc)
  | sn :: rest, p, acc =>
    let r := p.add (instantiateNode factory sn)
    phase1 factory rest r.1 (acc ++ [r.2])

/-- Resolution of a saved link index: the source evaluates
new_handles[idx as usize], i.e. it indexes the freshly allocated handle list
directly with the stored value (an out-of-range value is a fatal index
panic, modelled as none); an absent index stays absent. -/
def resolveLink (hs : List Handle) : Option Nat → Option (Option Handle)
  | none => some none
  | some idx => (hs.get? idx).map some

/-- One phase-2 wiring step of spawn_prefab on a single node: child and
sibling links come from resolveLink; the parent link is the resolved
parent_index, or the spawn parent when parent_index is absent. -/
def wiredNode (hs : List Handle) (parentH : Handle) (sn : SavedNode) (n : Node) :
    Option Node :=
  match resolveLink hs sn.child_index with
  | none => none
  | some ch =>
    match resolveLink hs sn.sibling_index with
    | none => none
    | some sib =>
      match sn.parent_index with
      | some k =>
        match hs.get? k with
        | none => none
        | some ph =>
          some { n with child_handle := ch, sibling_handle := sib,
                        parent_handle := some ph }
      | none =>
        some { n with child_handle := ch, sibling_handle := sib,
                      parent_handle := some parentH }

/-- Phase 2 of spawn_prefab.  The source tracks prefab_root with
Option::or whose argument block is evaluated EAGERLY on every loop iteration
(Rust's or takes a value, not a closure), so prefab_root is overwritten with
the current handle each time through the loop regardless of parent_index;
the threaded Option Handle argument reproduces exactly that.  Each wired
handle is also pushed onto the start stack. -/
def phase2 (hs : List Handle) (parentH : Handle) :
    List (SavedNode × Handle) → Pool Node → Option Handle → List Handle →
    Option (Pool Node × Option Handle × List Handle)
  | [], pool, pr, stack => some (pool, pr, stack)
  | (sn, hd) :: rest, pool, _, stack =>
    match pool.try_borrow hd with
    | none => none
    | some n =>
      match wiredNode hs parentH sn n with
      | none => none
      | some w =>
        match pool.try_set hd w with
        | none => none
        | some pool1 => phase2 hs parentH rest pool1 (some hd) (hd :: stack)

/-- link_new_child from hierarchy.rs: child.sibling_handle takes the parent's
previous child_handle, which is replaced by the child (head insertion). -/
def link_new_child (pool : Pool Node) (parent child : Handle) : Option (Pool Node) := do
  let pobj ← pool.try_borrow parent
  let cobj ← pool.try_borrow child
  let pool1 ← pool.try_set child { cobj with sibling_handle := pobj.child_handle }
  let pobj1 ← pool1.try_borrow parent
  pool1.try_set parent { pobj1 with child_handle := some child }

/-- spawn_prefab from hierarchy.rs: catalog lookup (fatal when out of range),
phase 1 allocation, phase 2 wiring plus start-stack pushes, then linking
prefab_root (in the code: the last record's handle, see phase2) as a new
child of the parent; the expect on prefab_root fires only when the graph has
no nodes at all. -/
def Hierarchy.spawn_prefab (factory : Nat → ScriptProg) (h : Hierarchy)
    (index : Nat) (parent : Handle) : Option Hierarchy :=
  match h.saved_prefab_data.get? index with
  | none => none
  | some graph =>
    let p1 := phase1 factory graph.nodes h.object_pool []
    match phase2 p1.2 parent (graph.nodes.zip p1.2) p1.1 none h.to_start_stack with
    | none => none
    | some (pool2, prefabRoot, stack2) =>
      match prefabRoot with
      | none => none
      | some childH =>
        (link_new_child pool2 parent childH).map fun pool3 =>
          { h with object_pool := pool3, to_start_stack := stack2 }

/-- The loop body of find from hierarchy.rs: follow sibling_handle links from
the first child, returning the first node satisfying the predicate.  The
outer none models a fatal borrow panic or a diverging (cyclic) chain (the
source loop carries no fuel; fuel only bounds the modelled recursion). -/
def findLoop (pool : Pool Node) (pred : Node → Bool) :
    Nat → Handle → Option (Option Handle)
  | 0, _ => none
  | fuel + 1, cur =>
    match pool.try_borrow cur with
    | none => none
    | some n =>
      if pred n then some (some cur)
      else
        match n.sibling_handle with
        | none => some none
        | some sib => findLoop pool pred fuel sib

/-- find from hierarchy.rs: scans only the direct children of search_root;
absence of a child list is an early absence return. -/
def Hierarchy.find (h : Hierarchy) (searchRoot : Handle) (pred : Node → Bool)
    (fuel : Nat) : Option (Option Handle) :=
  match h.object_pool.try_borrow searchRoot with
  | none => none
  | some n =>
    match n.child_handle with
    | none => some none
    | some c => findLoop h.object_pool pred fuel c

/-- find_by_name from hierarchy.rs: find with a name-equality predicate. -/
def Hierarchy.find_by_name (h : Hierarchy) (searchRoot : Handle) (nm : String)
    (fuel : Nat) : Option (Option Handle) :=
  h.find searchRoot (fun x => x.name == nm) fuel

/-- Modelled from the spec: destroy_node is named in spec section 4.2 but its
body is not under src/ (only a caller in the demo code).  Spec: removes the
node from the Pool and unlinks it from its parent's child list / preceding
sibling's link.  Per the open questions in section 9, descendants are left
as they are, and destroying an already-stale handle is treated as the
expected-absence case of section 7 (silent no-op). -/
def unlinkWalk (pool : Pool Node) (target : Handle) (tsib : Option Handle) :
    Nat → Option Handle → Pool Node
  | _, none => pool
  | 0, some _ => pool
  | fuel + 1, some cur =>
    match pool.try_borrow cur with
    | none => pool
    | some n =>
      if n.sibling_handle = some target then
        (pool.try_set cur { n with sibling_handle := tsib }).getD pool
      else unlinkWalk pool target tsib fuel n.sibling_handle

/-- Modelled from the spec: destroy_node (see unlinkWalk's comment). -/
def Hierarchy.destroy_node (h : Hierarchy) (target : Handle) : Hierarchy :=
  match h.object_pool.try_borrow target with
  | none => h
  | some tnode =>
    let pool1 :=
      match tnode.parent_handle with
      | none => h.object_pool
      | some ph =>
        match h.object_pool.try_borrow ph with
        | none => h.object_pool
        | some pnode =>
          if pnode.child_handle = some target then
            (h.object_pool.try_set ph
              { pnode with child_handle := tnode.sibling_handle }).getD h.object_pool
          else
            unlinkWalk h.object_pool target tnode.sibling_handle
              h.object_pool.vec_len pnode.child_handle
    match pool1.destroy target with
    | some p2 => { h with object_pool := p2 }
    | none => { h with object_pool := pool1 }

/-- An observable scheduling event: a start or update callback invocation on
the node addressed by the handle. -/
inductive Event where
  | start (h : Handle)
  | update (h : Handle)
deriving DecidableEq

def Event.eventIndex : Event → Nat
  | .start h => h.index
  | .update h => h.index

/-- Interpretation of one script command against the hierarchy (the actions a
callback may take through its ScriptContext).  none models a fatal abort
inside the callback (e.g. spawning an invalid prefab index). -/
def execCmd (factory : Nat → ScriptProg) (self : Handle) (st : Hierarchy) :
    Cmd → Option Hierarchy
  | .nop => some st
  | .destroySelf => some (st.destroy_node self)
  | .destroyOther t => some (st.destroy_node t)
  | .spawn idx parent => st.spawn_prefab factory idx parent

def execCmds (factory : Nat → ScriptProg) (self : Handle) :
    List Cmd → Hierarchy → Option Hierarchy
  | [], st => some st
  | c :: cs, st => (execCmd factory self st c).bind (execCmds factory self cs)

/-- Reattachment after a callback, from hierarchy.rs: the payload goes back
iff the handle is still valid (try_borrow_mut succeeds); otherwise it is
silently dropped. -/
def reattachIfValid (st : Hierarchy) (hd : Handle) (sd : NodeScriptData) : Hierarchy :=
  match st.try_borrow hd with
  | none => st
  | some n => (st.set_node hd { n with script_data := some sd }).getD st

/-- The detach-invoke-reattach protocol shared by
run_one_pending_script_start and run_script_update: take the script payload
out of the node (leaving script_data none), run the callback, then put the
payload back iff the handle is still valid. -/
def runCallback (factory : Nat → ScriptProg) (hd : Handle) (cmds : List Cmd)
    (sd : NodeScriptData) (st : Hierarchy) (n : Node) : Option Hierarchy :=
  (st.set_node hd { n with script_data := none }).bind fun st1 =>
    (execCmds factory hd cmds st1).map fun st2 => reattachIfValid st2 hd sd

/-- run_one_pending_script_start from hierarchy.rs: pop one handle off the
start stack; a stale handle or a scriptless node is silently skipped (the
Bool result is the source's "keep draining" return value). -/
def run_one_pending_script_start (factory : Nat → ScriptProg) (st : Hierarchy) :
    Option (Hierarchy × List Event × Bool) :=
  match st.to_start_stack with
  | [] => some (st, [], false)
  | hd :: rest =>
    let st0 := { st with to_start_stack := rest }
    match st0.try_borrow hd with
    | none => some (st0, [], true)
    | some n =>
      match n.script_data with
      | none => some (st0, [], true)
      | some sd =>
        (runCallback factory hd sd.script.onStart sd st0 n).map fun st3 =>
          (st3, [Event.start hd], true)

/-- run_pending_script_starts from hierarchy.rs: loop
run_one_pending_script_start until it reports an empty stack.  The source
while-loop is modelled with fuel; exhausted fuel with a non-empty stack is
none (the theorems always supply sufficient fuel). -/
def drainStarts (factory : Nat → ScriptProg) :
    Nat → Hierarchy → Option (Hierarchy × List Event)
  | 0, st => if st.to_start_stack = [] then some (st, []) else none
  | fuel + 1, st =>
    match run_one_pending_script_start factory st with
    | none => none
    | some (st1, evs, b) =>
      if b then (drainStarts factory fuel st1).map fun r => (r.1, evs ++ r.2)
      else some (st1, evs)

/-- One iteration of the run_script_update loop at index i: reconstruct the
handle with the slot's current generation, then (if the node is live and
scripted) detach-invoke-reattach its update callback. -/
def updateVisit (factory : Nat → ScriptProg) (st : Hierarchy) (i : Nat) :
    Option (Hierarchy × List Event) :=
  let hd := st.handle_from_index i
  match st.try_borrow hd with
  | none => some (st, [])
  | some n =>
    match n.script_data with
    | none => some (st, [])
    | some sd =>
      (runCallback factory hd sd.script.onUpdate sd st n).map fun st2 =>
        (st2, [Event.update hd])

def runUpdatesFrom (factory : Nat → ScriptProg) :
    List Nat → Hierarchy → Option (Hierarchy × List Event)
  | [], st => some (st, [])
  | i :: is, st =>
    (updateVisit factory st i).bind fun r =>
      (runUpdatesFrom factory is r.1).map fun r2 => (r2.1, r.2 ++ r2.2)

/-- run_script_update from hierarchy.rs: one forward pass over pool indices
0 to len-1, where len is the pool length at entry (the Rust for-range
0..vec_len() is evaluated once). -/
def Hierarchy.run_script_update (factory : Nat → ScriptProg) (st : Hierarchy) :
    Option (Hierarchy × List Event) :=
  runUpdatesFrom factory (List.range st.vec_len) st

/-- One frame, as driven by the external frame driver: drain the start stack,
then one full update pass. -/
def runFrame (factory : Nat → ScriptProg) (fuel : Nat) (st : Hierarchy) :
    Option (Hierarchy × List Event) :=
  (drainStarts factory fuel st).bind fun r1 =>
    (r1.1.run_script_update factory).map fun r2 => (r2.1, r1.2 ++ r2.2)

/-- The pool length at entry to the frame's update pass (after the drain). -/
def frameEntryLen (factory : Nat → ScriptProg) (fuel : Nat) (st : Hierarchy) :
    Option Nat :=
  (drainStarts factory fuel st).map fun r => r.1.vec_len

def runFrames (factory : Nat → ScriptProg) (fuel : Nat) :
    Nat → Hierarchy → Option (Hierarchy × List Event)
  | 0, st => some (st, [])
  | k + 1, st =>
    (runFrame factory fuel st).bind fun r =>
      (runFrames factory fuel k r.1).map fun r2 => (r2.1, r.2 ++ r2.2)

/-
Concrete scenarios shared by several theorems.
-/

/-- A saved node with no child/sibling links: parent index, script id and name
as given. -/
def savedLeaf (nm : String) (pi : Option Nat) (sid : Option Nat) : SavedNode :=
  { child_index := none, parent_index := pi, sibling_index := none,
    name := nm, transform := ⟨0, 0⟩, node_extension := .noExt,
    script_type_id := sid, enabled := true }

/-- A factory producing scripts with empty callbacks. -/
def trivialFactory : Nat → ScriptProg := fun _ => ⟨[], []⟩

/-- The one-graph catalog of the concrete scenario in spec section 8:
node0 (all link indices absent) and node1 (parent_index = 0, all else
absent). -/
def catalogC2 : List SavedNodeGraph :=
  [⟨[savedLeaf "node0" none none, savedLeaf "node1" (some 0) none]⟩]

/-- spawn_prefab(0, root) on that catalog, from a fresh hierarchy. -/
def hC2 : Option Hierarchy :=
  (Hierarchy.new (some catalogC2)).bind fun h0 =>
    h0.spawn_prefab trivialFactory 0 h0.root

/-- A one-graph catalog whose single record carries a (self-referential)
parent index, so no record lacks a parent index: no identifiable root. -/
def catalogNoRoot : List SavedNodeGraph :=
  [⟨[savedLeaf "selfparent" (some 0) none]⟩]

def hNoRoot : Option Hierarchy :=
  (Hierarchy.new (some catalogNoRoot)).bind fun h0 =>
    h0.spawn_prefab trivialFactory 0 h0.root

/-- Catalog for the link-resolution counterexample: record 2 stores
parent_index = 1. -/
def catalogC3 : List SavedNodeGraph :=
  [⟨[savedLeaf "n0" none none, savedLeaf "n1" (some 0) none,
     savedLeaf "n2" (some 1) none]⟩]

def hC3 : Option Hierarchy :=
  (Hierarchy.new (some catalogC3)).bind fun h0 =>
    h0.spawn_prefab trivialFactory 0 h0.root

/-
C2.  Concrete two-node spawn scenario.
-/

/-- C2: on the one-graph catalog with node0 (all links absent) and node1
(parent_index = 0), spawn_prefab(0, root) from a fresh hierarchy (1 node)
yields exactly 2 new nodes (pool length 3), sets node0's parent_handle to the
root handle and node1's parent_handle to node0's new handle, and pushes both
new handles onto the start stack before returning. -/
theorem spawn_prefab_two_node_scenario :
    ((Hierarchy.new (some catalogC2)).map fun h => h.vec_len) = some 1 ∧
    (hC2.map fun h => h.vec_len) = some 3 ∧
    (hC2.map fun h => h.root) = some ⟨0, 0⟩ ∧
    (hC2.bind fun h => (h.try_borrow ⟨1, 0⟩).map (·.name)) = some "node0" ∧
    (hC2.bind fun h => (h.try_borrow ⟨2, 0⟩).map (·.name)) = some "node1" ∧
    (hC2.bind fun h => (h.try_borrow ⟨1, 0⟩).map (·.parent_handle))
      = some (some ⟨0, 0⟩) ∧
    (hC2.bind fun h => (h.try_borrow ⟨2, 0⟩).map (·.parent_handle))
      = some (some ⟨1, 0⟩) ∧
    (hC2.map fun h => h.to_start_stack) = some [⟨2, 0⟩, ⟨1, 0⟩] := by
  decide

/-
C1.  The root-linking bug of spawn_prefab.
-/

/-- C1 (refuting the claim on the code): in catalogC2 the unique record
lacking a parent index is node0 (allocated handle (1,0)), yet after
spawn_prefab(0, root) the parent's child_handle is node1's handle (2,0) —
the LAST record, which does carry a parent index.  The Option::or argument
block tracking prefab_root is evaluated eagerly on every iteration, so
prefab_root ends as the last record's handle and link_new_child links that
node instead of the parentless one. -/
theorem spawn_prefab_root_link_bug :
    ((catalogC2.get? 0).map fun g => g.nodes.map (·.parent_index))
      = some [none, some 0] ∧
    (hC2.bind fun h => (h.try_borrow ⟨1, 0⟩).map (·.name)) = some "node0" ∧
    (hC2.bind fun h => (h.try_borrow ⟨2, 0⟩).map (·.name)) = some "node1" ∧
    (hC2.bind fun h => (h.try_borrow ⟨0, 0⟩).map (·.child_handle))
      = some (some ⟨2, 0⟩) ∧
    (⟨2, 0⟩ : Handle) ≠ ⟨1, 0⟩ := by
  decide

/-
C8.  Fatality behaviour of spawn_prefab.
-/

/-- C8 (refuting half of the claim on the code): an out-of-range catalog
index is indeed fatal (none), but a template with no identifiable root (every
record carries a parent index) does NOT abort: prefab_root is unconditionally
overwritten each iteration (eager Option::or argument), so the no-root expect
can fire only for an empty graph, and spawn_prefab returns normally. -/
theorem spawn_prefab_fatality_bug :
    ((Hierarchy.new (some catalogC2)).bind fun h0 =>
      h0.spawn_prefab trivialFactory 99 h0.root) = none ∧
    ((catalogNoRoot.get? 0).map fun g => g.nodes.map (·.parent_index))
      = some [some 0] ∧
    hNoRoot.isSome = true := by
  decide

/-
C3.  Link indices are resolved zero-based, not one-based.
-/

/-- C3 counterexample: record 2 of catalogC3 stores parent_index = 1.  Under
the claimed 1-based resolution its parent would be the handle allocated for
record 0 (named n0, handle (1,0)); the code instead indexes new_handles
directly with the stored value, yielding record 1's handle (named n1, handle
(2,0)). -/
theorem link_resolution_not_one_based :
    ((catalogC3.get? 0).map fun g => g.nodes.map (·.parent_index))
      = some [none, some 0, some 1] ∧
    (hC3.bind fun h => (h.try_borrow ⟨1, 0⟩).map (·.name)) = some "n0" ∧
    (hC3.bind fun h => (h.try_borrow ⟨2, 0⟩).map (·.name)) = some "n1" ∧
    (hC3.bind fun h => (h.try_borrow ⟨3, 0⟩).map (·.parent_handle))
      = some (some ⟨2, 0⟩) ∧
    (⟨2, 0⟩ : Handle) ≠ ⟨1, 0⟩ := by
  decide

/-
C9.  Singleton initialization contract.
-/

/-- C9: using the script factory before init_script_factory is fatal (none),
and constructing a Hierarchy before init_prefab_data is fatal; after
initialization both proceed. -/
theorem globals_init_contract :
    (∀ id, run_script_factory none id = none) ∧
    Hierarchy.new none = none ∧
    (∀ f id, run_script_factory (init_script_factory f) id = some (f id)) ∧
    (∀ d, (Hierarchy.new (init_prefab_data d)).isSome = true) := by
  refine ⟨fun id => rfl, rfl, fun f id => rfl, fun d => rfl⟩

/-
C4 counterexample scenario: during the update pass, the script of the node
at index 1 destroys the node at index 2 and spawns a prefab, whose single
node reuses freed slot 2 (at a higher generation) while the pass cursor has
not yet reached index 2. -/

def factoryC4 : Nat → ScriptProg := fun id =>
  if id = 1 then ⟨[], [Cmd.destroyOther ⟨2, 0⟩, Cmd.spawn 1 ⟨0, 0⟩, Cmd.destroySelf]⟩
  else ⟨[], []⟩

def catalogC4 : List SavedNodeGraph :=
  [⟨[savedLeaf "destroyer" none (some 1)]⟩, ⟨[savedLeaf "victim" none (some 2)]⟩]

def hC4 : Option Hierarchy :=
  (Hierarchy.new (some catalogC4)).bind fun h0 =>
    (h0.spawn_prefab factoryC4 0 h0.root).bind fun h1 =>
      h1.spawn_prefab factoryC4 1 h1.root

/-- The event trace of two frames on that scenario. -/
def traceC4 : List Event :=
  ((hC4.bind fun h => runFrames factoryC4 10 2 h).map Prod.snd).getD []

/-- C4 counterexample: the node allocated into freed slot 2 (handle (2,2),
created by the destroyer's update callback while the pass cursor was at
index 1 of an entry length of 3) receives its first update in the same pass,
BEFORE its one start, which only runs at the next frame's drain.  The claimed
strictly-before ordering fails even though the start still runs exactly
once. -/
theorem update_before_start_on_slot_reuse :
    (hC4.bind fun h => frameEntryLen factoryC4 10 h) = some 3 ∧
    traceC4 = [.start ⟨2, 0⟩, .start ⟨1, 0⟩, .update ⟨1, 0⟩, .update ⟨2, 2⟩,
               .start ⟨2, 2⟩, .update ⟨2, 2⟩] ∧
    Event.update ⟨2, 2⟩ ∈ traceC4.take 4 ∧
    Event.start ⟨2, 2⟩ ∉ traceC4.take 4 ∧
    traceC4.count (Event.start ⟨2, 2⟩) = 1 := by
  decide

/-
C6.  find scans only the direct children, in sibling order.
-/

/-- The chain of sibling-linked handles starting from an optional first
child: the direct-children list of a node.  Fuel bounds the walk; none means
the chain does not terminate within fuel or a link is dangling. -/
def siblingChain (pool : Pool Node) : Nat → Option Handle → Option (List Handle)
  | _, none => some []
  | 0, some _ => none
  | fuel + 1, some c =>
    (pool.try_borrow c).bind fun n =>
      (siblingChain pool fuel n.sibling_handle).map (c :: ·)

/-- The direct children of a node: its child_handle chain. -/
def directChildren (h : Hierarchy) (root : Handle) (fuel : Nat) :
    Option (List Handle) :=
  (h.object_pool.try_borrow root).bind fun n =>
    siblingChain h.object_pool fuel n.child_handle

/-- Specification-side scan: the first handle in the list whose node
satisfies the predicate. -/
def chainFind (pool : Pool Node) (pred : Node → Bool) : List Handle → Option Handle
  | [] => none
  | c :: rest =>
    match pool.try_borrow c with
    | some n => if pred n then some c else chainFind pool pred rest
    | none => chainFind pool pred rest

theorem findLoop_chain (pool : Pool Node) (pred : Node → Bool) :
    ∀ (fuel : Nat) (c : Handle) (l : List Handle),
      siblingChain pool fuel (some c) = some l →
      findLoop pool pred fuel c = some (chainFind pool pred l) := by
  intro fuel
  induction fuel with
  | zero => intro c l h; simp [siblingChain] at h
  | succ fuel ih =>
    intro c l h
    simp only [siblingChain] at h
    cases hb : pool.try_borrow c with
    | none => rw [hb] at h; simp at h
    | some n =>
      rw [hb] at h
      simp only [Option.some_bind] at h
      cases hc : siblingChain pool fuel n.sibling_handle with
      | none => rw [hc] at h; simp at h
      | some l' =>
        rw [hc] at h
        simp only [Option.map_some'] at h
        cases h
        simp only [findLoop, hb, chainFind]
        by_cases hp : pred n
        · simp [hp]
        · simp only [hp, if_false, Bool.false_eq_true]
          cases hs : n.sibling_handle with
          | none =>
            rw [hs] at hc
            simp only [siblingChain] at hc
            cases hc
            simp [chainFind]
          | some sib =>
            rw [hs] at hc
            exact ih sib l' hc

/-- C6: find examines only the direct children of the search root (the
child_handle chain followed through sibling_handle links, never descending)
and returns the first child in sibling order satisfying the predicate, or
absence when no direct child matches or there are no children; find_by_name
is find with a name-equality predicate. -/
theorem find_scans_direct_children :
    (∀ (h : Hierarchy) (root : Handle) (pred : Node → Bool) (fuel : Nat)
       (l : List Handle),
      directChildren h root fuel = some l →
      h.find root pred fuel = some (chainFind h.object_pool pred l)) ∧
    (∀ (h : Hierarchy) (root : Handle) (nm : String) (fuel : Nat),
      h.find_by_name root nm fuel = h.find root (fun x => x.name == nm) fuel) := by
  constructor
  · intro h root pred fuel l hdc
    simp only [directChildren] at hdc
    cases hb : h.object_pool.try_borrow root with
    | none => rw [hb] at hdc; simp at hdc
    | some n =>
      rw [hb] at hdc
      simp only [Option.some_bind] at hdc
      simp only [Hierarchy.find, hb]
      cases hch : n.child_handle with
      | none =>
        rw [hch] at hdc
        simp only [siblingChain] at hdc
        cases hdc
        simp [chainFind]
      | some c =>
        rw [hch] at hdc
        exact findLoop_chain h.object_pool pred fuel c l hdc
  · intro h root nm fuel
    rfl

/-- A plain unscripted node for concrete pools. -/
def plainNode (nm : String) (ch sib : Option Handle) : Node :=
  { child_handle := ch, parent_handle := none, sibling_handle := sib,
    name := nm, transform := ⟨0, 0⟩, script_data := none, enabled := true }

/-- Concrete pool: root with children A, B, C, and a grandchild named D under
A. -/
def poolC6 : Pool Node :=
  ⟨[Slot.occupied 0 (plainNode "" (some ⟨1, 0⟩) none),
    Slot.occupied 0 (plainNode "A" (some ⟨4, 0⟩) (some ⟨2, 0⟩)),
    Slot.occupied 0 (plainNode "B" none (some ⟨3, 0⟩)),
    Slot.occupied 0 (plainNode "C" none none),
    Slot.occupied 0 (plainNode "D" none none)], []⟩

def hierC6 : Hierarchy := ⟨⟨0, 0⟩, poolC6, [], []⟩

/-- C6 witness: under a parent with children named A, B, C and a grandchild
named D, the direct-children chain is exactly the three children; querying A
returns the child named A, querying D returns absence even though a
grandchild is named D. -/
theorem find_scans_direct_children_witness :
    directChildren hierC6 ⟨0, 0⟩ 10 = some [⟨1, 0⟩, ⟨2, 0⟩, ⟨3, 0⟩] ∧
    hierC6.find ⟨0, 0⟩ (fun x => x.name == "A") 10 = some (some ⟨1, 0⟩) ∧
    hierC6.find ⟨0, 0⟩ (fun x => x.name == "D") 10 = some none ∧
    hierC6.find_by_name ⟨0, 0⟩ "A" 10 = some (some ⟨1, 0⟩) ∧
    hierC6.find_by_name ⟨0, 0⟩ "D" 10 = some none ∧
    (hierC6.try_borrow ⟨4, 0⟩).map (·.name) = some "D" := by
  have hA := find_scans_direct_children.1 hierC6 ⟨0, 0⟩ (fun x => x.name == "A")
    10 [⟨1, 0⟩, ⟨2, 0⟩, ⟨3, 0⟩] (by decide)
  have hD := find_scans_direct_children.1 hierC6 ⟨0, 0⟩ (fun x => x.name == "D")
    10 [⟨1, 0⟩, ⟨2, 0⟩, ⟨3, 0⟩] (by decide)
  have hbn := find_scans_direct_children.2 hierC6 ⟨0, 0⟩
  refine ⟨by decide, ?_, ?_, ?_, ?_, by decide⟩
  · rw [hA]; decide
  · rw [hD]; decide
  · rw [hbn "A" 10, hA]; decide
  · rw [hbn "D" 10, hD]; decide

/-
Pool infrastructure lemmas.
-/

/-- Whether slot i currently exists and is free. -/
def Pool.freeOk {v : Type} (p : Pool v) (i : Nat) : Bool :=
  match p.slots.get? i with
  | some (Slot.free _) => true
  | _ => false

/-- Well-formedness of a pool: free-list indices are distinct and each names
an existing free slot.  Every pool reachable from Pool.new satisfies this. -/
def Pool.WF {v : Type} (p : Pool v) : Prop :=
  p.freeList.Nodup ∧ ∀ i ∈ p.freeList, p.freeOk i = true

instance {v : Type} (p : Pool v) : Decidable p.WF := by
  unfold Pool.WF; infer_instance

theorem Pool.try_borrow_index_lt {v : Type} {p : Pool v} {h : Handle} {n : v}
    (hb : p.try_borrow h = some n) : h.index < p.slots.length := by
  unfold Pool.try_borrow at hb
  cases hg : p.slots.get? h.index with
  | none => rw [hg] at hb; simp at hb
  | some s => exact List.get?_eq_some.mp hg |>.1

theorem Pool.try_borrow_slot {v : Type} {p : Pool v} {h : Handle} {n : v}
    (hb : p.try_borrow h = some n) :
    p.slots.get? h.index = some (Slot.occupied h.generation n) := by
  unfold Pool.try_borrow at hb
  cases hg : p.slots.get? h.index with
  | none => rw [hg] at hb; simp at hb
  | some s =>
    rw [hg] at hb
    cases s with
    | free g => simp at hb
    | occupied g x =>
      by_cases hgen : g = h.generation
      · simp [hgen] at hb; rw [hgen, hb]
      · simp [hgen] at hb

theorem Pool.try_borrow_of_slot {v : Type} {p : Pool v} {h : Handle} {n : v}
    (hs : p.slots.get? h.index = some (Slot.occupied h.generation n)) :
    p.try_borrow h = some n := by
  unfold Pool.try_borrow
  rw [hs]
  simp

theorem Pool.try_set_eq_some {v : Type} {p : Pool v} {h : Handle} {n : v}
    (hb : p.try_borrow h = some n) (x : v) :
    p.try_set h x
      = some ⟨p.slots.set h.index (Slot.occupied h.generation x), p.freeList⟩ := by
  unfold Pool.try_set
  rw [Pool.try_borrow_slot hb]
  simp

theorem Pool.try_set_some_src {v : Type} {p p' : Pool v} {h : Handle} {x : v}
    (hs : p.try_set h x = some p') :
    ∃ n, p.try_borrow h = some n ∧
      p' = ⟨p.slots.set h.index (Slot.occupied h.generation x), p.freeList⟩ := by
  unfold Pool.try_set at hs
  cases hg : p.slots.get? h.index with
  | none => rw [hg] at hs; simp at hs
  | some s =>
    rw [hg] at hs
    cases s with
    | free g => simp at hs
    | occupied g y =>
      by_cases hgen : g = h.generation
      · subst hgen
        simp at hs
        exact ⟨y, Pool.try_borrow_of_slot hg, hs.symm⟩
      · simp [hgen] at hs

theorem Pool.try_set_borrow_self {v : Type} {p p' : Pool v} {h : Handle} {x : v}
    (hs : p.try_set h x = some p') : p'.try_borrow h = some x := by
  obtain ⟨n, hb, rfl⟩ := Pool.try_set_some_src hs
  exact Pool.try_borrow_of_slot
    (by rw [List.get?_set_eq_of_lt _ (Pool.try_borrow_index_lt hb)])

theorem Pool.try_set_borrow_other {v : Type} {p p' : Pool v} {h h' : Handle} {x : v}
    (hs : p.try_set h x = some p') (hne : h' ≠ h) :
    p'.try_borrow h' = p.try_borrow h' := by
  obtain ⟨n, hb, rfl⟩ := Pool.try_set_some_src hs
  by_cases hidx : h'.index = h.index
  · have hgen : h'.generation ≠ h.generation := by
      intro hg
      exact hne (by cases h'; cases h; simp_all)
    have hgen' : ¬(h.generation = h'.generation) := fun a => hgen a.symm
    unfold Pool.try_borrow
    rw [hidx, List.get?_set_eq_of_lt _ (Pool.try_borrow_index_lt hb),
      Pool.try_borrow_slot hb]
    simp [hgen']
  · unfold Pool.try_borrow
    rw [List.get?_set_ne _ _ (Ne.symm hidx)]

theorem Pool.try_set_wf {v : Type} {p p' : Pool v} {h : Handle} {x : v}
    (hs : p.try_set h x = some p') (hwf : p.WF) : p'.WF := by
  obtain ⟨n, hb, rfl⟩ := Pool.try_set_some_src hs
  refine ⟨hwf.1, fun i hi => ?_⟩
  have hfree := hwf.2 i hi
  unfold Pool.freeOk at hfree ⊢
  by_cases hidx : i = h.index
  · subst hidx
    rw [Pool.try_borrow_slot hb] at hfree
    simp at hfree
  · simp only [List.get?_set_ne _ _ (Ne.symm hidx)]
    exact hfree

theorem Pool.try_set_len {v : Type} {p p' : Pool v} {h : Handle} {x : v}
    (hs : p.try_set h x = some p') : p'.slots.length = p.slots.length := by
  obtain ⟨n, hb, rfl⟩ := Pool.try_set_some_src hs
  simp

theorem Pool.try_set_freeList {v : Type} {p p' : Pool v} {h : Handle} {x : v}
    (hs : p.try_set h x = some p') : p'.freeList = p.freeList := by
  obtain ⟨n, hb, rfl⟩ := Pool.try_set_some_src hs
  rfl

theorem Pool.add_eq_append {v : Type} (p : Pool v) (x : v) (hfl : p.freeList = []) :
    p.add x = (⟨p.slots ++ [Slot.occupied 0 x], []⟩, ⟨p.slots.length, 0⟩) := by
  unfold Pool.add
  rw [hfl]

theorem Pool.add_eq_reuse {v : Type} (p : Pool v) (x : v) {i : Nat} {rest : List Nat}
    (hfl : p.freeList = i :: rest) :
    p.add x = (⟨p.slots.set i (Slot.occupied (p.slotGen i + 1) x), rest⟩,
               ⟨i, p.slotGen i + 1⟩) := by
  unfold Pool.add
  rw [hfl]

theorem Pool.add_handle_fresh {v : Type} {p : Pool v} {h : Handle} {n : v}
    (hwf : p.WF) (hb : p.try_borrow h = some n) (x : v) :
    (p.add x).2 ≠ h := by
  cases hfl : p.freeList with
  | nil =>
    rw [Pool.add_eq_append p x hfl]
    intro he
    have hlt := Pool.try_borrow_index_lt hb
    rw [← he] at hlt
    simp at hlt
  | cons i rest =>
    rw [Pool.add_eq_reuse p x hfl]
    intro he
    have hfree := hwf.2 i (by rw [hfl]; exact List.mem_cons_self i rest)
    have hidx : h.index = i := by rw [← he]
    unfold Pool.freeOk at hfree
    rw [← hidx, Pool.try_borrow_slot hb] at hfree
    simp at hfree

theorem Pool.add_borrow_pres {v : Type} {p : Pool v} {h : Handle} {n : v}
    (hwf : p.WF) (hb : p.try_borrow h = some n) (x : v) :
    (p.add x).1.try_borrow h = some n := by
  cases hfl : p.freeList with
  | nil =>
    rw [Pool.add_eq_append p x hfl]
    apply Pool.try_borrow_of_slot
    show (p.slots ++ [Slot.occupied 0 x]).get? h.index = _
    rw [List.get?_append (Pool.try_borrow_index_lt hb)]
    exact Pool.try_borrow_slot hb
  | cons i rest =>
    rw [Pool.add_eq_reuse p x hfl]
    have hfree := hwf.2 i (by rw [hfl]; exact List.mem_cons_self i rest)
    unfold Pool.freeOk at hfree
    have hne : i ≠ h.index := by
      intro he
      rw [he, Pool.try_borrow_slot hb] at hfree
      simp at hfree
    apply Pool.try_borrow_of_slot
    show (p.slots.set i _).get? h.index = _
    rw [List.get?_set_ne _ _ hne]
    exact Pool.try_borrow_slot hb

theorem Pool.add_borrow_new {v : Type} (p : Pool v) (hwf : p.WF) (x : v) :
    (p.add x).1.try_borrow (p.add x).2 = some x := by
  cases hfl : p.freeList with
  | nil =>
    rw [Pool.add_eq_append p x hfl]
    apply Pool.try_borrow_of_slot
    exact List.get?_concat_length p.slots _
  | cons i rest =>
    have hfree := hwf.2 i (by rw [hfl]; exact List.mem_cons_self i rest)
    unfold Pool.freeOk at hfree
    cases hg : p.slots.get? i with
    | none => rw [hg] at hfree; simp at hfree
    | some s =>
      cases s with
      | occupied g y => rw [hg] at hfree; simp at hfree
      | free g =>
        rw [Pool.add_eq_reuse p x hfl]
        apply Pool.try_borrow_of_slot
        show (p.slots.set i _).get? i = _
        rw [List.get?_set_eq_of_lt _ (List.get?_eq_some.mp hg).1]

theorem Pool.add_wf {v : Type} {p : Pool v} (hwf : p.WF) (x : v) :
    (p.add x).1.WF := by
  cases hfl : p.freeList with
  | nil =>
    rw [Pool.add_eq_append p x hfl]
    exact ⟨List.nodup_nil, by simp⟩
  | cons i rest =>
    rw [Pool.add_eq_reuse p x hfl]
    have hnd := hwf.1
    rw [hfl] at hnd
    refine ⟨(List.nodup_cons.mp hnd).2, fun j hj => ?_⟩
    have hji : j ≠ i := fun he => (List.nodup_cons.mp hnd).1 (he ▸ hj)
    have hfree := hwf.2 j (by rw [hfl]; exact List.mem_cons_of_mem i hj)
    unfold Pool.freeOk at hfree ⊢
    show (match (p.slots.set i _).get? j with
      | some (Slot.free _) => true
      | _ => false) = true
    rw [List.get?_set_ne _ _ (Ne.symm hji)]
    exact hfree

theorem Pool.add_len_mono {v : Type} (p : Pool v) (x : v) :
    p.slots.length ≤ (p.add x).1.slots.length := by
  cases hfl : p.freeList with
  | nil => rw [Pool.add_eq_append p x hfl]; simp
  | cons i rest => rw [Pool.add_eq_reuse p x hfl]; simp

theorem Pool.add_borrow_rev {v : Type} {p : Pool v} {h : Handle} {n : v} {x : v}
    (hb : (p.add x).1.try_borrow h = some n) :
    (h = (p.add x).2 ∧ n = x) ∨ p.try_borrow h = some n := by
  cases hfl : p.freeList with
  | nil =>
    rw [Pool.add_eq_append p x hfl] at hb ⊢
    have hslot := Pool.try_borrow_slot hb
    by_cases hlt : h.index < p.slots.length
    · right
      rw [show ((⟨p.slots ++ [Slot.occupied 0 x], []⟩ : Pool v).slots) = p.slots ++ [Slot.occupied 0 x] from rfl,
        List.get?_append hlt] at hslot
      exact Pool.try_borrow_of_slot hslot
    · left
      have hge : p.slots.length ≤ h.index := Nat.le_of_not_lt hlt
      rw [show ((⟨p.slots ++ [Slot.occupied 0 x], []⟩ : Pool v).slots) = p.slots ++ [Slot.occupied 0 x] from rfl,
        List.get?_append_right hge] at hslot
      cases he : h.index - p.slots.length with
      | zero =>
        rw [he] at hslot
        simp at hslot
        obtain ⟨hg0, hnx⟩ := hslot
        cases h with
        | mk hi hg =>
          simp at hge he hg0 ⊢
          exact ⟨⟨by omega, hg0.symm⟩, hnx.symm⟩
      | succ k =>
        rw [he] at hslot
        simp at hslot
  | cons i rest =>
    rw [Pool.add_eq_reuse p x hfl] at hb ⊢
    have hslot := Pool.try_borrow_slot hb
    simp only at hslot
    by_cases hidx : h.index = i
    · left
      rw [hidx] at hslot
      by_cases hlt : i < p.slots.length
      · rw [List.get?_set_eq_of_lt _ hlt] at hslot
        simp at hslot
        obtain ⟨hg, hnx⟩ := hslot
        cases h with
        | mk hi hgen =>
          simp at hidx hg ⊢
          exact ⟨⟨hidx, hg.symm⟩, hnx.symm⟩
      · rw [List.get?_eq_none.mpr (by simpa using Nat.le_of_not_lt hlt)] at hslot
        simp at hslot
    · right
      rw [List.get?_set_ne _ _ (Ne.symm hidx)] at hslot
      exact Pool.try_borrow_of_slot hslot

theorem Pool.destroy_some_src {v : Type} {p p' : Pool v} {h : Handle}
    (hs : p.destroy h = some p') :
    ∃ n, p.try_borrow h = some n ∧
      p' = ⟨p.slots.set h.index (Slot.free (h.generation + 1)),
            h.index :: p.freeList⟩ := by
  unfold Pool.destroy at hs
  cases hg : p.slots.get? h.index with
  | none => rw [hg] at hs; simp at hs
  | some s =>
    rw [hg] at hs
    cases s with
    | free g => simp at hs
    | occupied g y =>
      by_cases hgen : g = h.generation
      · subst hgen
        simp at hs
        exact ⟨y, Pool.try_borrow_of_slot hg, hs.symm⟩
      · simp [hgen] at hs

theorem Pool.destroy_borrow_other {v : Type} {p p' : Pool v} {h h' : Handle}
    (hs : p.destroy h = some p') (hne : h' ≠ h) :
    p'.try_borrow h' = p.try_borrow h' := by
  obtain ⟨n, hb, rfl⟩ := Pool.destroy_some_src hs
  by_cases hidx : h'.index = h.index
  · have hgen : h'.generation ≠ h.generation := by
      intro hg
      exact hne (by cases h'; cases h; simp_all)
    have hgen' : ¬(h.generation = h'.generation) := fun a => hgen a.symm
    unfold Pool.try_borrow
    rw [hidx, List.get?_set_eq_of_lt _ (Pool.try_borrow_index_lt hb),
      Pool.try_borrow_slot hb]
    simp [hgen']
  · unfold Pool.try_borrow
    rw [List.get?_set_ne _ _ (Ne.symm hidx)]

theorem Pool.destroy_borrow_rev {v : Type} {p p' : Pool v} {h h' : Handle} {n' : v}
    (hs : p.destroy h = some p') (hb' : p'.try_borrow h' = some n') :
    p.try_borrow h' = some n' := by
  by_cases hne : h' = h
  · subst hne
    obtain ⟨n, hb, rfl⟩ := Pool.destroy_some_src hs
    have := Pool.try_borrow_slot hb'
    rw [List.get?_set_eq_of_lt _ (Pool.try_borrow_index_lt hb)] at this
    simp at this
  · rw [← Pool.destroy_borrow_other hs hne]
    exact hb'

theorem Pool.destroy_self_borrow {v : Type} {p p' : Pool v} {h : Handle}
    (hs : p.destroy h = some p') : p'.try_borrow h = none := by
  obtain ⟨n, hb, rfl⟩ := Pool.destroy_some_src hs
  unfold Pool.try_borrow
  rw [List.get?_set_eq_of_lt _ (Pool.try_borrow_index_lt hb)]

theorem Pool.destroy_wf {v : Type} {p p' : Pool v} {h : Handle}
    (hs : p.destroy h = some p') (hwf : p.WF) : p'.WF := by
  obtain ⟨n, hb, rfl⟩ := Pool.destroy_some_src hs
  have hnotin : h.index ∉ p.freeList := by
    intro hmem
    have hfree := hwf.2 h.index hmem
    unfold Pool.freeOk at hfree
    rw [Pool.try_borrow_slot hb] at hfree
    simp at hfree
  refine ⟨List.nodup_cons.mpr ⟨hnotin, hwf.1⟩, fun j hj => ?_⟩
  rcases List.mem_cons.mp hj with hj | hj
  · subst hj
    unfold Pool.freeOk
    show (match (p.slots.set h.index _).get? h.index with
      | some (Slot.free _) => true
      | _ => false) = true
    rw [List.get?_set_eq_of_lt _ (Pool.try_borrow_index_lt hb)]
  · have hne : j ≠ h.index := fun he => hnotin (he ▸ hj)
    have hfree := hwf.2 j hj
    unfold Pool.freeOk at hfree ⊢
    show (match (p.slots.set h.index _).get? j with
      | some (Slot.free _) => true
      | _ => false) = true
    rw [List.get?_set_ne _ _ (Ne.symm hne)]
    exact hfree

theorem Pool.destroy_len {v : Type} {p p' : Pool v} {h : Handle}
    (hs : p.destroy h = some p') : p'.slots.length = p.slots.length := by
  obtain ⟨n, hb, rfl⟩ := Pool.destroy_some_src hs
  simp

/-
Hierarchy-level predicates and primitive preservation lemmas.
-/

/-- Commands that are not destructions. -/
def noDestroyCmd : Cmd → Bool
  | .destroySelf => false
  | .destroyOther _ => false
  | _ => true

/-- Commands that are not spawns. -/
def noSpawnCmd : Cmd → Bool
  | .spawn _ _ => false
  | _ => true

/-- A node whose start callback contains no destroy commands. -/
def dfStart (n : Node) : Bool :=
  match n.script_data with
  | some sd => sd.script.onStart.all noDestroyCmd
  | none => true

def slotDFStart : Slot Node → Bool
  | .occupied _ n => dfStart n
  | .free _ => true

/-- Every live node's start callback is destroy-free. -/
def Hierarchy.StartsDF (st : Hierarchy) : Prop :=
  ∀ s ∈ st.object_pool.slots, slotDFStart s = true

instance (st : Hierarchy) : Decidable st.StartsDF := by
  unfold Hierarchy.StartsDF; infer_instance

/-- The factory only produces destroy-free start callbacks. -/
def FactoryDF (factory : Nat → ScriptProg) : Prop :=
  ∀ id, ((factory id).onStart.all noDestroyCmd) = true

/-- A node whose update callback contains no spawn commands. -/
def nsUpdate (n : Node) : Bool :=
  match n.script_data with
  | some sd => sd.script.onUpdate.all noSpawnCmd
  | none => true

def slotNSUpdate : Slot Node → Bool
  | .occupied _ n => nsUpdate n
  | .free _ => true

/-- Every live node's update callback is spawn-free. -/
def Hierarchy.NoSpawnUpdates (st : Hierarchy) : Prop :=
  ∀ s ∈ st.object_pool.slots, slotNSUpdate s = true

instance (st : Hierarchy) : Decidable st.NoSpawnUpdates := by
  unfold Hierarchy.NoSpawnUpdates; infer_instance

/-- A node whose update callback is empty. -/
def inertUpdate (n : Node) : Bool :=
  match n.script_data with
  | some sd => sd.script.onUpdate.isEmpty
  | none => true

def slotInertUpdate : Slot Node → Bool
  | .occupied _ n => inertUpdate n
  | .free _ => true

/-- Every live node's update callback is empty. -/
def Hierarchy.InertUpdates (st : Hierarchy) : Prop :=
  ∀ s ∈ st.object_pool.slots, slotInertUpdate s = true

instance (st : Hierarchy) : Decidable st.InertUpdates := by
  unfold Hierarchy.InertUpdates; infer_instance

theorem borrow_slot_pred {P : Slot Node → Bool} {st : Hierarchy} {hd : Handle}
    {n : Node} (hall : ∀ s ∈ st.object_pool.slots, P s = true)
    (hb : st.try_borrow hd = some n) :
    P (Slot.occupied hd.generation n) = true := by
  exact hall _ (List.get?_mem (Pool.try_borrow_slot hb))

theorem Hierarchy.StartsDF_of_borrow {st : Hierarchy} {hd : Handle} {n : Node}
    (hdf : st.StartsDF) (hb : st.try_borrow hd = some n) : dfStart n = true :=
  borrow_slot_pred hdf hb

theorem Hierarchy.NoSpawnUpdates_of_borrow {st : Hierarchy} {hd : Handle} {n : Node}
    (hns : st.NoSpawnUpdates) (hb : st.try_borrow hd = some n) : nsUpdate n = true :=
  borrow_slot_pred hns hb

theorem Hierarchy.InertUpdates_of_borrow {st : Hierarchy} {hd : Handle} {n : Node}
    (hiu : st.InertUpdates) (hb : st.try_borrow hd = some n) : inertUpdate n = true :=
  borrow_slot_pred hiu hb

/-- Simulation between two hierarchy states: the target pool is well formed,
the pool can only have grown, and every node live in the source is still live
with the same script payload and the same number of pending-start stack
occurrences of its handle. -/
def DFSim (st st' : Hierarchy) : Prop :=
  st'.object_pool.WF ∧
  st.vec_len ≤ st'.vec_len ∧
  (∀ hd n, st.try_borrow hd = some n →
    ∃ n', st'.try_borrow hd = some n' ∧ n'.script_data = n.script_data ∧
      st'.to_start_stack.count hd = st.to_start_stack.count hd)

theorem DFSim.rfl {st : Hierarchy} (hwf : st.object_pool.WF) : DFSim st st :=
  ⟨hwf, Nat.le_refl _, fun _ n hb => ⟨n, hb, Eq.refl _, Eq.refl _⟩⟩

theorem DFSim.trans {s1 s2 s3 : Hierarchy} (h12 : DFSim s1 s2) (h23 : DFSim s2 s3) :
    DFSim s1 s3 := by
  refine ⟨h23.1, Nat.le_trans h12.2.1 h23.2.1, fun hd n hb => ?_⟩
  obtain ⟨n', hb', hsd', hc'⟩ := h12.2.2 hd n hb
  obtain ⟨n'', hb'', hsd'', hc''⟩ := h23.2.2 hd n' hb'
  exact ⟨n'', hb'', by rw [hsd'', hsd'], by rw [hc'', hc']⟩

theorem dfStart_congr {n n' : Node} (h : n'.script_data = n.script_data) :
    dfStart n' = dfStart n := by
  unfold dfStart
  rw [h]

theorem nsUpdate_congr {n n' : Node} (h : n'.script_data = n.script_data) :
    nsUpdate n' = nsUpdate n := by
  unfold nsUpdate
  rw [h]

theorem wiredNode_some_src {hs : List Handle} {parentH : Handle} {sn : SavedNode}
    {n w : Node} (hw : wiredNode hs parentH sn n = some w) :
    ∃ ch sib par, resolveLink hs sn.child_index = some ch ∧
      resolveLink hs sn.sibling_index = some sib ∧
      (match sn.parent_index with
        | some k => (hs.get? k).map some
        | none => some (some parentH)) = some par ∧
      w = { n with child_handle := ch, sibling_handle := sib,
                   parent_handle := par } := by
  unfold wiredNode at hw
  cases hch : resolveLink hs sn.child_index with
  | none => rw [hch] at hw; exact absurd hw (by simp)
  | some ch =>
    rw [hch] at hw
    dsimp only at hw
    cases hsib : resolveLink hs sn.sibling_index with
    | none => rw [hsib] at hw; exact absurd hw (by simp)
    | some sib =>
      rw [hsib] at hw
      dsimp only at hw
      cases hpi : sn.parent_index with
      | none =>
        rw [hpi] at hw
        dsimp only at hw
        cases hw
        exact ⟨ch, sib, some parentH, Eq.refl _, Eq.refl _, Eq.refl _, Eq.refl _⟩
      | some k =>
        rw [hpi] at hw
        dsimp only at hw
        cases hk : hs.get? k with
        | none => rw [hk] at hw; exact absurd hw (by simp)
        | some ph =>
          rw [hk] at hw
          cases hw
          exact ⟨ch, sib, some ph, Eq.refl _, Eq.refl _,
            by dsimp only; rw [hk]; rfl, Eq.refl _⟩

theorem wiredNode_script {hs : List Handle} {parentH : Handle} {sn : SavedNode}
    {n w : Node} (hw : wiredNode hs parentH sn n = some w) :
    w.script_data = n.script_data := by
  obtain ⟨ch, sib, par, _, _, _, rfl⟩ := wiredNode_some_src hw
  rfl

/-- Slot-predicate preservation through a try_set whose new value keeps the
predicate. -/
theorem slots_pred_try_set {P : Slot Node → Bool} {p p' : Pool Node}
    {h : Handle} {x : Node} (hs : p.try_set h x = some p')
    (hall : ∀ s ∈ p.slots, P s = true)
    (hx : ∀ g, P (Slot.occupied g x) = true) :
    ∀ s ∈ p'.slots, P s = true := by
  obtain ⟨n, hb, rfl⟩ := Pool.try_set_some_src hs
  intro s hmem
  rcases List.mem_or_eq_of_mem_set hmem with hmem | rfl
  · exact hall s hmem
  · exact hx _

theorem slots_pred_add {P : Slot Node → Bool} {p : Pool Node} {x : Node}
    (hall : ∀ s ∈ p.slots, P s = true)
    (hx : ∀ g, P (Slot.occupied g x) = true) :
    ∀ s ∈ (p.add x).1.slots, P s = true := by
  intro s hmem
  cases hfl : p.freeList with
  | nil =>
    rw [Pool.add_eq_append p x hfl] at hmem
    rcases List.mem_append.mp hmem with hmem | hmem
    · exact hall s hmem
    · rw [List.mem_singleton.mp hmem]; exact hx _
  | cons i rest =>
    rw [Pool.add_eq_reuse p x hfl] at hmem
    rcases List.mem_or_eq_of_mem_set hmem with hmem | rfl
    · exact hall s hmem
    · exact hx _

theorem slots_pred_destroy {P : Slot Node → Bool} {p p' : Pool Node}
    {h : Handle} (hs : p.destroy h = some p')
    (hall : ∀ s ∈ p.slots, P s = true)
    (hfree : ∀ g, P (Slot.free g) = true) :
    ∀ s ∈ p'.slots, P s = true := by
  obtain ⟨n, hb, rfl⟩ := Pool.destroy_some_src hs
  intro s hmem
  rcases List.mem_or_eq_of_mem_set hmem with hmem | rfl
  · exact hall s hmem
  · exact hfree _

theorem phase1_sim (factory : Nat → ScriptProg) :
    ∀ (ns : List SavedNode) (p : Pool Node) (acc : List Handle),
      p.WF →
      ((phase1 factory ns p acc).1.WF ∧
       p.slots.length ≤ (phase1 factory ns p acc).1.slots.length ∧
       (∀ hd n, p.try_borrow hd = some n →
         (phase1 factory ns p acc).1.try_borrow hd = some n) ∧
       (∀ h2 ∈ (phase1 factory ns p acc).2,
         h2 ∈ acc ∨ ∀ hd n, p.try_borrow hd = some n → h2 ≠ hd)) := by
  intro ns
  induction ns with
  | nil =>
    intro p acc hwf
    exact ⟨hwf, Nat.le_refl _, fun _ _ hb => hb, fun h2 h => Or.inl h⟩
  | cons sn rest ih =>
    intro p acc hwf
    have heq : phase1 factory (sn :: rest) p acc
        = phase1 factory rest (p.add (instantiateNode factory sn)).1
            (acc ++ [(p.add (instantiateNode factory sn)).2]) := rfl
    rw [heq]
    obtain ⟨ihwf, ihlen, ihpres, ihfresh⟩ :=
      ih (p.add (instantiateNode factory sn)).1
        (acc ++ [(p.add (instantiateNode factory sn)).2]) (Pool.add_wf hwf _)
    refine ⟨ihwf, Nat.le_trans (Pool.add_len_mono p _) ihlen,
      fun hd n hb => ihpres hd n (Pool.add_borrow_pres hwf hb _),
      fun h2 hmem => ?_⟩
    rcases ihfresh h2 hmem with hacc | hfr
    · rcases List.mem_append.mp hacc with h | h
      · exact Or.inl h
      · refine Or.inr fun hd n hb => ?_
        rw [List.mem_singleton.mp h]
        exact Pool.add_handle_fresh hwf hb _
    · exact Or.inr fun hd n hb => hfr hd n (Pool.add_borrow_pres hwf hb _)

theorem phase1_slots_pred {P : Slot Node → Bool} (factory : Nat → ScriptProg) :
    ∀ (ns : List SavedNode) (p : Pool Node) (acc : List Handle),
      (∀ s ∈ p.slots, P s = true) →
      (∀ sn g, P (Slot.occupied g (instantiateNode factory sn)) = true) →
      ∀ s ∈ (phase1 factory ns p acc).1.slots, P s = true := by
  intro ns
  induction ns with
  | nil => intro p acc hall _ s hmem; exact hall s hmem
  | cons sn rest ih =>
    intro p acc hall hinst
    exact ih (p.add (instantiateNode factory sn)).1 _
      (slots_pred_add hall (hinst sn)) hinst

theorem try_set_view {p p' : Pool Node} {h : Handle} {x : Node}
    (hs : p.try_set h x = some p')
    (hx : ∀ m, p.try_borrow h = some m → x.script_data = m.script_data) :
    ∀ hd n, p.try_borrow hd = some n →
      ∃ n', p'.try_borrow hd = some n' ∧ n'.script_data = n.script_data := by
  intro hd n hb
  by_cases he : hd = h
  · subst he
    exact ⟨x, Pool.try_set_borrow_self hs, hx n hb⟩
  · exact ⟨n, by rw [Pool.try_set_borrow_other hs he]; exact hb, Eq.refl _⟩

theorem link_some_src {pool pool3 : Pool Node} {parent child : Handle}
    (hl : link_new_child pool parent child = some pool3) :
    ∃ pobj cobj pool1 pobj1,
      pool.try_borrow parent = some pobj ∧
      pool.try_borrow child = some cobj ∧
      pool.try_set child { cobj with sibling_handle := pobj.child_handle }
        = some pool1 ∧
      pool1.try_borrow parent = some pobj1 ∧
      pool1.try_set parent { pobj1 with child_handle := some child }
        = some pool3 := by
  unfold link_new_child at hl
  simp only [Option.bind_eq_bind, Option.bind_eq_some] at hl
  obtain ⟨pobj, hp, cobj, hc, pool1, hset1, pobj1, hp1, hset2⟩ := hl
  exact ⟨pobj, cobj, pool1, pobj1, hp, hc, hset1, hp1, hset2⟩

theorem link_view {pool pool3 : Pool Node} {parent child : Handle}
    (hl : link_new_child pool parent child = some pool3) :
    ∀ hd n, pool.try_borrow hd = some n →
      ∃ n', pool3.try_borrow hd = some n' ∧ n'.script_data = n.script_data := by
  obtain ⟨pobj, cobj, pool1, pobj1, hp, hc, hset1, hp1, hset2⟩ := link_some_src hl
  intro hd n hb
  obtain ⟨n1, hb1, hsd1⟩ := try_set_view hset1
    (fun m hm => by rw [hc] at hm; cases hm; rfl) hd n hb
  obtain ⟨n2, hb2, hsd2⟩ := try_set_view hset2
    (fun m hm => by rw [hp1] at hm; cases hm; rfl) hd n1 hb1
  exact ⟨n2, hb2, by rw [hsd2, hsd1]⟩

theorem link_wf {pool pool3 : Pool Node} {parent child : Handle}
    (hl : link_new_child pool parent child = some pool3) (hwf : pool.WF) :
    pool3.WF := by
  obtain ⟨_, _, pool1, _, _, _, hset1, _, hset2⟩ := link_some_src hl
  exact Pool.try_set_wf hset2 (Pool.try_set_wf hset1 hwf)

theorem link_len {pool pool3 : Pool Node} {parent child : Handle}
    (hl : link_new_child pool parent child = some pool3) :
    pool3.slots.length = pool.slots.length := by
  obtain ⟨_, _, pool1, _, _, _, hset1, _, hset2⟩ := link_some_src hl
  rw [Pool.try_set_len hset2, Pool.try_set_len hset1]

theorem link_slots_pred {P : Slot Node → Bool}
    (hP : ∀ g g' (n n' : Node), n'.script_data = n.script_data →
      P (Slot.occupied g' n') = P (Slot.occupied g n))
    {pool pool3 : Pool Node} {parent child : Handle}
    (hl : link_new_child pool parent child = some pool3)
    (hall : ∀ s ∈ pool.slots, P s = true) :
    ∀ s ∈ pool3.slots, P s = true := by
  obtain ⟨pobj, cobj, pool1, pobj1, hp, hc, hset1, hp1, hset2⟩ := link_some_src hl
  have hall1 : ∀ s ∈ pool1.slots, P s = true := by
    refine slots_pred_try_set hset1 hall fun g => ?_
    rw [hP child.generation g cobj { cobj with sibling_handle := pobj.child_handle }
      (Eq.refl _)]
    exact hall _ (List.get?_mem (Pool.try_borrow_slot hc))
  refine slots_pred_try_set hset2 hall1 fun g => ?_
  rw [hP parent.generation g pobj1 { pobj1 with child_handle := some child }
    (Eq.refl _)]
  exact hall1 _ (List.get?_mem (Pool.try_borrow_slot hp1))

theorem phase2_sim (hs : List Handle) (parentH : Handle) :
    ∀ (pairs : List (SavedNode × Handle)) (pool : Pool Node) (pr : Option Handle)
      (stack : List Handle) (pool2 : Pool Node) (pr2 : Option Handle)
      (stack2 : List Handle),
      phase2 hs parentH pairs pool pr stack = some (pool2, pr2, stack2) →
      pool.WF →
      (pool2.WF ∧ pool2.slots.length = pool.slots.length ∧
       stack2 = (pairs.map Prod.snd).reverse ++ stack ∧
       (∀ hd n, pool.try_borrow hd = some n → (∀ q ∈ pairs, q.2 ≠ hd) →
         pool2.try_borrow hd = some n)) := by
  intro pairs
  induction pairs with
  | nil =>
    intro pool pr stack pool2 pr2 stack2 hp hwf
    unfold phase2 at hp
    cases hp
    exact ⟨hwf, Eq.refl _, Eq.refl _, fun hd n hb _ => hb⟩
  | cons q rest ih =>
    intro pool pr stack pool2 pr2 stack2 hp hwf
    obtain ⟨sn, hd1⟩ := q
    unfold phase2 at hp
    cases hb1 : pool.try_borrow hd1 with
    | none => rw [hb1] at hp; exact absurd hp (by simp)
    | some n1 =>
      rw [hb1] at hp
      dsimp only at hp
      cases hw : wiredNode hs parentH sn n1 with
      | none => rw [hw] at hp; exact absurd hp (by simp)
      | some w =>
        rw [hw] at hp
        dsimp only at hp
        cases hset : pool.try_set hd1 w with
        | none => rw [hset] at hp; exact absurd hp (by simp)
        | some pool1 =>
          rw [hset] at hp
          dsimp only at hp
          obtain ⟨ihwf, ihlen, ihstack, ihpres⟩ :=
            ih pool1 (some hd1) (hd1 :: stack) pool2 pr2 stack2 hp
              (Pool.try_set_wf hset hwf)
          refine ⟨ihwf, by rw [ihlen, Pool.try_set_len hset], ?_, ?_⟩
          · rw [ihstack]
            simp
          · intro hd n hb hq
            have hne : hd1 ≠ hd := hq (sn, hd1) (List.mem_cons_self _ _)
            refine ihpres hd n ?_ fun q hmem => hq q (List.mem_cons_of_mem _ hmem)
            rw [Pool.try_set_borrow_other hset (Ne.symm hne)]
            exact hb

theorem phase2_slots_pred {P : Slot Node → Bool}
    (hP : ∀ g g' (n n' : Node), n'.script_data = n.script_data →
      P (Slot.occupied g' n') = P (Slot.occupied g n))
    (hs : List Handle) (parentH : Handle) :
    ∀ (pairs : List (SavedNode × Handle)) (pool : Pool Node) (pr : Option Handle)
      (stack : List Handle) (pool2 : Pool Node) (pr2 : Option Handle)
      (stack2 : List Handle),
      phase2 hs parentH pairs pool pr stack = some (pool2, pr2, stack2) →
      (∀ s ∈ pool.slots, P s = true) →
      ∀ s ∈ pool2.slots, P s = true := by
  intro pairs
  induction pairs with
  | nil =>
    intro pool pr stack pool2 pr2 stack2 hp hall
    unfold phase2 at hp
    cases hp
    exact hall
  | cons q rest ih =>
    intro pool pr stack pool2 pr2 stack2 hp hall
    obtain ⟨sn, hd1⟩ := q
    unfold phase2 at hp
    cases hb1 : pool.try_borrow hd1 with
    | none => rw [hb1] at hp; exact absurd hp (by simp)
    | some n1 =>
      rw [hb1] at hp
      dsimp only at hp
      cases hw : wiredNode hs parentH sn n1 with
      | none => rw [hw] at hp; exact absurd hp (by simp)
      | some w =>
        rw [hw] at hp
        dsimp only at hp
        cases hset : pool.try_set hd1 w with
        | none => rw [hset] at hp; exact absurd hp (by simp)
        | some pool1 =>
          rw [hset] at hp
          dsimp only at hp
          refine ih pool1 (some hd1) (hd1 :: stack) pool2 pr2 stack2 hp ?_
          refine slots_pred_try_set hset hall fun g => ?_
          rw [hP hd1.generation g n1 w (wiredNode_script hw)]
          exact hall _ (List.get?_mem (Pool.try_borrow_slot hb1))

theorem spawn_some_src {factory : Nat → ScriptProg} {st st' : Hierarchy}
    {idx : Nat} {par : Handle}
    (hs : st.spawn_prefab factory idx par = some st') :
    ∃ graph pool2 pr2 stack2 childH pool3,
      st.saved_prefab_data.get? idx = some graph ∧
      phase2 (phase1 factory graph.nodes st.object_pool []).2 par
        (graph.nodes.zip (phase1 factory graph.nodes st.object_pool []).2)
        (phase1 factory graph.nodes st.object_pool []).1 none st.to_start_stack
        = some (pool2, pr2, stack2) ∧
      pr2 = some childH ∧
      link_new_child pool2 par childH = some pool3 ∧
      st' = { st with object_pool := pool3, to_start_stack := stack2 } := by
  unfold Hierarchy.spawn_prefab at hs
  cases hg : st.saved_prefab_data.get? idx with
  | none => rw [hg] at hs; exact absurd hs (by simp)
  | some graph =>
    rw [hg] at hs
    dsimp only at hs
    cases hp2 : phase2 (phase1 factory graph.nodes st.object_pool []).2 par
        (graph.nodes.zip (phase1 factory graph.nodes st.object_pool []).2)
        (phase1 factory graph.nodes st.object_pool []).1 none st.to_start_stack with
    | none => rw [hp2] at hs; exact absurd hs (by simp)
    | some res =>
      rw [hp2] at hs
      obtain ⟨pool2, pr2, stack2⟩ := res
      dsimp only at hs
      cases hpr : pr2 with
      | none => rw [hpr] at hs; exact absurd hs (by simp)
      | some childH =>
        rw [hpr] at hs
        dsimp only at hs
        cases hl : link_new_child pool2 par childH with
        | none => rw [hl] at hs; exact absurd hs (by simp)
        | some pool3 =>
          rw [hl] at hs
          simp only [Option.map_some'] at hs
          cases hs
          exact ⟨graph, pool2, pr2, stack2, childH, pool3, Eq.refl _,
            hp2, hpr, hl, Eq.refl _⟩

theorem spawn_sim {factory : Nat → ScriptProg} {st st' : Hierarchy}
    {idx : Nat} {par : Handle} (hwf : st.object_pool.WF)
    (hs : st.spawn_prefab factory idx par = some st') : DFSim st st' := by
  obtain ⟨graph, pool2, pr2, stack2, childH, pool3, hg, hp2, hpr, hl, rfl⟩ :=
    spawn_some_src hs
  obtain ⟨p1wf, p1len, p1pres, p1fresh⟩ :=
    phase1_sim factory graph.nodes st.object_pool [] hwf
  obtain ⟨p2wf, p2len, p2stack, p2pres⟩ :=
    phase2_sim _ par _ _ _ _ _ _ _ hp2 p1wf
  refine ⟨link_wf hl p2wf, ?_, ?_⟩
  · show st.object_pool.slots.length ≤ pool3.slots.length
    rw [link_len hl, p2len]
    exact p1len
  · intro hd n hb
    have hfresh : ∀ q ∈ graph.nodes.zip (phase1 factory graph.nodes st.object_pool []).2,
        q.2 ≠ hd := by
      intro q hq
      rcases p1fresh q.2 (List.of_mem_zip hq).2 with hmem | hfr
      · exact absurd hmem (List.not_mem_nil _)
      · exact hfr hd n hb
    have hb2 : pool2.try_borrow hd = some n :=
      p2pres hd n (p1pres hd n hb) hfresh
    obtain ⟨n', hb3, hsd⟩ := link_view hl hd n hb2
    refine ⟨n', hb3, hsd, ?_⟩
    show stack2.count hd = st.to_start_stack.count hd
    rw [p2stack, List.count_append, List.count_reverse]
    have hz : (List.map Prod.snd
        (graph.nodes.zip (phase1 factory graph.nodes st.object_pool []).2)).count hd
        = 0 := by
      rw [List.count_eq_zero]
      intro hmem
      obtain ⟨q, hq, hq2⟩ := List.mem_map.mp hmem
      exact hfresh q hq hq2
    rw [hz]
    exact Nat.zero_add _

theorem spawn_slots_pred {P : Slot Node → Bool}
    (hP : ∀ g g' (n n' : Node), n'.script_data = n.script_data →
      P (Slot.occupied g' n') = P (Slot.occupied g n))
    {factory : Nat → ScriptProg} {st st' : Hierarchy} {idx : Nat} {par : Handle}
    (hs : st.spawn_prefab factory idx par = some st')
    (hall : ∀ s ∈ st.object_pool.slots, P s = true)
    (hinst : ∀ sn g, P (Slot.occupied g (instantiateNode factory sn)) = true) :
    ∀ s ∈ st'.object_pool.slots, P s = true := by
  obtain ⟨graph, pool2, pr2, stack2, childH, pool3, hg, hp2, hpr, hl, rfl⟩ :=
    spawn_some_src hs
  have h1 := phase1_slots_pred factory graph.nodes st.object_pool [] hall hinst
  have h2 := phase2_slots_pred hP _ par _ _ _ _ _ _ _ hp2 h1
  exact link_slots_pred hP hl h2

theorem Pool.destroy_of_borrow {p : Pool Node} {h : Handle} {n : Node}
    (hb : p.try_borrow h = some n) :
    p.destroy h = some ⟨p.slots.set h.index (Slot.free (h.generation + 1)),
      h.index :: p.freeList⟩ := by
  unfold Pool.destroy
  rw [Pool.try_borrow_slot hb]
  simp

/-- The detached-node invariant for a handle: when the handle still resolves,
its node is scriptless, the handle's slot exists, and the slot's generation
never drops below the handle's (so the handle can never be re-issued). -/
def PoolHidden (hd : Handle) (p : Pool Node) : Prop :=
  (∀ n, p.try_borrow hd = some n → n.script_data = none) ∧
  hd.index < p.slots.length ∧
  (∀ s, p.slots.get? hd.index = some s → hd.generation ≤ s.gen)

theorem poolHidden_set {p q : Pool Node} {h : Handle} {x : Node}
    (hs : p.try_set h x = some q) {hd : Handle}
    (hcase : h ≠ hd ∨ (∀ m, p.try_borrow h = some m →
      x.script_data = m.script_data))
    (hh : PoolHidden hd p) : PoolHidden hd q := by
  obtain ⟨m, hm, rfl⟩ := Pool.try_set_some_src hs
  obtain ⟨h1, h2, h3⟩ := hh
  refine ⟨?_, by simpa using h2, ?_⟩
  · intro n hb
    by_cases he : hd = h
    · subst he
      have := Pool.try_set_borrow_self (Pool.try_set_eq_some hm x)
      rw [this] at hb
      cases hb
      rcases hcase with hne | hscript
      · exact absurd (Eq.refl hd) (Ne.symm hne)
      · rw [hscript m hm]
        exact h1 m hm
    · rw [Pool.try_set_borrow_other (Pool.try_set_eq_some hm x) he] at hb
      exact h1 n hb
  · intro s hg
    by_cases hidx : hd.index = h.index
    · rw [hidx, List.get?_set_eq_of_lt _ (Pool.try_borrow_index_lt hm)] at hg
      cases hg
      have := h3 _ (hidx ▸ Pool.try_borrow_slot hm)
      simpa [Slot.gen] using this
    · rw [List.get?_set_ne _ _ (fun a => hidx a.symm)] at hg
      exact h3 s hg

theorem poolHidden_destroy {p q : Pool Node} {t : Handle}
    (hs : p.destroy t = some q) {hd : Handle}
    (hh : PoolHidden hd p) : PoolHidden hd q := by
  obtain ⟨m, hm, rfl⟩ := Pool.destroy_some_src hs
  obtain ⟨h1, h2, h3⟩ := hh
  refine ⟨?_, by simpa using h2, ?_⟩
  · intro n hb
    by_cases he : hd = t
    · subst he
      have : (⟨p.slots.set hd.index (Slot.free (hd.generation + 1)),
          hd.index :: p.freeList⟩ : Pool Node).try_borrow hd = none := by
        unfold Pool.try_borrow
        rw [List.get?_set_eq_of_lt _ (Pool.try_borrow_index_lt hm)]
      rw [this] at hb
      exact absurd hb (by simp)
    · rw [Pool.destroy_borrow_other (Pool.destroy_of_borrow hm) he] at hb
      exact h1 n hb
  · intro s hg
    by_cases hidx : hd.index = t.index
    · rw [hidx, List.get?_set_eq_of_lt _ (Pool.try_borrow_index_lt hm)] at hg
      cases hg
      have := h3 _ (hidx ▸ Pool.try_borrow_slot hm)
      simp only [Slot.gen] at this ⊢
      omega
    · rw [List.get?_set_ne _ _ (fun a => hidx a.symm)] at hg
      exact h3 s hg

theorem poolHidden_add {p : Pool Node} (x : Node) {hd : Handle}
    (hh : PoolHidden hd p) : PoolHidden hd (p.add x).1 ∧ (p.add x).2 ≠ hd := by
  obtain ⟨h1, h2, h3⟩ := hh
  cases hfl : p.freeList with
  | nil =>
    rw [Pool.add_eq_append p x hfl]
    refine ⟨⟨?_, ?_, ?_⟩, ?_⟩
    · intro n hb
      have hslot := Pool.try_borrow_slot hb
      rw [show ((⟨p.slots ++ [Slot.occupied 0 x], []⟩ : Pool Node).slots)
        = p.slots ++ [Slot.occupied 0 x] from Eq.refl _,
        List.get?_append h2] at hslot
      exact h1 n (Pool.try_borrow_of_slot hslot)
    · show hd.index < (p.slots ++ [Slot.occupied 0 x]).length
      rw [List.length_append]
      omega
    · intro s hg
      rw [show ((⟨p.slots ++ [Slot.occupied 0 x], []⟩ : Pool Node).slots)
        = p.slots ++ [Slot.occupied 0 x] from Eq.refl _,
        List.get?_append h2] at hg
      exact h3 s hg
    · intro he
      have : hd.index = p.slots.length := by rw [← he]
      omega
  | cons i rest =>
    rw [Pool.add_eq_reuse p x hfl]
    have hfresh : (⟨i, p.slotGen i + 1⟩ : Handle) ≠ hd := by
      intro he
      have hidx : hd.index = i := by rw [← he]
      have hgen : hd.generation = p.slotGen i + 1 := by rw [← he]
      cases hg : p.slots.get? hd.index with
      | none => exact absurd hg (by rw [List.get?_eq_none] at hg ⊢; omega)
      | some s =>
        have := h3 s hg
        have hsg : p.slotGen i = s.gen := by
          unfold Pool.slotGen
          rw [← hidx, hg]
        omega
    refine ⟨⟨?_, ?_, ?_⟩, hfresh⟩
    · intro n hb
      have hslot := Pool.try_borrow_slot hb
      by_cases hidx : hd.index = i
      · exfalso
        rw [show ((⟨p.slots.set i (Slot.occupied (p.slotGen i + 1) x), rest⟩ :
            Pool Node).slots) = p.slots.set i (Slot.occupied (p.slotGen i + 1) x)
            from Eq.refl _, hidx,
          List.get?_set_eq_of_lt _ (by omega : i < p.slots.length)] at hslot
        simp only [Option.some.injEq, Slot.occupied.injEq] at hslot
        exact hfresh (by cases hd; simp_all)
      · rw [show ((⟨p.slots.set i (Slot.occupied (p.slotGen i + 1) x), rest⟩ :
            Pool Node).slots) = p.slots.set i (Slot.occupied (p.slotGen i + 1) x)
            from Eq.refl _,
          List.get?_set_ne _ _ (fun a => hidx a.symm)] at hslot
        exact h1 n (Pool.try_borrow_of_slot hslot)
    · show hd.index < (p.slots.set i _).length
      rw [List.length_set]
      omega
    · intro s hg
      by_cases hidx : hd.index = i
      · rw [show ((⟨p.slots.set i (Slot.occupied (p.slotGen i + 1) x), rest⟩ :
            Pool Node).slots) = p.slots.set i (Slot.occupied (p.slotGen i + 1) x)
            from Eq.refl _, hidx,
          List.get?_set_eq_of_lt _ (by omega : i < p.slots.length)] at hg
        cases hg
        have hsg : hd.generation ≤ p.slotGen i := by
          cases hg2 : p.slots.get? hd.index with
          | none => rw [List.get?_eq_none] at hg2; omega
          | some s2 =>
            have := h3 s2 hg2
            have : p.slotGen i = s2.gen := by
              unfold Pool.slotGen
              rw [← hidx, hg2]
            omega
        simp only [Slot.gen]
        omega
      · rw [show ((⟨p.slots.set i (Slot.occupied (p.slotGen i + 1) x), rest⟩ :
            Pool Node).slots) = p.slots.set i (Slot.occupied (p.slotGen i + 1) x)
            from Eq.refl _,
          List.get?_set_ne _ _ (fun a => hidx a.symm)] at hg
        exact h3 s hg

/-- A pool modification that can only rewrite link fields of existing nodes:
every live node stays live with the same script payload, well-formedness,
slot count and free list are preserved, any script-only slot predicate is
preserved, and a detached handle stays detached. -/
def ScriptMod (p q : Pool Node) : Prop :=
  (∀ hd n, p.try_borrow hd = some n →
    ∃ n', q.try_borrow hd = some n' ∧ n'.script_data = n.script_data) ∧
  (p.WF → q.WF) ∧
  q.slots.length = p.slots.length ∧
  (∀ P : Slot Node → Bool,
    (∀ g g' (n n' : Node), n'.script_data = n.script_data →
      P (Slot.occupied g' n') = P (Slot.occupied g n)) →
    (∀ s ∈ p.slots, P s = true) → ∀ s ∈ q.slots, P s = true) ∧
  (∀ hd, PoolHidden hd p → PoolHidden hd q)

theorem ScriptMod.id (p : Pool Node) : ScriptMod p p :=
  ⟨fun _ n hb => ⟨n, hb, Eq.refl _⟩, fun h => h, Eq.refl _,
   fun _ _ hall => hall, fun _ h => h⟩

theorem ScriptMod.of_set {p q : Pool Node} {h : Handle} {x : Node}
    (hs : p.try_set h x = some q)
    (hx : ∀ m, p.try_borrow h = some m → x.script_data = m.script_data) :
    ScriptMod p q := by
  refine ⟨try_set_view hs hx, Pool.try_set_wf hs, Pool.try_set_len hs,
    fun P hP hall => ?_, fun hd hh => poolHidden_set hs (Or.inr hx) hh⟩
  obtain ⟨m, hm, rfl⟩ := Pool.try_set_some_src hs
  intro s hmem
  rcases List.mem_or_eq_of_mem_set hmem with hmem | rfl
  · exact hall s hmem
  · rw [hP h.generation h.generation m x (hx m hm)]
    exact hall _ (List.get?_mem (Pool.try_borrow_slot hm))

theorem unlinkWalk_scriptMod (pool : Pool Node) (target : Handle)
    (tsib : Option Handle) :
    ∀ (fuel : Nat) (cur : Option Handle),
      ScriptMod pool (unlinkWalk pool target tsib fuel cur) := by
  intro fuel
  induction fuel with
  | zero =>
    intro cur
    cases cur with
    | none => exact ScriptMod.id pool
    | some c => exact ScriptMod.id pool
  | succ fuel ih =>
    intro cur
    cases cur with
    | none => exact ScriptMod.id pool
    | some c =>
      show ScriptMod pool
        (match pool.try_borrow c with
          | none => pool
          | some n =>
            if n.sibling_handle = some target then
              (pool.try_set c { n with sibling_handle := tsib }).getD pool
            else unlinkWalk pool target tsib fuel n.sibling_handle)
      cases hb : pool.try_borrow c with
      | none => exact ScriptMod.id pool
      | some n =>
        dsimp only
        by_cases hsib : n.sibling_handle = some target
        · rw [if_pos hsib]
          rw [Pool.try_set_eq_some hb { n with sibling_handle := tsib }]
          exact ScriptMod.of_set (Pool.try_set_eq_some hb _)
            (fun m hm => by rw [hb] at hm; cases hm; rfl)
        · rw [if_neg hsib]
          exact ih n.sibling_handle

theorem destroy_node_src (st : Hierarchy) (t : Handle) :
    (st.try_borrow t = none ∧ st.destroy_node t = st) ∨
    ∃ pool1 p2, ScriptMod st.object_pool pool1 ∧ pool1.destroy t = some p2 ∧
      st.destroy_node t = { st with object_pool := p2 } := by
  unfold Hierarchy.destroy_node
  cases hb : st.object_pool.try_borrow t with
  | none => exact Or.inl ⟨hb, Eq.refl _⟩
  | some tnode =>
    right
    dsimp only
    have hmod : ScriptMod st.object_pool
        (match tnode.parent_handle with
          | none => st.object_pool
          | some ph =>
            match st.object_pool.try_borrow ph with
            | none => st.object_pool
            | some pnode =>
              if pnode.child_handle = some t then
                (st.object_pool.try_set ph
                  { pnode with child_handle := tnode.sibling_handle }).getD
                  st.object_pool
              else
                unlinkWalk st.object_pool t tnode.sibling_handle
                  st.object_pool.vec_len pnode.child_handle) := by
      cases hpar : tnode.parent_handle with
      | none => exact ScriptMod.id _
      | some ph =>
        dsimp only
        cases hpb : st.object_pool.try_borrow ph with
        | none => exact ScriptMod.id _
        | some pnode =>
          dsimp only
          by_cases hch : pnode.child_handle = some t
          · rw [if_pos hch, Pool.try_set_eq_some hpb
              { pnode with child_handle := tnode.sibling_handle }]
            exact ScriptMod.of_set (Pool.try_set_eq_some hpb _)
              (fun m hm => by rw [hpb] at hm; cases hm; rfl)
          · rw [if_neg hch]
            exact unlinkWalk_scriptMod _ _ _ _ _
    obtain ⟨n1, hb1, _⟩ := hmod.1 t tnode hb
    refine ⟨_, _, hmod, Pool.destroy_of_borrow hb1, ?_⟩
    rw [Pool.destroy_of_borrow hb1]

theorem destroy_node_proj (st : Hierarchy) (t : Handle) :
    (st.destroy_node t).to_start_stack = st.to_start_stack ∧
    (st.destroy_node t).root = st.root ∧
    (st.destroy_node t).saved_prefab_data = st.saved_prefab_data := by
  rcases destroy_node_src st t with ⟨_, heq⟩ | ⟨pool1, p2, _, _, heq⟩ <;>
    rw [heq] <;> exact ⟨Eq.refl _, Eq.refl _, Eq.refl _⟩

theorem destroy_node_wf {st : Hierarchy} (t : Handle)
    (hwf : st.object_pool.WF) : (st.destroy_node t).object_pool.WF := by
  rcases destroy_node_src st t with ⟨_, heq⟩ | ⟨pool1, p2, hmod, hd, heq⟩
  · rw [heq]; exact hwf
  · rw [heq]; exact Pool.destroy_wf hd (hmod.2.1 hwf)

theorem destroy_node_len (st : Hierarchy) (t : Handle) :
    (st.destroy_node t).vec_len = st.vec_len := by
  rcases destroy_node_src st t with ⟨_, heq⟩ | ⟨pool1, p2, hmod, hd, heq⟩
  · rw [heq]
  · rw [heq]
    show p2.slots.length = st.object_pool.slots.length
    rw [Pool.destroy_len hd, hmod.2.2.1]

theorem destroy_node_view_other {st : Hierarchy} {t hd : Handle} {n : Node}
    (hne : hd ≠ t) (hb : st.try_borrow hd = some n) :
    ∃ n', (st.destroy_node t).try_borrow hd = some n' ∧
      n'.script_data = n.script_data := by
  rcases destroy_node_src st t with ⟨_, heq⟩ | ⟨pool1, p2, hmod, hd2, heq⟩
  · rw [heq]; exact ⟨n, hb, Eq.refl _⟩
  · rw [heq]
    obtain ⟨n', hb', hsd⟩ := hmod.1 hd n hb
    refine ⟨n', ?_, hsd⟩
    show p2.try_borrow hd = some n'
    rw [Pool.destroy_borrow_other hd2 hne]
    exact hb'

theorem destroy_node_slots_pred {P : Slot Node → Bool}
    (hP : ∀ g g' (n n' : Node), n'.script_data = n.script_data →
      P (Slot.occupied g' n') = P (Slot.occupied g n))
    (hfree : ∀ g, P (Slot.free g) = true)
    {st : Hierarchy} (t : Handle)
    (hall : ∀ s ∈ st.object_pool.slots, P s = true) :
    ∀ s ∈ (st.destroy_node t).object_pool.slots, P s = true := by
  rcases destroy_node_src st t with ⟨_, heq⟩ | ⟨pool1, p2, hmod, hd2, heq⟩
  · rw [heq]; exact hall
  · rw [heq]
    exact slots_pred_destroy hd2 (hmod.2.2.2.1 P hP hall) hfree

/-
Command-execution preservation lemmas.
-/

theorem execCmd_wf_len {factory : Nat → ScriptProg} {self : Handle}
    {st st' : Hierarchy} {c : Cmd} (hwf : st.object_pool.WF)
    (he : execCmd factory self st c = some st') :
    st'.object_pool.WF ∧ st.vec_len ≤ st'.vec_len := by
  cases c with
  | nop => cases he; exact ⟨hwf, Nat.le_refl _⟩
  | destroySelf =>
    cases he
    exact ⟨destroy_node_wf _ hwf, Nat.le_of_eq (destroy_node_len st self).symm⟩
  | destroyOther t =>
    cases he
    exact ⟨destroy_node_wf _ hwf, Nat.le_of_eq (destroy_node_len st t).symm⟩
  | spawn idx par =>
    have hsim := spawn_sim hwf he
    exact ⟨hsim.1, hsim.2.1⟩

theorem execCmds_wf_len {factory : Nat → ScriptProg} {self : Handle} :
    ∀ {cmds : List Cmd} {st st' : Hierarchy}, st.object_pool.WF →
      execCmds factory self cmds st = some st' →
      st'.object_pool.WF ∧ st.vec_len ≤ st'.vec_len := by
  intro cmds
  induction cmds with
  | nil => intro st st' hwf he; cases he; exact ⟨hwf, Nat.le_refl _⟩
  | cons c cs ih =>
    intro st st' hwf he
    unfold execCmds at he
    cases hc : execCmd factory self st c with
    | none => rw [hc] at he; exact absurd he (by simp)
    | some st1 =>
      rw [hc] at he
      obtain ⟨h1wf, h1len⟩ := execCmd_wf_len hwf hc
      obtain ⟨h2wf, h2len⟩ := ih h1wf he
      exact ⟨h2wf, Nat.le_trans h1len h2len⟩

/-- Whether the factory's scripts satisfy a script-only slot predicate on
every instantiated node. -/
theorem execCmd_slots_pred {P : Slot Node → Bool}
    (hP : ∀ g g' (n n' : Node), n'.script_data = n.script_data →
      P (Slot.occupied g' n') = P (Slot.occupied g n))
    (hfree : ∀ g, P (Slot.free g) = true)
    {factory : Nat → ScriptProg}
    (hinst : ∀ sn g, P (Slot.occupied g (instantiateNode factory sn)) = true)
    {self : Handle} {st st' : Hierarchy} {c : Cmd}
    (he : execCmd factory self st c = some st')
    (hall : ∀ s ∈ st.object_pool.slots, P s = true) :
    ∀ s ∈ st'.object_pool.slots, P s = true := by
  cases c with
  | nop => cases he; exact hall
  | destroySelf => cases he; exact destroy_node_slots_pred hP hfree self hall
  | destroyOther t => cases he; exact destroy_node_slots_pred hP hfree t hall
  | spawn idx par => exact spawn_slots_pred hP he hall hinst

theorem execCmds_slots_pred {P : Slot Node → Bool}
    (hP : ∀ g g' (n n' : Node), n'.script_data = n.script_data →
      P (Slot.occupied g' n') = P (Slot.occupied g n))
    (hfree : ∀ g, P (Slot.free g) = true)
    {factory : Nat → ScriptProg}
    (hinst : ∀ sn g, P (Slot.occupied g (instantiateNode factory sn)) = true)
    {self : Handle} :
    ∀ {cmds : List Cmd} {st st' : Hierarchy},
      execCmds factory self cmds st = some st' →
      (∀ s ∈ st.object_pool.slots, P s = true) →
      ∀ s ∈ st'.object_pool.slots, P s = true := by
  intro cmds
  induction cmds with
  | nil => intro st st' he hall; cases he; exact hall
  | cons c cs ih =>
    intro st st' he hall
    unfold execCmds at he
    cases hc : execCmd factory self st c with
    | none => rw [hc] at he; exact absurd he (by simp)
    | some st1 =>
      rw [hc] at he
      exact ih he (execCmd_slots_pred hP hfree hinst hc hall)

theorem execCmd_df_sim {factory : Nat → ScriptProg} {self : Handle}
    {st st' : Hierarchy} {c : Cmd} (hdf : noDestroyCmd c = true)
    (hwf : st.object_pool.WF) (he : execCmd factory self st c = some st') :
    DFSim st st' := by
  cases c with
  | nop => cases he; exact DFSim.rfl hwf
  | destroySelf => exact absurd hdf (by simp [noDestroyCmd])
  | destroyOther t => exact absurd hdf (by simp [noDestroyCmd])
  | spawn idx par => exact spawn_sim hwf he

theorem execCmds_df_sim {factory : Nat → ScriptProg} {self : Handle} :
    ∀ {cmds : List Cmd} {st st' : Hierarchy},
      cmds.all noDestroyCmd = true → st.object_pool.WF →
      execCmds factory self cmds st = some st' → DFSim st st' := by
  intro cmds
  induction cmds with
  | nil => intro st st' _ hwf he; cases he; exact DFSim.rfl hwf
  | cons c cs ih =>
    intro st st' hdf hwf he
    unfold execCmds at he
    cases hc : execCmd factory self st c with
    | none => rw [hc] at he; exact absurd he (by simp)
    | some st1 =>
      rw [hc] at he
      simp only [List.all_cons, Bool.and_eq_true] at hdf
      have hsim1 := execCmd_df_sim hdf.1 hwf hc
      exact DFSim.trans hsim1 (ih hdf.2 hsim1.1 he)

theorem execCmds_nospawn_some {factory : Nat → ScriptProg} {self : Handle} :
    ∀ {cmds : List Cmd} (st : Hierarchy), cmds.all noSpawnCmd = true →
      ∃ st', execCmds factory self cmds st = some st' := by
  intro cmds
  induction cmds with
  | nil => intro st _; exact ⟨st, Eq.refl _⟩
  | cons c cs ih =>
    intro st hns
    simp only [List.all_cons, Bool.and_eq_true] at hns
    have hc : ∃ st1, execCmd factory self st c = some st1 := by
      cases c with
      | nop => exact ⟨st, Eq.refl _⟩
      | destroySelf => exact ⟨st.destroy_node self, Eq.refl _⟩
      | destroyOther t => exact ⟨st.destroy_node t, Eq.refl _⟩
      | spawn idx par => exact absurd hns.1 (by simp [noSpawnCmd])
    obtain ⟨st1, hc⟩ := hc
    obtain ⟨st', he⟩ := ih st1 hns.2
    exact ⟨st', by unfold execCmds; rw [hc]; exact he⟩

/-
set_node / reattach / runCallback lemmas.
-/

theorem set_node_src {st st1 : Hierarchy} {hd : Handle} {x : Node}
    (hs : st.set_node hd x = some st1) :
    ∃ p', st.object_pool.try_set hd x = some p' ∧
      st1 = { st with object_pool := p' } := by
  unfold Hierarchy.set_node at hs
  cases hp : st.object_pool.try_set hd x with
  | none => rw [hp] at hs; exact absurd hs (by simp)
  | some p' =>
    rw [hp] at hs
    cases hs
    exact ⟨p', Eq.refl _, Eq.refl _⟩

theorem set_node_some {st : Hierarchy} {hd : Handle} {n : Node}
    (hb : st.try_borrow hd = some n) (x : Node) :
    ∃ st1, st.set_node hd x = some st1 := by
  unfold Hierarchy.set_node
  rw [Pool.try_set_eq_some hb x]
  exact ⟨_, Eq.refl _⟩

theorem set_node_borrow_self {st st1 : Hierarchy} {hd : Handle} {x : Node}
    (hs : st.set_node hd x = some st1) : st1.try_borrow hd = some x := by
  obtain ⟨p', hp, rfl⟩ := set_node_src hs
  exact Pool.try_set_borrow_self hp

theorem set_node_borrow_other {st st1 : Hierarchy} {hd h' : Handle} {x : Node}
    (hs : st.set_node hd x = some st1) (hne : h' ≠ hd) :
    st1.try_borrow h' = st.try_borrow h' := by
  obtain ⟨p', hp, rfl⟩ := set_node_src hs
  exact Pool.try_set_borrow_other hp hne

theorem set_node_proj {st st1 : Hierarchy} {hd : Handle} {x : Node}
    (hs : st.set_node hd x = some st1) :
    st1.to_start_stack = st.to_start_stack ∧ st1.root = st.root ∧
    st1.saved_prefab_data = st.saved_prefab_data ∧ st1.vec_len = st.vec_len := by
  obtain ⟨p', hp, rfl⟩ := set_node_src hs
  exact ⟨Eq.refl _, Eq.refl _, Eq.refl _, Pool.try_set_len hp⟩

theorem set_node_wf {st st1 : Hierarchy} {hd : Handle} {x : Node}
    (hs : st.set_node hd x = some st1) (hwf : st.object_pool.WF) :
    st1.object_pool.WF := by
  obtain ⟨p', hp, rfl⟩ := set_node_src hs
  exact Pool.try_set_wf hp hwf

theorem set_node_slots_pred {P : Slot Node → Bool} {st st1 : Hierarchy}
    {hd : Handle} {x : Node} (hs : st.set_node hd x = some st1)
    (hall : ∀ s ∈ st.object_pool.slots, P s = true)
    (hx : ∀ g, P (Slot.occupied g x) = true) :
    ∀ s ∈ st1.object_pool.slots, P s = true := by
  obtain ⟨p', hp, rfl⟩ := set_node_src hs
  exact slots_pred_try_set hp hall hx

theorem reattach_cases (st2 : Hierarchy) (hd : Handle) (sd : NodeScriptData) :
    (st2.try_borrow hd = none ∧ reattachIfValid st2 hd sd = st2) ∨
    (∃ n2 st3, st2.try_borrow hd = some n2 ∧
      st2.set_node hd { n2 with script_data := some sd } = some st3 ∧
      reattachIfValid st2 hd sd = st3) := by
  unfold reattachIfValid
  cases hb : st2.try_borrow hd with
  | none => exact Or.inl ⟨Eq.refl _, Eq.refl _⟩
  | some n2 =>
    right
    dsimp only
    obtain ⟨st3, hs⟩ := set_node_some hb { n2 with script_data := some sd }
    refine ⟨n2, st3, Eq.refl _, hs, ?_⟩
    rw [hs]
    rfl

theorem reattach_wf {st2 : Hierarchy} (hd : Handle) (sd : NodeScriptData)
    (hwf : st2.object_pool.WF) : (reattachIfValid st2 hd sd).object_pool.WF := by
  rcases reattach_cases st2 hd sd with ⟨_, heq⟩ | ⟨n2, st3, _, hs, heq⟩
  · rw [heq]; exact hwf
  · rw [heq]; exact set_node_wf hs hwf

theorem reattach_proj (st2 : Hierarchy) (hd : Handle) (sd : NodeScriptData) :
    (reattachIfValid st2 hd sd).to_start_stack = st2.to_start_stack ∧
    (reattachIfValid st2 hd sd).vec_len = st2.vec_len := by
  rcases reattach_cases st2 hd sd with ⟨_, heq⟩ | ⟨n2, st3, _, hs, heq⟩
  · rw [heq]; exact ⟨Eq.refl _, Eq.refl _⟩
  · rw [heq]
    obtain ⟨h1, _, _, h4⟩ := set_node_proj hs
    exact ⟨h1, h4⟩

theorem reattach_borrow_other {st2 : Hierarchy} {hd h' : Handle}
    {sd : NodeScriptData} (hne : h' ≠ hd) :
    (reattachIfValid st2 hd sd).try_borrow h' = st2.try_borrow h' := by
  rcases reattach_cases st2 hd sd with ⟨_, heq⟩ | ⟨n2, st3, _, hs, heq⟩
  · rw [heq]
  · rw [heq]; exact set_node_borrow_other hs hne

theorem reattach_borrow_self {st2 : Hierarchy} {hd : Handle} {n2 : Node}
    {sd : NodeScriptData} (hb : st2.try_borrow hd = some n2) :
    (reattachIfValid st2 hd sd).try_borrow hd
      = some { n2 with script_data := some sd } := by
  rcases reattach_cases st2 hd sd with ⟨hnb, heq⟩ | ⟨m2, st3, hb2, hs, heq⟩
  · rw [hnb] at hb; exact absurd hb (by simp)
  · rw [hb] at hb2
    cases hb2
    rw [heq]
    exact set_node_borrow_self hs

theorem reattach_id {st2 : Hierarchy} {hd : Handle} {sd : NodeScriptData}
    (hnb : st2.try_borrow hd = none) : reattachIfValid st2 hd sd = st2 := by
  rcases reattach_cases st2 hd sd with ⟨_, heq⟩ | ⟨n2, st3, hb2, hs, heq⟩
  · exact heq
  · rw [hnb] at hb2; exact absurd hb2 (by simp)

theorem reattach_slots_pred {P : Slot Node → Bool} {st2 : Hierarchy}
    {hd : Handle} {sd : NodeScriptData}
    (hall : ∀ s ∈ st2.object_pool.slots, P s = true)
    (hsd : ∀ g (n2 : Node),
      P (Slot.occupied g { n2 with script_data := some sd }) = true) :
    ∀ s ∈ (reattachIfValid st2 hd sd).object_pool.slots, P s = true := by
  rcases reattach_cases st2 hd sd with ⟨_, heq⟩ | ⟨n2, st3, hb2, hs, heq⟩
  · rw [heq]; exact hall
  · rw [heq]; exact set_node_slots_pred hs hall (fun g => hsd g n2)

theorem runCallback_src {factory : Nat → ScriptProg} {hd : Handle}
    {cmds : List Cmd} {sd : NodeScriptData} {st : Hierarchy} {n : Node}
    {st3 : Hierarchy}
    (hc : runCallback factory hd cmds sd st n = some st3) :
    ∃ st1 st2, st.set_node hd { n with script_data := none } = some st1 ∧
      execCmds factory hd cmds st1 = some st2 ∧
      st3 = reattachIfValid st2 hd sd := by
  unfold runCallback at hc
  cases hs : st.set_node hd { n with script_data := none } with
  | none => rw [hs] at hc; exact absurd hc (by simp)
  | some st1 =>
    rw [hs] at hc
    simp only [Option.some_bind] at hc
    cases he : execCmds factory hd cmds st1 with
    | none => rw [he] at hc; exact absurd hc (by simp)
    | some st2 =>
      rw [he] at hc
      simp only [Option.map_some'] at hc
      cases hc
      exact ⟨st1, st2, Eq.refl _, he, Eq.refl _⟩

/-
Update-pass lemmas.
-/

theorem updateVisit_src {factory : Nat → ScriptProg} {st st1 : Hierarchy}
    {i : Nat} {evs : List Event}
    (he : updateVisit factory st i = some (st1, evs)) :
    (st1 = st ∧ evs = []) ∨
    (∃ n sd stD st2, st.try_borrow (st.handle_from_index i) = some n ∧
      n.script_data = some sd ∧
      st.set_node (st.handle_from_index i) { n with script_data := none }
        = some stD ∧
      execCmds factory (st.handle_from_index i) sd.script.onUpdate stD
        = some st2 ∧
      st1 = reattachIfValid st2 (st.handle_from_index i) sd ∧
      evs = [Event.update (st.handle_from_index i)]) := by
  unfold updateVisit at he
  dsimp only at he
  cases hb : st.try_borrow (st.handle_from_index i) with
  | none =>
    rw [hb] at he
    cases he
    exact Or.inl ⟨Eq.refl _, Eq.refl _⟩
  | some n =>
    rw [hb] at he
    dsimp only at he
    cases hsd : n.script_data with
    | none =>
      rw [hsd] at he
      cases he
      exact Or.inl ⟨Eq.refl _, Eq.refl _⟩
    | some sd =>
      rw [hsd] at he
      dsimp only at he
      cases hc : runCallback factory (st.handle_from_index i)
          sd.script.onUpdate sd st n with
      | none => rw [hc] at he; exact absurd he (by simp)
      | some st3 =>
        rw [hc] at he
        simp only [Option.map_some'] at he
        cases he
        obtain ⟨stD, st2, hsn, hex, hre⟩ := runCallback_src hc
        exact Or.inr ⟨n, sd, stD, st2, Eq.refl _, hsd, hsn, hex, hre, Eq.refl _⟩

theorem updateVisit_wf_len {factory : Nat → ScriptProg} {st st1 : Hierarchy}
    {i : Nat} {evs : List Event} (hwf : st.object_pool.WF)
    (he : updateVisit factory st i = some (st1, evs)) :
    st1.object_pool.WF ∧ st.vec_len ≤ st1.vec_len := by
  rcases updateVisit_src he with ⟨rfl, _⟩ | ⟨n, sd, stD, st2, hb, hsd, hsn, hex, rfl, _⟩
  · exact ⟨hwf, Nat.le_refl _⟩
  · have hDwf := set_node_wf hsn hwf
    have hDlen := (set_node_proj hsn).2.2.2
    obtain ⟨h2wf, h2len⟩ := execCmds_wf_len hDwf hex
    refine ⟨reattach_wf _ _ h2wf, ?_⟩
    rw [(reattach_proj st2 _ sd).2]
    calc st.vec_len = stD.vec_len := hDlen.symm
    _ ≤ st2.vec_len := h2len

theorem updateVisit_event_shape {factory : Nat → ScriptProg} {st st1 : Hierarchy}
    {i : Nat} {evs : List Event}
    (he : updateVisit factory st i = some (st1, evs)) :
    evs = [] ∨ ∃ g, evs = [Event.update ⟨i, g⟩] := by
  rcases updateVisit_src he with ⟨_, rfl⟩ | ⟨n, sd, stD, st2, _, _, _, _, _, hevs⟩
  · exact Or.inl (Eq.refl _)
  · exact Or.inr ⟨st.object_pool.slotGen i, hevs⟩

theorem runUpdatesFrom_wf_len {factory : Nat → ScriptProg} :
    ∀ {is : List Nat} {st st' : Hierarchy} {evs : List Event},
      st.object_pool.WF →
      runUpdatesFrom factory is st = some (st', evs) →
      st'.object_pool.WF ∧ st.vec_len ≤ st'.vec_len := by
  intro is
  induction is with
  | nil =>
    intro st st' evs hwf he
    cases he
    exact ⟨hwf, Nat.le_refl _⟩
  | cons i is ih =>
    intro st st' evs hwf he
    unfold runUpdatesFrom at he
    cases hv : updateVisit factory st i with
    | none => rw [hv] at he; exact absurd he (by simp)
    | some r =>
      rw [hv] at he
      simp only [Option.some_bind] at he
      cases hrest : runUpdatesFrom factory is r.1 with
      | none => rw [hrest] at he; exact absurd he (by simp)
      | some r2 =>
        rw [hrest] at he
        simp only [Option.map_some'] at he
        cases he
        obtain ⟨h1wf, h1len⟩ := updateVisit_wf_len hwf (by rw [← hv])
        obtain ⟨h2wf, h2len⟩ := ih h1wf (by rw [← hrest])
        exact ⟨h2wf, Nat.le_trans h1len h2len⟩

theorem runUpdatesFrom_events {factory : Nat → ScriptProg} :
    ∀ {is : List Nat} {st st' : Hierarchy} {evs : List Event},
      runUpdatesFrom factory is st = some (st', evs) →
      ∀ e ∈ evs, ∃ i ∈ is, ∃ g, e = Event.update ⟨i, g⟩ := by
  intro is
  induction is with
  | nil =>
    intro st st' evs he e hmem
    cases he
    exact absurd hmem (List.not_mem_nil e)
  | cons i is ih =>
    intro st st' evs he e hmem
    unfold runUpdatesFrom at he
    cases hv : updateVisit factory st i with
    | none => rw [hv] at he; exact absurd he (by simp)
    | some r =>
      rw [hv] at he
      simp only [Option.some_bind] at he
      cases hrest : runUpdatesFrom factory is r.1 with
      | none => rw [hrest] at he; exact absurd he (by simp)
      | some r2 =>
        rw [hrest] at he
        simp only [Option.map_some'] at he
        cases he
        rcases List.mem_append.mp hmem with hmem | hmem
        · rcases updateVisit_event_shape (show updateVisit factory st i
              = some (r.1, r.2) from by rw [hv]) with hnil | ⟨g, hone⟩
          · rw [hnil] at hmem; exact absurd hmem (List.not_mem_nil e)
          · rw [hone] at hmem
            rw [List.mem_singleton.mp hmem]
            exact ⟨i, List.mem_cons_self _ _, g, Eq.refl _⟩
        · obtain ⟨j, hj, g, hg⟩ := ih (by rw [← hrest] : runUpdatesFrom factory is r.1 = some (r2.1, r2.2)) e hmem
          exact ⟨j, List.mem_cons_of_mem _ hj, g, hg⟩

theorem list_set_self {α : Type} :
    ∀ (l : List α) (i : Nat) (x : α), l.get? i = some x → l.set i x = l := by
  intro l
  induction l with
  | nil => intro i x h; simp at h
  | cons a l ih =>
    intro i x h
    cases i with
    | zero =>
      simp at h
      rw [h]
      rfl
    | succ i =>
      simp at h
      show a :: l.set i x = a :: l
      rw [ih i x (by simpa using h)]

theorem runUpdatesFrom_sorted {factory : Nat → ScriptProg} :
    ∀ {is : List Nat} {st st' : Hierarchy} {evs : List Event},
      runUpdatesFrom factory is st = some (st', evs) →
      List.Pairwise (· < ·) is →
      List.Pairwise (· < ·) (evs.map Event.eventIndex) := by
  intro is
  induction is with
  | nil =>
    intro st st' evs he _
    cases he
    exact List.Pairwise.nil
  | cons i is ih =>
    intro st st' evs he hp
    unfold runUpdatesFrom at he
    cases hv : updateVisit factory st i with
    | none => rw [hv] at he; exact absurd he (by simp)
    | some r =>
      rw [hv] at he
      simp only [Option.some_bind] at he
      cases hrest : runUpdatesFrom factory is r.1 with
      | none => rw [hrest] at he; exact absurd he (by simp)
      | some r2 =>
        rw [hrest] at he
        simp only [Option.map_some'] at he
        cases he
        rw [List.map_append]
        rw [List.pairwise_append]
        have hrest' : runUpdatesFrom factory is r.1 = some (r2.1, r2.2) := by
          rw [hrest]
        have hv' : updateVisit factory st i = some (r.1, r.2) := by rw [hv]
        refine ⟨?_, ih hrest' (List.pairwise_cons.mp hp).2, ?_⟩
        · rcases updateVisit_event_shape hv' with hnil | ⟨g, hone⟩
          · rw [hnil]; exact List.Pairwise.nil
          · rw [hone]; simp
        · intro a ha b hb
          obtain ⟨e1, he1, rfl⟩ := List.mem_map.mp ha
          obtain ⟨e2, he2, rfl⟩ := List.mem_map.mp hb
          rcases updateVisit_event_shape hv' with hnil | ⟨g, hone⟩
          · rw [hnil] at he1; exact absurd he1 (List.not_mem_nil e1)
          · rw [hone] at he1
            rw [List.mem_singleton.mp he1]
            obtain ⟨j, hj, g2, rfl⟩ := runUpdatesFrom_events hrest' e2 he2
            show i < j
            exact List.rel_of_pairwise_cons hp hj

theorem visit_skip_invalid {factory : Nat → ScriptProg} {st : Hierarchy} {i : Nat}
    (hb : st.try_borrow (st.handle_from_index i) = none) :
    updateVisit factory st i = some (st, []) := by
  unfold updateVisit
  dsimp only
  rw [hb]

theorem visit_skip_noscript {factory : Nat → ScriptProg} {st : Hierarchy}
    {i : Nat} {n : Node}
    (hb : st.try_borrow (st.handle_from_index i) = some n)
    (hsd : n.script_data = none) :
    updateVisit factory st i = some (st, []) := by
  unfold updateVisit
  dsimp only
  rw [hb]
  dsimp only
  rw [hsd]

theorem set_node_eq {st : Hierarchy} {hd : Handle} {m : Node}
    (hb : st.try_borrow hd = some m) (x : Node) :
    st.set_node hd x = some { st with object_pool :=
      ⟨st.object_pool.slots.set hd.index (Slot.occupied hd.generation x),
       st.object_pool.freeList⟩ } := by
  unfold Hierarchy.set_node
  rw [Pool.try_set_eq_some hb x]
  rfl

theorem node_eta_script {n : Node} {sd : NodeScriptData}
    (hsd : n.script_data = some sd) :
    { n with script_data := some sd } = n := by
  cases n
  simp at hsd
  rw [hsd]

theorem inert_visit {factory : Nat → ScriptProg} {st : Hierarchy} {i : Nat}
    {n : Node} {sd : NodeScriptData}
    (hb : st.try_borrow (st.handle_from_index i) = some n)
    (hsd : n.script_data = some sd) (hun : sd.script.onUpdate = []) :
    updateVisit factory st i
      = some (st, [Event.update (st.handle_from_index i)]) := by
  unfold updateVisit
  dsimp only
  rw [hb]
  dsimp only
  rw [hsd]
  dsimp only
  unfold runCallback
  rw [set_node_eq hb { n with script_data := none }]
  simp only [Option.some_bind]
  rw [hun]
  unfold execCmds
  simp only [Option.some_bind, Option.map_some']
  have hidx : (st.handle_from_index i).index = i := rfl
  have hlt : i < st.object_pool.slots.length := by
    have := Pool.try_borrow_index_lt hb
    rwa [hidx] at this
  have hbD : ({ st with object_pool :=
      ⟨st.object_pool.slots.set (st.handle_from_index i).index
        (Slot.occupied (st.handle_from_index i).generation
          { n with script_data := none }),
       st.object_pool.freeList⟩ } : Hierarchy).try_borrow (st.handle_from_index i)
      = some { n with script_data := none } := by
    apply Pool.try_borrow_of_slot
    show (st.object_pool.slots.set _ _).get? (st.handle_from_index i).index = _
    rw [List.get?_set_eq_of_lt _ (by rw [hidx]; exact hlt)]
  unfold reattachIfValid
  rw [hbD]
  dsimp only
  rw [set_node_eq hbD]
  simp only [Option.getD_some]
  have hset2 : ((st.object_pool.slots.set (st.handle_from_index i).index
        (Slot.occupied (st.handle_from_index i).generation
          { n with script_data := none })).set (st.handle_from_index i).index
        (Slot.occupied (st.handle_from_index i).generation
          { { n with script_data := none } with script_data := some sd }))
      = st.object_pool.slots := by
    rw [List.set_set]
    show st.object_pool.slots.set (st.handle_from_index i).index
      (Slot.occupied (st.handle_from_index i).generation
        { n with script_data := some sd }) = _
    rw [node_eta_script hsd]
    apply list_set_self
    exact Pool.try_borrow_slot hb
  rw [hset2]

/-- The event the pass emits at index i of a state whose callbacks leave the
state unchanged: an update of the reconstructed handle when the slot holds a
live scripted node. -/
def visitEventAt (st : Hierarchy) (i : Nat) : Option Event :=
  match st.try_borrow (st.handle_from_index i) with
  | some n =>
    match n.script_data with
    | some _ => some (Event.update (st.handle_from_index i))
    | none => none
  | none => none

theorem inert_pass {factory : Nat → ScriptProg} :
    ∀ (is : List Nat) (st : Hierarchy), st.InertUpdates →
      runUpdatesFrom factory is st
        = some (st, is.filterMap (visitEventAt st)) := by
  intro is
  induction is with
  | nil => intro st _; rfl
  | cons i is ih =>
    intro st hiu
    unfold runUpdatesFrom
    cases hb : st.try_borrow (st.handle_from_index i) with
    | none =>
      rw [visit_skip_invalid hb]
      simp only [Option.some_bind]
      rw [ih st hiu]
      simp only [Option.map_some']
      rw [List.filterMap_cons_none (by unfold visitEventAt; rw [hb])]
      rfl
    | some n =>
      cases hsd : n.script_data with
      | none =>
        rw [visit_skip_noscript hb hsd]
        simp only [Option.some_bind]
        rw [ih st hiu]
        simp only [Option.map_some']
        rw [List.filterMap_cons_none (by unfold visitEventAt; rw [hb]; dsimp only; rw [hsd])]
        rfl
      | some sd =>
        have hun : sd.script.onUpdate = [] := by
          have := Hierarchy.InertUpdates_of_borrow hiu hb
          unfold inertUpdate at this
          rw [hsd] at this
          exact List.isEmpty_iff.mp this
        rw [inert_visit hb hsd hun]
        simp only [Option.some_bind]
        rw [ih st hiu]
        simp only [Option.map_some']
        rw [List.filterMap_cons_some
          (by unfold visitEventAt; rw [hb]; dsimp only; rw [hsd] :
            visitEventAt st i = some (Event.update (st.handle_from_index i)))]
        rfl

theorem slotDFStart_scriptOnly : ∀ (g g' : Nat) (n n' : Node),
    n'.script_data = n.script_data →
    slotDFStart (Slot.occupied g' n') = slotDFStart (Slot.occupied g n) := by
  intro g g' n n' h
  show dfStart n' = dfStart n
  exact dfStart_congr h

theorem slotDFStart_free : ∀ g, slotDFStart (Slot.free g) = true := fun _ => Eq.refl _

theorem slotDFStart_inst {factory : Nat → ScriptProg} (hF : FactoryDF factory) :
    ∀ sn g, slotDFStart (Slot.occupied g (instantiateNode factory sn)) = true := by
  intro sn g
  show dfStart (instantiateNode factory sn) = true
  unfold dfStart instantiateNode
  cases sn.script_type_id with
  | none => rfl
  | some id =>
    dsimp only
    exact hF id

theorem slotNSUpdate_scriptOnly : ∀ (g g' : Nat) (n n' : Node),
    n'.script_data = n.script_data →
    slotNSUpdate (Slot.occupied g' n') = slotNSUpdate (Slot.occupied g n) := by
  intro g g' n n' h
  show nsUpdate n' = nsUpdate n
  exact nsUpdate_congr h

theorem slotNSUpdate_free : ∀ g, slotNSUpdate (Slot.free g) = true := fun _ => Eq.refl _

theorem execCmds_nospawn_slots_pred {P : Slot Node → Bool}
    (hP : ∀ g g' (n n' : Node), n'.script_data = n.script_data →
      P (Slot.occupied g' n') = P (Slot.occupied g n))
    (hfree : ∀ g, P (Slot.free g) = true)
    {factory : Nat → ScriptProg} {self : Handle} :
    ∀ {cmds : List Cmd} {st st' : Hierarchy}, cmds.all noSpawnCmd = true →
      execCmds factory self cmds st = some st' →
      (∀ s ∈ st.object_pool.slots, P s = true) →
      ∀ s ∈ st'.object_pool.slots, P s = true := by
  intro cmds
  induction cmds with
  | nil => intro st st' _ he hall; cases he; exact hall
  | cons c cs ih =>
    intro st st' hns he hall
    simp only [List.all_cons, Bool.and_eq_true] at hns
    unfold execCmds at he
    cases hc : execCmd factory self st c with
    | none => rw [hc] at he; exact absurd he (by simp)
    | some st1 =>
      rw [hc] at he
      refine ih hns.2 he ?_
      cases c with
      | nop => cases hc; exact hall
      | destroySelf => cases hc; exact destroy_node_slots_pred hP hfree self hall
      | destroyOther t => cases hc; exact destroy_node_slots_pred hP hfree t hall
      | spawn idx par => exact absurd hns.1 (by simp [noSpawnCmd])

theorem visit_nospawn {factory : Nat → ScriptProg} {st : Hierarchy} (i : Nat)
    (hns : st.NoSpawnUpdates) :
    ∃ st1 evs, updateVisit factory st i = some (st1, evs) ∧
      st1.NoSpawnUpdates := by
  cases hb : st.try_borrow (st.handle_from_index i) with
  | none => exact ⟨st, [], visit_skip_invalid hb, hns⟩
  | some n =>
    cases hsd : n.script_data with
    | none => exact ⟨st, [], visit_skip_noscript hb hsd, hns⟩
    | some sd =>
      have hnsu : sd.script.onUpdate.all noSpawnCmd = true := by
        have := Hierarchy.NoSpawnUpdates_of_borrow hns hb
        unfold nsUpdate at this
        rw [hsd] at this
        exact this
      obtain ⟨stD, hsn⟩ := set_node_some hb { n with script_data := none }
      have hDns : stD.NoSpawnUpdates :=
        set_node_slots_pred hsn hns (fun g => Eq.refl _)
      obtain ⟨st2, hex⟩ := execCmds_nospawn_some stD hnsu
      have h2ns : st2.NoSpawnUpdates :=
        execCmds_nospawn_slots_pred slotNSUpdate_scriptOnly slotNSUpdate_free
          hnsu hex hDns
      refine ⟨reattachIfValid st2 (st.handle_from_index i) sd,
        [Event.update (st.handle_from_index i)], ?_, ?_⟩
      · unfold updateVisit
        dsimp only
        rw [hb]
        dsimp only
        rw [hsd]
        dsimp only
        unfold runCallback
        rw [hsn]
        simp only [Option.some_bind]
        rw [hex]
        rfl
      · refine reattach_slots_pred h2ns fun g n2 => ?_
        show nsUpdate { n2 with script_data := some sd } = true
        unfold nsUpdate
        exact hnsu

theorem nospawn_pass {factory : Nat → ScriptProg} :
    ∀ (is : List Nat) (st : Hierarchy), st.NoSpawnUpdates →
      ∃ st' evs, runUpdatesFrom factory is st = some (st', evs) ∧
        st'.NoSpawnUpdates := by
  intro is
  induction is with
  | nil => intro st hns; exact ⟨st, [], Eq.refl _, hns⟩
  | cons i is ih =>
    intro st hns
    obtain ⟨st1, evs1, hv, h1ns⟩ := visit_nospawn i hns
    obtain ⟨st', evs2, hrest, h'ns⟩ := ih st1 h1ns
    refine ⟨st', evs1 ++ evs2, ?_, h'ns⟩
    unfold runUpdatesFrom
    rw [hv]
    simp only [Option.some_bind]
    rw [hrest]
    rfl

/-
C5.  run_script_update is a flat snapshot-length index pass.
-/

/-- C5: run_script_update makes one forward pass over the indices below the
pool length at entry: every emitted event is an update whose handle index is
below the entry length (so nodes appended during the pass at index at or
beyond the entry length are never visited, and no start ever runs there),
visitation is strictly increasing flat index order, and when every live
script's update callback is inert the pass leaves the state unchanged and
emits exactly one update per live scripted index, with the handle rebuilt
from the slot's current generation. -/
theorem run_script_update_flat_pass :
    (∀ (factory : Nat → ScriptProg) (st st' : Hierarchy) (evs : List Event),
      st.run_script_update factory = some (st', evs) →
      (∀ e ∈ evs, ∃ i g, i < st.vec_len ∧ e = Event.update ⟨i, g⟩) ∧
      List.Pairwise (· < ·) (evs.map Event.eventIndex) ∧
      (∀ hd : Handle, st.vec_len ≤ hd.index →
        Event.update hd ∉ evs ∧ Event.start hd ∉ evs)) ∧
    (∀ (factory : Nat → ScriptProg) (st : Hierarchy), st.InertUpdates →
      st.run_script_update factory
        = some (st, (List.range st.vec_len).filterMap (visitEventAt st))) := by
  constructor
  · intro factory st st' evs he
    unfold Hierarchy.run_script_update at he
    have hmem : ∀ e ∈ evs, ∃ i g, i < st.vec_len ∧ e = Event.update ⟨i, g⟩ := by
      intro e hmem
      obtain ⟨i, hi, g, hg⟩ := runUpdatesFrom_events he e hmem
      exact ⟨i, g, List.mem_range.mp hi, hg⟩
    refine ⟨hmem, runUpdatesFrom_sorted he (List.pairwise_lt_range _), ?_⟩
    intro hd hge
    constructor
    · intro hin
      obtain ⟨i, g, hlt, heq⟩ := hmem _ hin
      cases heq
      simp at hge
      omega
    · intro hin
      obtain ⟨i, g, hlt, heq⟩ := hmem _ hin
      exact Event.noConfusion heq
  · intro factory st hiu
    exact inert_pass (List.range st.vec_len) st hiu

/-- A scripted node for concrete scheduler scenarios. -/
def scriptedNode (nm : String) (tid : Nat) (prog : ScriptProg) : Node :=
  { child_handle := none, parent_handle := none, sibling_handle := none,
    name := nm, transform := ⟨0, 0⟩, script_data := some ⟨tid, prog⟩,
    enabled := true }

/-- Concrete pass state: an unscripted root, a scripted node at slot 1 with
generation 2, a free slot, and a scripted node at slot 3. -/
def stInert : Hierarchy :=
  ⟨⟨0, 0⟩,
   ⟨[Slot.occupied 0 (plainNode "" none none),
     Slot.occupied 2 (scriptedNode "a" 7 ⟨[], []⟩),
     Slot.free 5,
     Slot.occupied 0 (scriptedNode "b" 8 ⟨[], []⟩)], [2]⟩,
   [], []⟩

/-- C5 witness: on stInert the pass visits slots 1 and 3 in order,
reconstructing the handle of slot 1 with its current generation 2, leaves
the state unchanged, and the free slot and the out-of-range handle (4,0)
receive nothing. -/
theorem run_script_update_flat_pass_witness :
    stInert.InertUpdates ∧
    stInert.run_script_update trivialFactory
      = some (stInert, [Event.update ⟨1, 2⟩, Event.update ⟨3, 0⟩]) ∧
    Event.update ⟨4, 0⟩ ∉ [Event.update ⟨1, 2⟩, Event.update ⟨3, 0⟩] := by
  have hiu : stInert.InertUpdates := by decide
  have h2 := run_script_update_flat_pass.2 trivialFactory stInert hiu
  refine ⟨hiu, ?_, by decide⟩
  rw [h2]
  decide

/-
C7.  The scheduler skips stale start entries and survives destruction.
-/

/-- C7: a handle popped from the start stack whose node was destroyed in the
meantime is silently skipped (no event, no abort, draining continues with
the rest of the stack), and an update pass whose live callbacks contain only
destroy or nop commands (a node destroying itself or any other node) never
aborts. -/
theorem scheduler_skips_and_survives_destroy :
    (∀ (factory : Nat → ScriptProg) (st : Hierarchy) (hd : Handle)
       (rest : List Handle),
      st.to_start_stack = hd :: rest → st.try_borrow hd = none →
      run_one_pending_script_start factory st
        = some ({ st with to_start_stack := rest }, [], true)) ∧
    (∀ (factory : Nat → ScriptProg) (fuel : Nat) (st : Hierarchy) (hd : Handle)
       (rest : List Handle),
      st.to_start_stack = hd :: rest → st.try_borrow hd = none →
      drainStarts factory (fuel + 1) st
        = drainStarts factory fuel { st with to_start_stack := rest }) ∧
    (∀ (factory : Nat → ScriptProg) (st : Hierarchy), st.NoSpawnUpdates →
      (st.run_script_update factory).isSome = true) := by
  have hone : ∀ (factory : Nat → ScriptProg) (st : Hierarchy) (hd : Handle)
      (rest : List Handle),
      st.to_start_stack = hd :: rest → st.try_borrow hd = none →
      run_one_pending_script_start factory st
        = some ({ st with to_start_stack := rest }, [], true) := by
    intro factory st hd rest hstack hb
    unfold run_one_pending_script_start
    rw [hstack]
    dsimp only
    rw [show ({ st with to_start_stack := rest } : Hierarchy).try_borrow hd
      = st.try_borrow hd from Eq.refl _, hb]
  refine ⟨hone, ?_, ?_⟩
  · intro factory fuel st hd rest hstack hb
    show (match run_one_pending_script_start factory st with
      | none => none
      | some (st1, evs, b) =>
        if b then (drainStarts factory fuel st1).map
          fun (r : Hierarchy × List Event) => (r.1, evs ++ r.2)
        else some (st1, evs)) = _
    rw [hone factory st hd rest hstack hb]
    dsimp only
    rw [if_pos (Eq.refl _)]
    cases hrec : drainStarts factory fuel { st with to_start_stack := rest } with
    | none => rfl
    | some r => rfl
  · intro factory st hns
    obtain ⟨st', evs, he, _⟩ :=
      nospawn_pass (List.range st.vec_len) st hns
    unfold Hierarchy.run_script_update
    rw [he]
    rfl

/-- Concrete stale-start state: the stack holds a dangling handle. -/
def stStale : Hierarchy :=
  ⟨⟨0, 0⟩, ⟨[Slot.occupied 0 (plainNode "" none none)], []⟩, [⟨3, 7⟩], []⟩

/-- Concrete destroy state: slot 1's update destroys itself and slot 2's
node; slot 2's update is a no-op. -/
def stDestroy : Hierarchy :=
  ⟨⟨0, 0⟩,
   ⟨[Slot.occupied 0 (plainNode "" none none),
     Slot.occupied 0 (scriptedNode "killer" 1
       ⟨[], [Cmd.destroyOther ⟨2, 0⟩, Cmd.destroySelf]⟩),
     Slot.occupied 0 (scriptedNode "bystander" 2 ⟨[], [Cmd.nop]⟩)], []⟩,
   [], []⟩

/-- C7 witness: the stale handle (3,7) is skipped leaving an empty stack, and
the destroy-heavy update pass completes (and in fact still updates the
later-destroyed bystander slot before it was destroyed is irrelevant: the
pass returns some). -/
theorem scheduler_skips_and_survives_destroy_witness :
    stStale.to_start_stack = [⟨3, 7⟩] ∧
    stStale.try_borrow ⟨3, 7⟩ = none ∧
    run_one_pending_script_start trivialFactory stStale
      = some ({ stStale with to_start_stack := [] }, [], true) ∧
    stDestroy.NoSpawnUpdates ∧
    (stDestroy.run_script_update trivialFactory).isSome = true := by
  have h1 := scheduler_skips_and_survives_destroy.1 trivialFactory stStale
    ⟨3, 7⟩ [] (Eq.refl _) (by decide)
  have h3 := scheduler_skips_and_survives_destroy.2.2 trivialFactory stDestroy
    (by decide)
  exact ⟨Eq.refl _, by decide, h1, by decide, h3⟩

theorem phase1_hidden (factory : Nat → ScriptProg) :
    ∀ (ns : List SavedNode) (p : Pool Node) (acc : List Handle) (hd : Handle),
      PoolHidden hd p →
      PoolHidden hd (phase1 factory ns p acc).1 ∧
      (∀ h2 ∈ (phase1 factory ns p acc).2, h2 ∈ acc ∨ h2 ≠ hd) := by
  intro ns
  induction ns with
  | nil => intro p acc hd hh; exact ⟨hh, fun h2 h => Or.inl h⟩
  | cons sn rest ih =>
    intro p acc hd hh
    obtain ⟨hh1, hfresh⟩ := poolHidden_add (instantiateNode factory sn) hh
    obtain ⟨ih1, ih2⟩ := ih (p.add (instantiateNode factory sn)).1
      (acc ++ [(p.add (instantiateNode factory sn)).2]) hd hh1
    refine ⟨ih1, fun h2 hmem => ?_⟩
    rcases ih2 h2 hmem with hacc | hne
    · rcases List.mem_append.mp hacc with h | h
      · exact Or.inl h
      · rw [List.mem_singleton.mp h]
        exact Or.inr hfresh
    · exact Or.inr hne

theorem phase2_hidden (hs : List Handle) (parentH : Handle) :
    ∀ (pairs : List (SavedNode × Handle)) (pool : Pool Node) (pr : Option Handle)
      (stack : List Handle) (pool2 : Pool Node) (pr2 : Option Handle)
      (stack2 : List Handle) (hd : Handle),
      phase2 hs parentH pairs pool pr stack = some (pool2, pr2, stack2) →
      PoolHidden hd pool → (∀ q ∈ pairs, q.2 ≠ hd) → PoolHidden hd pool2 := by
  intro pairs
  induction pairs with
  | nil =>
    intro pool pr stack pool2 pr2 stack2 hd hp hh _
    unfold phase2 at hp
    cases hp
    exact hh
  | cons q rest ih =>
    intro pool pr stack pool2 pr2 stack2 hd hp hh hq
    obtain ⟨sn, hd1⟩ := q
    unfold phase2 at hp
    cases hb1 : pool.try_borrow hd1 with
    | none => rw [hb1] at hp; exact absurd hp (by simp)
    | some n1 =>
      rw [hb1] at hp
      dsimp only at hp
      cases hw : wiredNode hs parentH sn n1 with
      | none => rw [hw] at hp; exact absurd hp (by simp)
      | some w =>
        rw [hw] at hp
        dsimp only at hp
        cases hset : pool.try_set hd1 w with
        | none => rw [hset] at hp; exact absurd hp (by simp)
        | some pool1 =>
          rw [hset] at hp
          dsimp only at hp
          refine ih pool1 (some hd1) (hd1 :: stack) pool2 pr2 stack2 hd hp
            (poolHidden_set hset
              (Or.inl (hq (sn, hd1) (List.mem_cons_self _ _))) hh)
            fun q2 hmem => hq q2 (List.mem_cons_of_mem _ hmem)

theorem link_hidden {pool pool3 : Pool Node} {parent child hd : Handle}
    (hl : link_new_child pool parent child = some pool3)
    (hh : PoolHidden hd pool) : PoolHidden hd pool3 := by
  obtain ⟨pobj, cobj, pool1, pobj1, hp, hc, hset1, hp1, hset2⟩ := link_some_src hl
  exact poolHidden_set hset2
    (Or.inr fun m hm => by rw [hp1] at hm; cases hm; rfl)
    (poolHidden_set hset1
      (Or.inr fun m hm => by rw [hc] at hm; cases hm; rfl) hh)

theorem spawn_hidden {factory : Nat → ScriptProg} {st st' : Hierarchy}
    {idx : Nat} {par hd : Handle}
    (hs : st.spawn_prefab factory idx par = some st')
    (hh : PoolHidden hd st.object_pool) : PoolHidden hd st'.object_pool := by
  obtain ⟨graph, pool2, pr2, stack2, childH, pool3, hg, hp2, hpr, hl, rfl⟩ :=
    spawn_some_src hs
  obtain ⟨h1, hfresh⟩ := phase1_hidden factory graph.nodes st.object_pool [] hd hh
  have hq : ∀ q ∈ graph.nodes.zip (phase1 factory graph.nodes st.object_pool []).2,
      q.2 ≠ hd := by
    intro q hq
    rcases hfresh q.2 (List.of_mem_zip hq).2 with hmem | hne
    · exact absurd hmem (List.not_mem_nil _)
    · exact hne
  exact link_hidden hl (phase2_hidden _ par _ _ _ _ _ _ _ hd hp2 h1 hq)

theorem destroy_node_hidden {st : Hierarchy} {t hd : Handle}
    (hh : PoolHidden hd st.object_pool) :
    PoolHidden hd (st.destroy_node t).object_pool := by
  rcases destroy_node_src st t with ⟨_, heq⟩ | ⟨pool1, p2, hmod, hd2, heq⟩
  · rw [heq]; exact hh
  · rw [heq]
    exact poolHidden_destroy hd2 (hmod.2.2.2.2 hd hh)

theorem execCmds_hidden {factory : Nat → ScriptProg} {self : Handle} {hd : Handle} :
    ∀ {cmds : List Cmd} {st st' : Hierarchy},
      execCmds factory self cmds st = some st' →
      PoolHidden hd st.object_pool → PoolHidden hd st'.object_pool := by
  intro cmds
  induction cmds with
  | nil => intro st st' he hh; cases he; exact hh
  | cons c cs ih =>
    intro st st' he hh
    unfold execCmds at he
    cases hc : execCmd factory self st c with
    | none => rw [hc] at he; exact absurd he (by simp)
    | some st1 =>
      rw [hc] at he
      refine ih he ?_
      cases c with
      | nop => cases hc; exact hh
      | destroySelf => cases hc; exact destroy_node_hidden hh
      | destroyOther t => cases hc; exact destroy_node_hidden hh
      | spawn idx par => exact spawn_hidden hc hh

/-
C10.  The detach-invoke-reattach protocol.
-/

/-- C10: when a callback is invoked through the detach protocol, the state
handed to it has the node's script_data taken out (none), and the node
remains observably scriptless through any sequence of commands the callback
may execute; when the callback finishes, runCallback reattaches the payload
exactly when the handle still resolves, and otherwise returns the state
unchanged, silently dropping the payload. -/
theorem detach_reattach_protocol :
    ∀ (factory : Nat → ScriptProg) (st : Hierarchy) (hd : Handle) (n : Node)
      (sd : NodeScriptData) (cmds : List Cmd) (st1 : Hierarchy),
      st.try_borrow hd = some n → n.script_data = some sd →
      st.set_node hd { n with script_data := none } = some st1 →
      (st1.try_borrow hd = some { n with script_data := none } ∧
       (∀ cs st2, execCmds factory hd cs st1 = some st2 →
         ∀ m, st2.try_borrow hd = some m → m.script_data = none) ∧
       (∀ st2, execCmds factory hd cmds st1 = some st2 →
         runCallback factory hd cmds sd st n
           = some (reattachIfValid st2 hd sd) ∧
         (∀ m, st2.try_borrow hd = some m →
           (reattachIfValid st2 hd sd).try_borrow hd
             = some { m with script_data := some sd }) ∧
         (st2.try_borrow hd = none → reattachIfValid st2 hd sd = st2))) := by
  intro factory st hd n sd cmds st1 hb hsd hset
  have hb1 : st1.try_borrow hd = some { n with script_data := none } :=
    set_node_borrow_self hset
  have hhide : PoolHidden hd st1.object_pool := by
    obtain ⟨p', hp, rfl⟩ := set_node_src hset
    obtain ⟨m, hm, rfl⟩ := Pool.try_set_some_src hp
    refine ⟨?_, ?_, ?_⟩
    · intro n2 hb2
      have heq := hb1.symm.trans hb2
      cases heq
      rfl
    · show hd.index < (st.object_pool.slots.set hd.index _).length
      rw [List.length_set]
      exact Pool.try_borrow_index_lt hb
    · intro s hg
      rw [show ((⟨st.object_pool.slots.set hd.index
          (Slot.occupied hd.generation { n with script_data := none }),
          st.object_pool.freeList⟩ : Pool Node).slots)
        = st.object_pool.slots.set hd.index
            (Slot.occupied hd.generation { n with script_data := none })
        from Eq.refl _,
        List.get?_set_eq_of_lt _ (Pool.try_borrow_index_lt hb)] at hg
      cases hg
      exact Nat.le_refl _
  refine ⟨hb1, ?_, ?_⟩
  · intro cs st2 hex m hm
    exact (execCmds_hidden hex hhide).1 m hm
  · intro st2 hex
    refine ⟨?_, ?_, ?_⟩
    · unfold runCallback
      rw [hset]
      simp only [Option.some_bind]
      rw [hex]
      rfl
    · intro m hm
      exact reattach_borrow_self hm
    · intro hnone
      exact reattach_id hnone

/-- Concrete detach scenario: a root and one scripted node. -/
def stC10 : Hierarchy :=
  ⟨⟨0, 0⟩,
   ⟨[Slot.occupied 0 (plainNode "" none none),
     Slot.occupied 0 (scriptedNode "s" 5 ⟨[], []⟩)], []⟩,
   [], []⟩

/-- The same state with the script detached from slot 1. -/
def st1C10 : Hierarchy :=
  ⟨⟨0, 0⟩,
   ⟨[Slot.occupied 0 (plainNode "" none none),
     Slot.occupied 0 (plainNode "s" none none)], []⟩,
   [], []⟩

def nC10 : Node := scriptedNode "s" 5 ⟨[], []⟩

def sdC10 : NodeScriptData := ⟨5, ⟨[], []⟩⟩

/-- C10 witness: on the concrete state, the callback state has the node
scriptless; a nop callback leads to reattachment restoring the original
node, while a self-destroying callback leaves the handle dead and the
payload dropped. -/
theorem detach_reattach_protocol_witness :
    stC10.try_borrow ⟨1, 0⟩ = some nC10 ∧
    nC10.script_data = some sdC10 ∧
    st1C10.try_borrow ⟨1, 0⟩ = some { nC10 with script_data := none } ∧
    runCallback trivialFactory ⟨1, 0⟩ [Cmd.nop] sdC10 stC10 nC10
      = some (reattachIfValid st1C10 ⟨1, 0⟩ sdC10) ∧
    (reattachIfValid st1C10 ⟨1, 0⟩ sdC10).try_borrow ⟨1, 0⟩ = some nC10 ∧
    runCallback trivialFactory ⟨1, 0⟩ [Cmd.destroySelf] sdC10 stC10 nC10
      = some (st1C10.destroy_node ⟨1, 0⟩) ∧
    (st1C10.destroy_node ⟨1, 0⟩).try_borrow ⟨1, 0⟩ = none := by
  have hb : stC10.try_borrow ⟨1, 0⟩ = some nC10 := by decide
  have hsd : nC10.script_data = some sdC10 := by decide
  have hset : stC10.set_node ⟨1, 0⟩ { nC10 with script_data := none }
      = some st1C10 := by decide
  have h1 := detach_reattach_protocol trivialFactory stC10 ⟨1, 0⟩ nC10 sdC10
    [Cmd.nop] st1C10 hb hsd hset
  have h2 := detach_reattach_protocol trivialFactory stC10 ⟨1, 0⟩ nC10 sdC10
    [Cmd.destroySelf] st1C10 hb hsd hset
  have hex1 : execCmds trivialFactory ⟨1, 0⟩ [Cmd.nop] st1C10 = some st1C10 := by
    decide
  have hex2 : execCmds trivialFactory ⟨1, 0⟩ [Cmd.destroySelf] st1C10
      = some (st1C10.destroy_node ⟨1, 0⟩) := by decide
  obtain ⟨hrc1, hres1, _⟩ := h1.2.2 st1C10 hex1
  obtain ⟨hrc2, _, hdrop2⟩ := h2.2.2 (st1C10.destroy_node ⟨1, 0⟩) hex2
  refine ⟨hb, hsd, h1.1, hrc1, ?_, ?_, by decide⟩
  · rw [hres1 { nC10 with script_data := none } h1.1]
    decide
  · rw [hrc2, hdrop2 (by decide)]

/-
C3 amended: zero-based link resolution, proved from a characterization of
the two spawn phases on a pool with an empty free list.
-/

theorem phase1_char (factory : Nat → ScriptProg) :
    ∀ (ns : List SavedNode) (p : Pool Node) (acc : List Handle),
      p.freeList = [] →
      phase1 factory ns p acc
        = (⟨p.slots ++ ns.map (fun sn =>
              Slot.occupied 0 (instantiateNode factory sn)), []⟩,
           acc ++ (List.range ns.length).map
              (fun j => ⟨p.slots.length + j, 0⟩)) := by
  intro ns
  induction ns with
  | nil =>
    intro p acc hfl
    obtain ⟨slots, fl⟩ := p
    simp only at hfl
    subst hfl
    simp [phase1]
  | cons sn rest ih =>
    intro p acc hfl
    have heq : phase1 factory (sn :: rest) p acc
        = phase1 factory rest (p.add (instantiateNode factory sn)).1
            (acc ++ [(p.add (instantiateNode factory sn)).2]) := rfl
    rw [heq, Pool.add_eq_append p _ hfl]
    rw [ih _ _ (Eq.refl _)]
    refine congrArg₂ Prod.mk ?_ ?_
    · show (⟨(p.slots ++ [Slot.occupied 0 (instantiateNode factory sn)])
          ++ rest.map _, []⟩ : Pool Node) = _
      rw [List.append_assoc]
      rfl
    · show (acc ++ [⟨p.slots.length, 0⟩]) ++ (List.range rest.length).map
          (fun j => (⟨(p.slots ++ [Slot.occupied 0 (instantiateNode factory sn)]).length + j, 0⟩ : Handle)) = _
      rw [List.append_assoc]
      refine congrArg _ ?_
      show [(⟨p.slots.length, 0⟩ : Handle)] ++ _ = _
      have hr : List.range (rest.length + 1)
          = 0 :: (List.range rest.length).map Nat.succ :=
        List.range_succ_eq_map rest.length
      rw [show (sn :: rest).length = rest.length + 1 from Eq.refl _, hr]
      rw [List.map_cons, List.map_map]
      refine congrArg₂ List.cons (by rw [Nat.add_zero]) ?_
      refine List.map_congr_left fun j hj => ?_
      show (⟨(p.slots ++ [_]).length + j, 0⟩ : Handle)
        = ⟨p.slots.length + (j + 1), 0⟩
      rw [List.length_append]
      show (⟨p.slots.length + 1 + j, 0⟩ : Handle) = _
      rw [Nat.add_assoc, Nat.add_comm 1 j]

theorem phase2_wired (hs : List Handle) (parentH : Handle) :
    ∀ (pairs : List (SavedNode × Handle)) (pool : Pool Node) (pr : Option Handle)
      (stack : List Handle) (pool2 : Pool Node) (pr2 : Option Handle)
      (stack2 : List Handle),
      phase2 hs parentH pairs pool pr stack = some (pool2, pr2, stack2) →
      pool.WF →
      (pairs.map Prod.snd).Nodup →
      ∀ sn hd1, (sn, hd1) ∈ pairs →
        ∃ n0 w, pool.try_borrow hd1 = some n0 ∧
          wiredNode hs parentH sn n0 = some w ∧
          pool2.try_borrow hd1 = some w := by
  intro pairs
  induction pairs with
  | nil =>
    intro pool pr stack pool2 pr2 stack2 hp _ _ sn hd1 hmem
    exact absurd hmem (List.not_mem_nil _)
  | cons q rest ih =>
    intro pool pr stack pool2 pr2 stack2 hp hwf hnd sn hd1 hmem
    obtain ⟨sn0, h0⟩ := q
    unfold phase2 at hp
    cases hb0 : pool.try_borrow h0 with
    | none => rw [hb0] at hp; exact absurd hp (by simp)
    | some n0 =>
      rw [hb0] at hp
      dsimp only at hp
      cases hw0 : wiredNode hs parentH sn0 n0 with
      | none => rw [hw0] at hp; exact absurd hp (by simp)
      | some w0 =>
        rw [hw0] at hp
        dsimp only at hp
        cases hset0 : pool.try_set h0 w0 with
        | none => rw [hset0] at hp; exact absurd hp (by simp)
        | some pool1 =>
          rw [hset0] at hp
          dsimp only at hp
          rw [List.map_cons] at hnd
          have hnd' := List.nodup_cons.mp hnd
          obtain ⟨p2wf, p2len, p2stack, p2pres⟩ :=
            phase2_sim hs parentH rest pool1 (some h0) (h0 :: stack)
              pool2 pr2 stack2 hp (Pool.try_set_wf hset0 hwf)
          rcases List.mem_cons.mp hmem with hhead | htail
          · have he1 : sn = sn0 := congrArg Prod.fst hhead
            have he2 : hd1 = h0 := congrArg Prod.snd hhead
            rw [he1, he2]
            refine ⟨n0, w0, hb0, hw0, ?_⟩
            refine p2pres h0 w0 (Pool.try_set_borrow_self hset0) ?_
            intro q2 hq2 he
            exact hnd'.1 (List.mem_map.mpr ⟨q2, hq2, he⟩)
          · have hne : h0 ≠ hd1 := by
              intro he
              exact hnd'.1 (List.mem_map.mpr ⟨(sn, hd1), htail, he.symm⟩)
            obtain ⟨m0, wm, hbm, hwm, hbm2⟩ :=
              ih pool1 (some h0) (h0 :: stack) pool2 pr2 stack2 hp
                (Pool.try_set_wf hset0 hwf) hnd'.2 sn hd1 htail
            rw [Pool.try_set_borrow_other hset0 (Ne.symm hne)] at hbm
            exact ⟨m0, wm, hbm, hwm, hbm2⟩

theorem phase2_root_last (hs : List Handle) (parentH : Handle) :
    ∀ (pairs : List (SavedNode × Handle)) (pool : Pool Node) (pr : Option Handle)
      (stack : List Handle) (pool2 : Pool Node) (pr2 : Option Handle)
      (stack2 : List Handle),
      phase2 hs parentH pairs pool pr stack = some (pool2, pr2, stack2) →
      pairs ≠ [] →
      ∃ hlast, (pairs.map Prod.snd).getLast? = some hlast ∧ pr2 = some hlast := by
  intro pairs
  induction pairs with
  | nil => intro pool pr stack pool2 pr2 stack2 _ hne; exact absurd (Eq.refl _) hne
  | cons q rest ih =>
    intro pool pr stack pool2 pr2 stack2 hp _
    obtain ⟨sn0, h0⟩ := q
    unfold phase2 at hp
    cases hb0 : pool.try_borrow h0 with
    | none => rw [hb0] at hp; exact absurd hp (by simp)
    | some n0 =>
      rw [hb0] at hp
      dsimp only at hp
      cases hw0 : wiredNode hs parentH sn0 n0 with
      | none => rw [hw0] at hp; exact absurd hp (by simp)
      | some w0 =>
        rw [hw0] at hp
        dsimp only at hp
        cases hset0 : pool.try_set h0 w0 with
        | none => rw [hset0] at hp; exact absurd hp (by simp)
        | some pool1 =>
          rw [hset0] at hp
          dsimp only at hp
          cases hrest : rest with
          | nil =>
            rw [hrest] at hp
            unfold phase2 at hp
            cases hp
            exact ⟨h0, Eq.refl _, Eq.refl _⟩
          | cons q1 rest1 =>
            obtain ⟨hlast, hgl, hpr⟩ :=
              ih pool1 (some h0) (h0 :: stack) pool2 pr2 stack2
                hp (by rw [hrest]; simp)
            refine ⟨hlast, ?_, hpr⟩
            rw [hrest] at hgl
            simp only [List.map_cons] at hgl ⊢
            rw [List.getLast?_cons_cons]
            exact hgl

theorem wf_of_empty_free {v : Type} {p : Pool v} (hfl : p.freeList = []) :
    p.WF := by
  refine ⟨by rw [hfl]; exact List.nodup_nil, ?_⟩
  rw [hfl]
  intro i hi
  exact absurd hi (List.not_mem_nil i)

theorem freshHandles_get (L : Nat) {n j : Nat} (hj : j < n) :
    ((List.range n).map (fun i => (⟨L + i, 0⟩ : Handle))).get? j
      = some ⟨L + j, 0⟩ := by
  rw [List.get?_map, List.get?_range hj]
  rfl

theorem freshHandles_nodup (L n : Nat) :
    ((List.range n).map (fun i => (⟨L + i, 0⟩ : Handle))).Nodup := by
  refine List.Nodup.map ?_ (List.nodup_range n)
  intro a b hab
  have : L + a = L + b := congrArg Handle.index hab
  omega

theorem freshHandles_getLast (L : Nat) {n : Nat} (hn : 0 < n) :
    ((List.range n).map (fun i => (⟨L + i, 0⟩ : Handle))).getLast?
      = some ⟨L + (n - 1), 0⟩ := by
  cases n with
  | zero => omega
  | succ m =>
    rw [List.range_succ, List.map_append]
    simp only [List.map_cons, List.map_nil]
    rw [List.getLast?_concat]
    rfl

theorem pool1_borrow (factory : Nat → ScriptProg) (slots : List (Slot Node))
    {ns : List SavedNode} {j : Nat} {sn : SavedNode}
    (hget : ns.get? j = some sn) :
    (⟨slots ++ ns.map (fun s =>
        Slot.occupied 0 (instantiateNode factory s)), []⟩ : Pool Node).try_borrow
      ⟨slots.length + j, 0⟩ = some (instantiateNode factory sn) := by
  apply Pool.try_borrow_of_slot
  show (slots ++ ns.map _).get? (slots.length + j) = _
  rw [List.get?_append_right (by omega : slots.length ≤ slots.length + j)]
  rw [show slots.length + j - slots.length = j from by omega]
  rw [List.get?_map, hget]
  rfl

theorem link_borrow_nonparticipant {pool pool3 : Pool Node}
    {parent child hd : Handle}
    (hl : link_new_child pool parent child = some pool3)
    (hne1 : hd ≠ child) (hne2 : hd ≠ parent) :
    pool3.try_borrow hd = pool.try_borrow hd := by
  obtain ⟨pobj, cobj, pool1, pobj1, hp, hc, hset1, hp1, hset2⟩ := link_some_src hl
  rw [Pool.try_set_borrow_other hset2 hne2, Pool.try_set_borrow_other hset1 hne1]

theorem link_borrow_child {pool pool3 : Pool Node} {parent child : Handle}
    (hl : link_new_child pool parent child = some pool3)
    (hne : child ≠ parent) :
    ∃ pobj cobj, pool.try_borrow parent = some pobj ∧
      pool.try_borrow child = some cobj ∧
      pool3.try_borrow child
        = some { cobj with sibling_handle := pobj.child_handle } := by
  obtain ⟨pobj, cobj, pool1, pobj1, hp, hc, hset1, hp1, hset2⟩ := link_some_src hl
  refine ⟨pobj, cobj, hp, hc, ?_⟩
  rw [Pool.try_set_borrow_other hset2 hne]
  exact Pool.try_set_borrow_self hset1

/-- C3 amended: stored link values are resolved zero-based.  On a hierarchy
whose pool has an empty free list (so the new handles are the appended slots
at generation 0), a record j with parent_index k is wired to the handle
allocated for the graph's record at zero-based position k (and an absent
parent_index wires to the spawn parent); the same holds for child_index and,
for every record except the last one (whose sibling link is afterwards
overwritten by the root-linking step), for sibling_index. -/
theorem link_resolution_zero_based :
    ∀ (factory : Nat → ScriptProg) (h h' : Hierarchy) (idx : Nat)
      (g : SavedNodeGraph) (parentH : Handle) (j k : Nat) (sn : SavedNode),
      h.object_pool.freeList = [] →
      (h.object_pool.try_borrow parentH).isSome = true →
      h.saved_prefab_data.get? idx = some g →
      h.spawn_prefab factory idx parentH = some h' →
      g.nodes.get? j = some sn →
      ((sn.parent_index = some k →
        (h'.try_borrow ⟨h.vec_len + j, 0⟩).map (·.parent_handle)
          = some (some ⟨h.vec_len + k, 0⟩)) ∧
       (sn.parent_index = none →
        (h'.try_borrow ⟨h.vec_len + j, 0⟩).map (·.parent_handle)
          = some (some parentH)) ∧
       (sn.child_index = some k →
        (h'.try_borrow ⟨h.vec_len + j, 0⟩).map (·.child_handle)
          = some (some ⟨h.vec_len + k, 0⟩)) ∧
       (sn.sibling_index = some k → j + 1 ≠ g.nodes.length →
        (h'.try_borrow ⟨h.vec_len + j, 0⟩).map (·.sibling_handle)
          = some (some ⟨h.vec_len + k, 0⟩))) := by
  intro factory h h' idx g parentH j k sn hfl hpv hg hs hget
  obtain ⟨graph, pool2, pr2, stack2, childH, pool3, hg2, hp2, hpr, hl, rfl⟩ :=
    spawn_some_src hs
  rw [hg] at hg2
  cases hg2
  obtain ⟨pn, hpb⟩ := Option.isSome_iff_exists.mp hpv
  have hjn : j < g.nodes.length := List.get?_eq_some.mp hget |>.1
  rw [phase1_char factory g.nodes h.object_pool [] hfl] at hp2
  dsimp only at hp2
  simp only [List.nil_append] at hp2
  have hwf1 : (⟨h.object_pool.slots ++ g.nodes.map (fun s =>
      Slot.occupied 0 (instantiateNode factory s)), []⟩ : Pool Node).WF :=
    wf_of_empty_free (Eq.refl _)
  have hnd : ((g.nodes.zip ((List.range g.nodes.length).map
      (fun i => (⟨h.object_pool.slots.length + i, 0⟩ : Handle)))).map
        Prod.snd).Nodup := by
    rw [List.map_snd_zip _ _ (by simp)]
    exact freshHandles_nodup _ _
  have hzget : (g.nodes.zip ((List.range g.nodes.length).map
      (fun i => (⟨h.object_pool.slots.length + i, 0⟩ : Handle)))).get? j
      = some (sn, ⟨h.object_pool.slots.length + j, 0⟩) :=
    (List.get?_zip_eq_some _ _ _ _).mpr ⟨hget, freshHandles_get _ hjn⟩
  obtain ⟨n0, w, hb0, hw, hb2⟩ :=
    phase2_wired _ parentH _ _ none h.to_start_stack pool2 pr2 stack2 hp2 hwf1
      hnd sn ⟨h.object_pool.slots.length + j, 0⟩ (List.get?_mem hzget)
  have hb0' := pool1_borrow factory h.object_pool.slots hget
  rw [hb0'] at hb0
  cases hb0
  obtain ⟨hlast, hgl, hpr2⟩ := phase2_root_last _ parentH _ _ none
    h.to_start_stack pool2 pr2 stack2 hp2
    (by
      intro hemp
      have hmem := List.get?_mem hzget
      rw [hemp] at hmem
      exact absurd hmem (List.not_mem_nil _))
  rw [hpr] at hpr2
  cases hpr2
  rw [List.map_snd_zip _ _ (by simp)] at hgl
  rw [freshHandles_getLast _ (by omega : 0 < g.nodes.length)] at hgl
  cases hgl
  have hpidx : parentH.index < h.object_pool.slots.length :=
    Pool.try_borrow_index_lt hpb
  have hpne : (⟨h.object_pool.slots.length + j, 0⟩ : Handle) ≠ parentH := by
    intro he
    have : h.object_pool.slots.length + j = parentH.index :=
      congrArg Handle.index he
    omega
  obtain ⟨ch, sib, par, hch, hsib, hpar, hwv⟩ := wiredNode_some_src hw
  have hread : ∃ m, pool3.try_borrow
      ⟨h.object_pool.slots.length + j, 0⟩ = some m ∧
      m.parent_handle = par ∧ m.child_handle = ch ∧
      (j + 1 ≠ g.nodes.length → m.sibling_handle = sib) := by
    by_cases hjl : j = g.nodes.length - 1
    · obtain ⟨pobj, cobj, hpo, hco, hb3⟩ := link_borrow_child hl
        (by
          intro he
          have : h.object_pool.slots.length + (g.nodes.length - 1)
              = parentH.index := congrArg Handle.index he
          omega)
      rw [show (⟨h.object_pool.slots.length + (g.nodes.length - 1), 0⟩ : Handle)
          = ⟨h.object_pool.slots.length + j, 0⟩ from by rw [hjl]] at hb3 hco
      rw [hb2] at hco
      cases hco
      refine ⟨_, hb3, ?_, ?_, ?_⟩
      · rw [hwv]
      · rw [hwv]
      · intro hcon
        exact absurd (by omega : j + 1 = g.nodes.length) hcon
    · have hne1 : (⟨h.object_pool.slots.length + j, 0⟩ : Handle)
          ≠ ⟨h.object_pool.slots.length + (g.nodes.length - 1), 0⟩ := by
        intro he
        have : h.object_pool.slots.length + j
            = h.object_pool.slots.length + (g.nodes.length - 1) :=
          congrArg Handle.index he
        omega
      rw [show pool3.try_borrow ⟨h.object_pool.slots.length + j, 0⟩
          = pool2.try_borrow ⟨h.object_pool.slots.length + j, 0⟩ from
        link_borrow_nonparticipant hl hne1 hpne]
      refine ⟨w, hb2, ?_, ?_, fun _ => ?_⟩
      · rw [hwv]
      · rw [hwv]
      · rw [hwv]
  obtain ⟨m, hbm, hmp, hmc, hms⟩ := hread
  refine ⟨?_, ?_, ?_, ?_⟩
  · intro hpk
    show (pool3.try_borrow ⟨h.object_pool.slots.length + j, 0⟩).map
      (·.parent_handle) = some (some ⟨h.object_pool.slots.length + k, 0⟩)
    rw [hbm]
    simp only [Option.map_some']
    rw [hmp]
    rw [hpk] at hpar
    dsimp only at hpar
    cases hk : (List.range g.nodes.length).map
        (fun i => (⟨h.object_pool.slots.length + i, 0⟩ : Handle)) |>.get? k with
    | none => rw [hk] at hpar; exact absurd hpar (by simp)
    | some hk2 =>
      rw [hk] at hpar
      simp only [Option.map_some'] at hpar
      cases hpar
      have hkn : k < g.nodes.length := by
        have := List.get?_eq_some.mp hk |>.1
        simpa using this
      rw [freshHandles_get _ hkn] at hk
      cases hk
      rfl
  · intro hpk
    show (pool3.try_borrow ⟨h.object_pool.slots.length + j, 0⟩).map
      (·.parent_handle) = some (some parentH)
    rw [hbm]
    simp only [Option.map_some']
    rw [hmp]
    rw [hpk] at hpar
    dsimp only at hpar
    cases hpar
    rfl
  · intro hck
    show (pool3.try_borrow ⟨h.object_pool.slots.length + j, 0⟩).map
      (·.child_handle) = some (some ⟨h.object_pool.slots.length + k, 0⟩)
    rw [hbm]
    simp only [Option.map_some']
    rw [hmc]
    unfold resolveLink at hch
    rw [hck] at hch
    dsimp only at hch
    cases hk : (List.range g.nodes.length).map
        (fun i => (⟨h.object_pool.slots.length + i, 0⟩ : Handle)) |>.get? k with
    | none => rw [hk] at hch; exact absurd hch (by simp)
    | some hk2 =>
      rw [hk] at hch
      simp only [Option.map_some'] at hch
      cases hch
      have hkn : k < g.nodes.length := by
        have := List.get?_eq_some.mp hk |>.1
        simpa using this
      rw [freshHandles_get _ hkn] at hk
      cases hk
      rfl
  · intro hsk hjlast
    show (pool3.try_borrow ⟨h.object_pool.slots.length + j, 0⟩).map
      (·.sibling_handle) = some (some ⟨h.object_pool.slots.length + k, 0⟩)
    rw [hbm]
    simp only [Option.map_some']
    rw [hms hjlast]
    unfold resolveLink at hsib
    rw [hsk] at hsib
    dsimp only at hsib
    cases hk : (List.range g.nodes.length).map
        (fun i => (⟨h.object_pool.slots.length + i, 0⟩ : Handle)) |>.get? k with
    | none => rw [hk] at hsib; exact absurd hsib (by simp)
    | some hk2 =>
      rw [hk] at hsib
      simp only [Option.map_some'] at hsib
      cases hsib
      have hkn : k < g.nodes.length := by
        have := List.get?_eq_some.mp hk |>.1
        simpa using this
      rw [freshHandles_get _ hkn] at hk
      cases hk
      rfl

/-- Record 1 of the zero-based witness graph: parentless, child link stored
as 2, sibling link stored as 0. -/
def snW1 : SavedNode :=
  { child_index := some 2, parent_index := none, sibling_index := some 0,
    name := "w1", transform := ⟨0, 0⟩, node_extension := .noExt,
    script_type_id := none, enabled := true }

/-- Three-record graph for the zero-based witness: w0 parentless, w1 as
above, w2 with parent link stored as 1. -/
def gW3 : SavedNodeGraph :=
  ⟨[savedLeaf "w0" none none, snW1, savedLeaf "w2" (some 1) none]⟩

/-- Fresh hierarchy (root only, empty free list) holding that catalog. -/
def hW3 : Hierarchy :=
  ⟨⟨0, 0⟩, ⟨[Slot.occupied 0 rootTemplate], []⟩, [], [gW3]⟩

/-- The spawned hierarchy of the zero-based witness. -/
def hW3' : Hierarchy :=
  match hW3.spawn_prefab trivialFactory 0 ⟨0, 0⟩ with
  | some h2 => h2
  | none => hW3

/-- Witness for C3 amended (link_resolution_zero_based), at the concrete
graph gW3 spawned onto a fresh hierarchy: record 2's stored parent value 1
resolves to the handle of record 1 (slot 2), record 1's absent parent
resolves to the spawn parent, its stored child value 2 resolves to record
2's handle (slot 3), and its stored sibling value 0 resolves to record 0's
handle (slot 1). -/
theorem link_resolution_zero_based_witness :
    hW3.object_pool.freeList = [] ∧
    (hW3.object_pool.try_borrow ⟨0, 0⟩).isSome = true ∧
    hW3.saved_prefab_data.get? 0 = some gW3 ∧
    hW3.spawn_prefab trivialFactory 0 ⟨0, 0⟩ = some hW3' ∧
    gW3.nodes.get? 2 = some (savedLeaf "w2" (some 1) none) ∧
    gW3.nodes.get? 1 = some snW1 ∧
    (hW3'.try_borrow ⟨3, 0⟩).map (·.parent_handle) = some (some ⟨2, 0⟩) ∧
    (hW3'.try_borrow ⟨2, 0⟩).map (·.parent_handle) = some (some ⟨0, 0⟩) ∧
    (hW3'.try_borrow ⟨2, 0⟩).map (·.child_handle) = some (some ⟨3, 0⟩) ∧
    (hW3'.try_borrow ⟨2, 0⟩).map (·.sibling_handle) = some (some ⟨1, 0⟩) := by
  have hs : hW3.spawn_prefab trivialFactory 0 ⟨0, 0⟩ = some hW3' := by decide
  refine ⟨rfl, by decide, rfl, hs, rfl, rfl, ?_, ?_, ?_, ?_⟩
  · exact (link_resolution_zero_based trivialFactory hW3 hW3' 0 gW3 ⟨0, 0⟩ 2 1
      (savedLeaf "w2" (some 1) none) rfl (by decide) rfl hs rfl).1 rfl
  · exact (link_resolution_zero_based trivialFactory hW3 hW3' 0 gW3 ⟨0, 0⟩ 1 0
      snW1 rfl (by decide) rfl hs rfl).2.1 rfl
  · exact (link_resolution_zero_based trivialFactory hW3 hW3' 0 gW3 ⟨0, 0⟩ 1 2
      snW1 rfl (by decide) rfl hs rfl).2.2.1 rfl
  · exact (link_resolution_zero_based trivialFactory hW3 hW3' 0 gW3 ⟨0, 0⟩ 1 0
      snW1 rfl (by decide) rfl hs rfl).2.2.2 rfl (by decide)

/-
Drain-side lemmas for the amended start-before-update property.
-/

theorem dfStart_detached (n : Node) :
    dfStart { n with script_data := none } = true := rfl

theorem dfStart_attached (n : Node) (sd : NodeScriptData) :
    dfStart { n with script_data := some sd }
      = sd.script.onStart.all noDestroyCmd := rfl

theorem dfStart_some {n : Node} {sd : NodeScriptData}
    (h : n.script_data = some sd) :
    dfStart n = sd.script.onStart.all noDestroyCmd := by
  unfold dfStart
  rw [h]

theorem count_one_split {α : Type} [DecidableEq α] :
    ∀ {l : List α} {a : α}, l.count a = 1 →
      ∃ l1 l2, l = l1 ++ a :: l2 ∧ a ∉ l1 ∧ a ∉ l2 := by
  intro l
  induction l with
  | nil => intro a h; simp at h
  | cons b l ih =>
    intro a h
    by_cases hba : b = a
    · subst hba
      rw [List.count_cons_self] at h
      have hl : l.count b = 0 := by omega
      exact ⟨[], l, Eq.refl _, List.not_mem_nil _, List.count_eq_zero.mp hl⟩
    · have hab : a ≠ b := fun he => hba he.symm
      rw [List.count_cons_of_ne hab] at h
      obtain ⟨l1, l2, rfl, h1, h2⟩ := ih h
      refine ⟨b :: l1, l2, Eq.refl _, ?_, h2⟩
      intro hmem
      rcases List.mem_cons.mp hmem with he | hm
      · exact hab he
      · exact h1 hm

theorem runOne_src {factory : Nat → ScriptProg} {st : Hierarchy}
    {r : Hierarchy × List Event × Bool}
    (h : run_one_pending_script_start factory st = some r) :
    (st.to_start_stack = [] ∧ r = (st, [], false)) ∨
    (∃ hd rest, st.to_start_stack = hd :: rest ∧
      ((st.try_borrow hd = none ∧
          r = ({ st with to_start_stack := rest }, [], true)) ∨
       (∃ n, st.try_borrow hd = some n ∧ n.script_data = none ∧
          r = ({ st with to_start_stack := rest }, [], true)) ∨
       (∃ n sd st3, st.try_borrow hd = some n ∧ n.script_data = some sd ∧
          runCallback factory hd sd.script.onStart sd
            { st with to_start_stack := rest } n = some st3 ∧
          r = (st3, [Event.start hd], true)))) := by
  unfold run_one_pending_script_start at h
  cases hstk : st.to_start_stack with
  | nil =>
    rw [hstk] at h
    cases h
    exact Or.inl ⟨Eq.refl _, Eq.refl _⟩
  | cons hd rest =>
    rw [hstk] at h
    dsimp only at h
    right
    refine ⟨hd, rest, Eq.refl _, ?_⟩
    have hb0 : ({ st with to_start_stack := rest } : Hierarchy).try_borrow hd
        = st.try_borrow hd := Eq.refl _
    cases hb : st.try_borrow hd with
    | none =>
      rw [hb0, hb] at h
      cases h
      exact Or.inl ⟨Eq.refl _, Eq.refl _⟩
    | some n =>
      rw [hb0, hb] at h
      dsimp only at h
      cases hsd : n.script_data with
      | none =>
        rw [hsd] at h
        cases h
        exact Or.inr (Or.inl ⟨n, Eq.refl _, hsd, Eq.refl _⟩)
      | some sd =>
        rw [hsd] at h
        dsimp only at h
        cases hc : runCallback factory hd sd.script.onStart sd
            { st with to_start_stack := rest } n with
        | none => rw [hc] at h; exact absurd h (by simp)
        | some st3 =>
          rw [hc] at h
          simp only [Option.map_some'] at h
          cases h
          exact Or.inr (Or.inr ⟨n, sd, st3, Eq.refl _, hsd, hc, Eq.refl _⟩)

theorem runOne_wf_len {factory : Nat → ScriptProg} {st st1 : Hierarchy}
    {evs : List Event} {b : Bool} (hwf : st.object_pool.WF)
    (h : run_one_pending_script_start factory st = some (st1, evs, b)) :
    st1.object_pool.WF ∧ st.vec_len ≤ st1.vec_len ∧
      ∀ e ∈ evs, ∃ hd, e = Event.start hd ∧ hd.index < st1.vec_len := by
  rcases runOne_src h with ⟨hstk, heq⟩ | ⟨hd, rest, hstk, hcase⟩
  · simp only [Prod.mk.injEq] at heq
    obtain ⟨rfl, rfl, rfl⟩ := heq
    exact ⟨hwf, Nat.le_refl _, fun e he => absurd he (List.not_mem_nil e)⟩
  · rcases hcase with ⟨hb, heq⟩ | ⟨n, hb, hsd, heq⟩ | ⟨n, sd, st3, hb, hsd, hc, heq⟩
    · simp only [Prod.mk.injEq] at heq
      obtain ⟨rfl, rfl, rfl⟩ := heq
      exact ⟨hwf, Nat.le_refl _, fun e he => absurd he (List.not_mem_nil e)⟩
    · simp only [Prod.mk.injEq] at heq
      obtain ⟨rfl, rfl, rfl⟩ := heq
      exact ⟨hwf, Nat.le_refl _, fun e he => absurd he (List.not_mem_nil e)⟩
    · simp only [Prod.mk.injEq] at heq
      obtain ⟨rfl, rfl, rfl⟩ := heq
      obtain ⟨stD, st2, hsn, hex, hre⟩ := runCallback_src hc
      have hDwf : stD.object_pool.WF := set_node_wf hsn hwf
      have hDlen := (set_node_proj hsn).2.2.2
      obtain ⟨h2wf, h2len⟩ := execCmds_wf_len hDwf hex
      have hlen : st.vec_len ≤ st1.vec_len := by
        rw [hre, (reattach_proj st2 hd sd).2]
        calc st.vec_len = stD.vec_len := hDlen.symm
        _ ≤ st2.vec_len := h2len
      refine ⟨by rw [hre]; exact reattach_wf hd sd h2wf, hlen, ?_⟩
      intro e he
      rw [List.mem_singleton.mp he]
      refine ⟨hd, Eq.refl _, ?_⟩
      exact Nat.lt_of_lt_of_le (Pool.try_borrow_index_lt hb) hlen

theorem runOne_startsDF {factory : Nat → ScriptProg} {st st1 : Hierarchy}
    {evs : List Event} {b : Bool} (hF : FactoryDF factory) (hdf : st.StartsDF)
    (h : run_one_pending_script_start factory st = some (st1, evs, b)) :
    st1.StartsDF := by
  rcases runOne_src h with ⟨hstk, heq⟩ | ⟨hd, rest, hstk, hcase⟩
  · simp only [Prod.mk.injEq] at heq
    obtain ⟨rfl, rfl, rfl⟩ := heq
    exact hdf
  · rcases hcase with ⟨hb, heq⟩ | ⟨n, hb, hsd, heq⟩ | ⟨n, sd, st3, hb, hsd, hc, heq⟩
    · simp only [Prod.mk.injEq] at heq
      obtain ⟨rfl, rfl, rfl⟩ := heq
      exact hdf
    · simp only [Prod.mk.injEq] at heq
      obtain ⟨rfl, rfl, rfl⟩ := heq
      exact hdf
    · simp only [Prod.mk.injEq] at heq
      obtain ⟨rfl, rfl, rfl⟩ := heq
      obtain ⟨stD, st2, hsn, hex, hre⟩ := runCallback_src hc
      have hdfn := Hierarchy.StartsDF_of_borrow hdf hb
      rw [dfStart_some hsd] at hdfn
      have hall0 : ∀ s ∈ ({ st with to_start_stack := rest }
          : Hierarchy).object_pool.slots, slotDFStart s = true := hdf
      have hallD := set_node_slots_pred hsn hall0 (fun g => dfStart_detached n)
      have hall2 := execCmds_slots_pred slotDFStart_scriptOnly slotDFStart_free
        (slotDFStart_inst hF) hex hallD
      rw [hre]
      exact reattach_slots_pred hall2 (fun g n2 => by
        show dfStart { n2 with script_data := some sd } = true
        rw [dfStart_attached]
        exact hdfn)

theorem drain_wf_len {factory : Nat → ScriptProg} :
    ∀ {fuel : Nat} {st st' : Hierarchy} {evs : List Event},
      st.object_pool.WF →
      drainStarts factory fuel st = some (st', evs) →
      st'.object_pool.WF ∧ st.vec_len ≤ st'.vec_len ∧
        (∀ e ∈ evs, ∃ hd, e = Event.start hd ∧ hd.index < st'.vec_len) ∧
        st'.to_start_stack = [] := by
  intro fuel
  induction fuel with
  | zero =>
    intro st st' evs hwf h
    unfold drainStarts at h
    by_cases hstk : st.to_start_stack = []
    · rw [if_pos hstk] at h
      cases h
      exact ⟨hwf, Nat.le_refl _, fun e he => absurd he (List.not_mem_nil e), hstk⟩
    · rw [if_neg hstk] at h
      exact absurd h (by simp)
  | succ fuel ih =>
    intro st st' evs hwf h
    unfold drainStarts at h
    cases hro : run_one_pending_script_start factory st with
    | none => rw [hro] at h; exact absurd h (by simp)
    | some r =>
      obtain ⟨st1, evs1, b⟩ := r
      rw [hro] at h
      dsimp only at h
      obtain ⟨h1wf, h1len, h1ev⟩ := runOne_wf_len hwf hro
      cases b with
      | false =>
        simp only [Bool.false_eq_true, if_false] at h
        cases h
        rcases runOne_src hro with ⟨hstk, heq⟩ | ⟨hd, rest, hstk, hcase⟩
        · simp only [Prod.mk.injEq] at heq
          obtain ⟨rfl, rfl, _⟩ := heq
          exact ⟨hwf, Nat.le_refl _, fun e he => absurd he (List.not_mem_nil e), hstk⟩
        · rcases hcase with ⟨_, heq⟩ | ⟨n, _, _, heq⟩ | ⟨n, sd, st3, _, _, _, heq⟩ <;>
            simp only [Prod.mk.injEq] at heq
          · exact absurd heq.2.2 Bool.false_ne_true
          · exact absurd heq.2.2 Bool.false_ne_true
          · exact absurd heq.2.2 Bool.false_ne_true
      | true =>
        simp only [if_true] at h
        cases hd1 : drainStarts factory fuel st1 with
        | none => rw [hd1] at h; exact absurd h (by simp)
        | some r2 =>
          rw [hd1] at h
          simp only [Option.map_some'] at h
          cases h
          obtain ⟨h2wf, h2len, h2ev, h2stk⟩ := ih h1wf hd1
          refine ⟨h2wf, Nat.le_trans h1len h2len, ?_, h2stk⟩
          intro e he
          rcases List.mem_append.mp he with he1 | he2
          · obtain ⟨hd, hsh, hbd⟩ := h1ev e he1
            exact ⟨hd, hsh, Nat.lt_of_lt_of_le hbd h2len⟩
          · exact h2ev e he2

theorem drain_startsDF {factory : Nat → ScriptProg} (hF : FactoryDF factory) :
    ∀ {fuel : Nat} {st st' : Hierarchy} {evs : List Event},
      st.StartsDF →
      drainStarts factory fuel st = some (st', evs) →
      st'.StartsDF := by
  intro fuel
  induction fuel with
  | zero =>
    intro st st' evs hdf h
    unfold drainStarts at h
    by_cases hstk : st.to_start_stack = []
    · rw [if_pos hstk] at h
      cases h
      exact hdf
    · rw [if_neg hstk] at h
      exact absurd h (by simp)
  | succ fuel ih =>
    intro st st' evs hdf h
    unfold drainStarts at h
    cases hro : run_one_pending_script_start factory st with
    | none => rw [hro] at h; exact absurd h (by simp)
    | some r =>
      obtain ⟨st1, evs1, b⟩ := r
      rw [hro] at h
      dsimp only at h
      have h1df := runOne_startsDF hF hdf hro
      cases b with
      | false =>
        simp only [Bool.false_eq_true, if_false] at h
        cases h
        exact h1df
      | true =>
        simp only [if_true] at h
        cases hd1 : drainStarts factory fuel st1 with
        | none => rw [hd1] at h; exact absurd h (by simp)
        | some r2 =>
          rw [hd1] at h
          simp only [Option.map_some'] at h
          cases h
          exact ih h1df hd1

theorem runOne_count {factory : Nat → ScriptProg} {st st1 : Hierarchy}
    {evs : List Event} {b : Bool} {hdl : Handle} {n : Node} {sd : NodeScriptData}
    (_hF : FactoryDF factory) (hwf : st.object_pool.WF) (hdf : st.StartsDF)
    (hb : st.try_borrow hdl = some n) (hsd : n.script_data = some sd)
    (h : run_one_pending_script_start factory st = some (st1, evs, b)) :
    evs.count (Event.start hdl) + st1.to_start_stack.count hdl
      = st.to_start_stack.count hdl ∧
    ∃ n' sd', st1.try_borrow hdl = some n' ∧ n'.script_data = some sd' := by
  rcases runOne_src h with ⟨hstk, heq⟩ | ⟨hd, rest, hstk, hcase⟩
  · simp only [Prod.mk.injEq] at heq
    obtain ⟨rfl, rfl, rfl⟩ := heq
    exact ⟨by simp, n, sd, hb, hsd⟩
  · rcases hcase with ⟨hb0, heq⟩ | ⟨n0, hb0, hsd0, heq⟩ |
      ⟨n0, sd0, st3, hb0, hsd0, hc, heq⟩
    · simp only [Prod.mk.injEq] at heq
      obtain ⟨rfl, rfl, rfl⟩ := heq
      have hne : hdl ≠ hd := by
        intro he
        rw [he, hb0] at hb
        exact absurd hb (by simp)
      constructor
      · dsimp only
        rw [hstk, List.count_cons_of_ne hne]
        simp
      · exact ⟨n, sd, hb, hsd⟩
    · simp only [Prod.mk.injEq] at heq
      obtain ⟨rfl, rfl, rfl⟩ := heq
      have hne : hdl ≠ hd := by
        intro he
        rw [he, hb0] at hb
        cases hb
        rw [hsd0] at hsd
        exact absurd hsd (by simp)
      constructor
      · dsimp only
        rw [hstk, List.count_cons_of_ne hne]
        simp
      · exact ⟨n, sd, hb, hsd⟩
    · simp only [Prod.mk.injEq] at heq
      obtain ⟨rfl, rfl, rfl⟩ := heq
      obtain ⟨stD, st2, hsn, hex, hre⟩ := runCallback_src hc
      have hall : sd0.script.onStart.all noDestroyCmd = true := by
        have hd0 := Hierarchy.StartsDF_of_borrow hdf hb0
        rw [dfStart_some hsd0] at hd0
        exact hd0
      have hDwf : stD.object_pool.WF := set_node_wf hsn hwf
      have hsim := execCmds_df_sim hall hDwf hex
      have hDstk : stD.to_start_stack = rest := (set_node_proj hsn).1
      by_cases hcaseq : hdl = hd
      · have hb0' : st.try_borrow hdl = some n0 := by rw [hcaseq]; exact hb0
        have hnn : n0 = n := Option.some.inj (hb0'.symm.trans hb)
        subst hnn
        have hss : sd0 = sd := Option.some.inj (hsd0.symm.trans hsd)
        subst hss
        obtain ⟨n2, hb2, hsd2, hcnt2⟩ := hsim.2.2 hdl { n0 with script_data := none }
          (by rw [hcaseq]; exact set_node_borrow_self hsn)
        constructor
        · have hstk3 : st1.to_start_stack = st2.to_start_stack := by
            rw [hre]
            exact (reattach_proj st2 hd sd0).1
          rw [hstk, hstk3, hcnt2, hDstk, hcaseq]
          simp [List.count_cons_self]
          omega
        · refine ⟨{ n2 with script_data := some sd0 }, sd0, ?_, Eq.refl _⟩
          rw [hcaseq] at hb2
          rw [hre, hcaseq]
          exact reattach_borrow_self hb2
      · have hne : hdl ≠ hd := hcaseq
        have hbD : stD.try_borrow hdl = some n := by
          rw [set_node_borrow_other hsn hne]
          exact hb
        obtain ⟨n2, hb2, hsd2, hcnt2⟩ := hsim.2.2 hdl n hbD
        constructor
        · have hstk3 : st1.to_start_stack = st2.to_start_stack := by
            rw [hre]
            exact (reattach_proj st2 hd sd0).1
          have hcnt0 : List.count (Event.start hdl) [Event.start hd] = 0 := by
            rw [List.count_cons_of_ne (by intro he; exact hne (by injection he))]
            simp
          rw [hcnt0, hstk3, hcnt2, hDstk, hstk, List.count_cons_of_ne hne]
          simp
        · refine ⟨n2, sd, ?_, by rw [hsd2, hsd]⟩
          rw [hre]
          rw [reattach_borrow_other hne]
          exact hb2

theorem drain_count {factory : Nat → ScriptProg} (hF : FactoryDF factory) :
    ∀ {fuel : Nat} {st st' : Hierarchy} {evs : List Event} {hdl : Handle}
      {n : Node} {sd : NodeScriptData},
      st.object_pool.WF → st.StartsDF →
      st.try_borrow hdl = some n → n.script_data = some sd →
      drainStarts factory fuel st = some (st', evs) →
      evs.count (Event.start hdl) = st.to_start_stack.count hdl := by
  intro fuel
  induction fuel with
  | zero =>
    intro st st' evs hdl n sd hwf hdf hb hsd h
    unfold drainStarts at h
    by_cases hstk : st.to_start_stack = []
    · rw [if_pos hstk] at h
      cases h
      rw [hstk]
      simp
    · rw [if_neg hstk] at h
      exact absurd h (by simp)
  | succ fuel ih =>
    intro st st' evs hdl n sd hwf hdf hb hsd h
    unfold drainStarts at h
    cases hro : run_one_pending_script_start factory st with
    | none => rw [hro] at h; exact absurd h (by simp)
    | some r =>
      obtain ⟨st1, evs1, b⟩ := r
      rw [hro] at h
      dsimp only at h
      obtain ⟨hcnt1, n', sd', hb1, hsd1⟩ := runOne_count hF hwf hdf hb hsd hro
      cases b with
      | false =>
        simp only [Bool.false_eq_true, if_false] at h
        cases h
        rcases runOne_src hro with ⟨hstk, heq⟩ | ⟨hd, rest, hstk, hcase⟩
        · simp only [Prod.mk.injEq] at heq
          obtain ⟨rfl, rfl, _⟩ := heq
          rw [hstk]
          simp
        · rcases hcase with ⟨_, heq⟩ | ⟨n0, _, _, heq⟩ | ⟨n0, sd0, st3, _, _, _, heq⟩ <;>
            simp only [Prod.mk.injEq] at heq
          · exact absurd heq.2.2 Bool.false_ne_true
          · exact absurd heq.2.2 Bool.false_ne_true
          · exact absurd heq.2.2 Bool.false_ne_true
      | true =>
        simp only [if_true] at h
        cases hd1 : drainStarts factory fuel st1 with
        | none => rw [hd1] at h; exact absurd h (by simp)
        | some r2 =>
          rw [hd1] at h
          simp only [Option.map_some'] at h
          cases h
          obtain ⟨h1wf, _, _⟩ := runOne_wf_len hwf hro
          have h1df := runOne_startsDF hF hdf hro
          have hcnt2 := ih h1wf h1df hb1 hsd1 hd1
          rw [List.count_append, hcnt2]
          exact hcnt1

theorem visit_startsDF {factory : Nat → ScriptProg} {st st1 : Hierarchy}
    {i : Nat} {evs : List Event} (hF : FactoryDF factory) (hdf : st.StartsDF)
    (he : updateVisit factory st i = some (st1, evs)) :
    st1.StartsDF := by
  rcases updateVisit_src he with ⟨rfl, _⟩ | ⟨n, sd, stD, st2, hb, hsd, hsn, hex, rfl, _⟩
  · exact hdf
  · have hdfn := Hierarchy.StartsDF_of_borrow hdf hb
    rw [dfStart_some hsd] at hdfn
    have hallD := set_node_slots_pred hsn hdf (fun g => dfStart_detached n)
    have hall2 := execCmds_slots_pred slotDFStart_scriptOnly slotDFStart_free
      (slotDFStart_inst hF) hex hallD
    exact reattach_slots_pred hall2 (fun g n2 => by
      show dfStart { n2 with script_data := some sd } = true
      rw [dfStart_attached]
      exact hdfn)

theorem pass_startsDF {factory : Nat → ScriptProg} (hF : FactoryDF factory) :
    ∀ {is : List Nat} {st st' : Hierarchy} {evs : List Event},
      st.StartsDF →
      runUpdatesFrom factory is st = some (st', evs) →
      st'.StartsDF := by
  intro is
  induction is with
  | nil =>
    intro st st' evs hdf he
    cases he
    exact hdf
  | cons i is ih =>
    intro st st' evs hdf he
    unfold runUpdatesFrom at he
    cases hv : updateVisit factory st i with
    | none => rw [hv] at he; exact absurd he (by simp)
    | some r =>
      rw [hv] at he
      simp only [Option.some_bind] at he
      cases hrest : runUpdatesFrom factory is r.1 with
      | none => rw [hrest] at he; exact absurd he (by simp)
      | some r2 =>
        rw [hrest] at he
        simp only [Option.map_some'] at he
        cases he
        have h1df := visit_startsDF hF hdf
          (show updateVisit factory st i = some (r.1, r.2) from by rw [hv])
        exact ih h1df (show runUpdatesFrom factory is r.1 = some (r2.1, r2.2)
          from by rw [hrest])

theorem runFrame_src {factory : Nat → ScriptProg} {fuel : Nat}
    {st st' : Hierarchy} {evs : List Event}
    (h : runFrame factory fuel st = some (st', evs)) :
    ∃ stM evsD evsU, drainStarts factory fuel st = some (stM, evsD) ∧
      runUpdatesFrom factory (List.range stM.vec_len) stM = some (st', evsU) ∧
      evs = evsD ++ evsU := by
  unfold runFrame at h
  cases hd1 : drainStarts factory fuel st with
  | none => rw [hd1] at h; exact absurd h (by simp)
  | some r1 =>
    rw [hd1] at h
    simp only [Option.some_bind] at h
    unfold Hierarchy.run_script_update at h
    cases hu1 : runUpdatesFrom factory (List.range r1.1.vec_len) r1.1 with
    | none => rw [hu1] at h; exact absurd h (by simp)
    | some r2 =>
      rw [hu1] at h
      simp only [Option.map_some'] at h
      cases h
      exact ⟨r1.1, r1.2, r2.2, by rw [Prod.mk.eta],
        by rw [Prod.mk.eta]; exact hu1, Eq.refl _⟩

/-- C4 amended: a node created during a frame's update pass whose slot index
is at or beyond that pass's entry length (so the pass, whose range was fixed
at entry, never visits it) receives no callback event in the creating frame;
its pending start, sitting exactly once on the start stack afterwards, fires
exactly once during the next frame and strictly before any update event for
the node, provided the factory only produces destroy-free start callbacks. -/
theorem start_before_update_amended
    (factory : Nat → ScriptProg) (fuel1 fuel2 : Nat)
    (stA stB stC : Hierarchy) (evsA evsC : List Event) (hdl : Handle) (L : Nat)
    (hF : FactoryDF factory)
    (hwfA : stA.object_pool.WF)
    (hdfA : stA.StartsDF)
    (hL : frameEntryLen factory fuel1 stA = some L)
    (hidx : L ≤ hdl.index)
    (hfA : runFrame factory fuel1 stA = some (stB, evsA))
    (hcount : stB.to_start_stack.count hdl = 1)
    (hvalid : (stB.try_borrow hdl).map (fun n => n.script_data.isSome) = some true)
    (hfB : runFrame factory fuel2 stB = some (stC, evsC)) :
    ∃ l1 l2, evsA ++ evsC = l1 ++ Event.start hdl :: l2 ∧
      Event.update hdl ∉ l1 ∧ Event.start hdl ∉ l1 ∧ Event.start hdl ∉ l2 := by
  obtain ⟨stMA, dA, uA, hdA, huA, rfl⟩ := runFrame_src hfA
  have hLA : stMA.vec_len = L := by
    unfold frameEntryLen at hL
    rw [hdA] at hL
    simp only [Option.map_some'] at hL
    exact Option.some.inj hL
  obtain ⟨hMAwf, hlenA, hevDA, hstkA⟩ := drain_wf_len hwfA hdA
  have hMAdf := drain_startsDF hF hdfA hdA
  obtain ⟨hBwf, hBlen⟩ := runUpdatesFrom_wf_len hMAwf huA
  have hBdf := pass_startsDF hF hMAdf huA
  obtain ⟨n, hbB, hsdB⟩ : ∃ n, stB.try_borrow hdl = some n ∧
      ∃ sd, n.script_data = some sd := by
    cases hbB : stB.try_borrow hdl with
    | none => rw [hbB] at hvalid; exact absurd hvalid (by simp)
    | some n =>
      rw [hbB] at hvalid
      simp only [Option.map_some'] at hvalid
      have hiss : n.script_data.isSome = true := Option.some.inj hvalid
      obtain ⟨sd, hsd⟩ := Option.isSome_iff_exists.mp hiss
      exact ⟨n, Eq.refl _, sd, hsd⟩
  obtain ⟨sd, hsdB⟩ := hsdB
  obtain ⟨stMB, dB, uB, hdB, huB, rfl⟩ := runFrame_src hfB
  have hcntB := drain_count hF hBwf hBdf hbB hsdB hdB
  rw [hcount] at hcntB
  obtain ⟨d1, d2, hdsplit, hno1, hno2⟩ := count_one_split hcntB
  obtain ⟨hMBwf, hBMlen, hevDB, hstkB⟩ := drain_wf_len hBwf hdB
  refine ⟨(dA ++ uA) ++ d1, d2 ++ uB, ?_, ?_, ?_, ?_⟩
  · rw [hdsplit]
    simp [List.append_assoc]
  · intro hmem
    rcases List.mem_append.mp hmem with hm | hm
    · rcases List.mem_append.mp hm with hm2 | hm2
      · obtain ⟨h0, hsh, _⟩ := hevDA _ hm2
        exact Event.noConfusion hsh
      · obtain ⟨i, hi, g, hg⟩ := runUpdatesFrom_events huA _ hm2
        have hhg : hdl = ⟨i, g⟩ := by injection hg
        have hiL : i < L := by rw [← hLA]; exact List.mem_range.mp hi
        have : hdl.index = i := by rw [hhg]
        omega
    · have hm2 : Event.update hdl ∈ dB := by
        rw [hdsplit]
        exact List.mem_append.mpr (Or.inl hm)
      obtain ⟨h0, hsh, _⟩ := hevDB _ hm2
      exact Event.noConfusion hsh
  · intro hmem
    rcases List.mem_append.mp hmem with hm | hm
    · rcases List.mem_append.mp hm with hm2 | hm2
      · obtain ⟨h0, hsh, hbd⟩ := hevDA _ hm2
        have hh0 : hdl = h0 := by injection hsh
        rw [hLA] at hbd
        have : h0.index < L := hbd
        rw [← hh0] at this
        omega
      · obtain ⟨i, hi, g, hg⟩ := runUpdatesFrom_events huA _ hm2
        exact Event.noConfusion hg
    · exact hno1 hm
  · intro hmem
    rcases List.mem_append.mp hmem with hm | hm
    · exact hno2 hm
    · obtain ⟨i, hi, g, hg⟩ := runUpdatesFrom_events huB _ hm
      exact Event.noConfusion hg

/-- Factory for the amended-C4 witness: script 1 spawns prefab 0 under the
root on every update; every other id is inert.  All start callbacks are
empty, hence destroy-free. -/
def factoryW4 : Nat → ScriptProg :=
  fun id => if id = 1 then ⟨[], [Cmd.spawn 0 ⟨0, 0⟩]⟩ else ⟨[], []⟩

/-- Initial state of the amended-C4 witness: unscripted root, one spawner
node, empty free list and start stack, and a one-record catalog whose node
carries script id 7. -/
def stW4 : Hierarchy :=
  ⟨⟨0, 0⟩,
   ⟨[Slot.occupied 0 rootTemplate,
     Slot.occupied 0 (scriptedNode "u" 1 ⟨[], [Cmd.spawn 0 ⟨0, 0⟩]⟩)], []⟩,
   [], [⟨[savedLeaf "b" none (some 7)]⟩]⟩

/-- State after the first witness frame. -/
def stW4B : Hierarchy :=
  match runFrame factoryW4 4 stW4 with
  | some r => r.1
  | none => stW4

/-- Events of the first witness frame. -/
def evsW4A : List Event :=
  match runFrame factoryW4 4 stW4 with
  | some r => r.2
  | none => []

/-- State after the second witness frame. -/
def stW4C : Hierarchy :=
  match runFrame factoryW4 4 stW4B with
  | some r => r.1
  | none => stW4B

/-- Events of the second witness frame. -/
def evsW4C : List Event :=
  match runFrame factoryW4 4 stW4B with
  | some r => r.2
  | none => []

/-- Witness for C4 amended (start_before_update_amended): node (2,0) is
spawned during the first frame's update pass at index 2, exactly the entry
length of that pass, receives no event that frame, and in the second frame
its start fires once, before its only update. -/
theorem start_before_update_amended_witness :
    FactoryDF factoryW4 ∧
    stW4.object_pool.WF ∧
    stW4.StartsDF ∧
    frameEntryLen factoryW4 4 stW4 = some 2 ∧
    2 ≤ (⟨2, 0⟩ : Handle).index ∧
    runFrame factoryW4 4 stW4 = some (stW4B, evsW4A) ∧
    stW4B.to_start_stack.count ⟨2, 0⟩ = 1 ∧
    (stW4B.try_borrow ⟨2, 0⟩).map (fun n => n.script_data.isSome) = some true ∧
    runFrame factoryW4 4 stW4B = some (stW4C, evsW4C) ∧
    (∃ l1 l2, evsW4A ++ evsW4C = l1 ++ Event.start ⟨2, 0⟩ :: l2 ∧
      Event.update ⟨2, 0⟩ ∉ l1 ∧ Event.start ⟨2, 0⟩ ∉ l1 ∧
      Event.start ⟨2, 0⟩ ∉ l2) := by
  have hF : FactoryDF factoryW4 := by
    intro id
    unfold factoryW4
    by_cases h : id = 1
    · rw [if_pos h]; rfl
    · rw [if_neg h]; rfl
  have hfA : runFrame factoryW4 4 stW4 = some (stW4B, evsW4A) := by decide
  have hfB : runFrame factoryW4 4 stW4B = some (stW4C, evsW4C) := by decide
  refine ⟨hF, by decide, by decide, by decide, by decide, hfA, by decide,
    by decide, hfB, ?_⟩
  exact start_before_update_amended factoryW4 4 4 stW4 stW4B stW4C evsW4A evsW4C
    ⟨2, 0⟩ 2 hF (by decide) (by decide) (by decide) (by decide) hfA (by decide)
    (by decide) hfB
